import Mathlib

/-!
The staged import engine of nodebb-plugin-import, `src/server/importer.js`.

A shallow embedding of the importer: the records of the dataset are flat
JavaScript objects, the singleton `Importer` becomes an explicit `World`
value, and every answer of the target forum (NodeBB) comes from a `Target`
value that sees the calls issued so far.
-/

set_option autoImplicit false

namespace Importer

/-! ## JavaScript values and flat objects -/

/-- The JavaScript values a record field can hold; numbers are the integral ones. -/
inductive JsVal where
  | undefined
  | null
  | bool (b : Bool)
  | num (n : Int)
  | str (s : String)
  deriving DecidableEq, Repr, Inhabited

namespace JsVal

/-- JavaScript truthiness: what `if (v)`, `!v` and `v || d` test. -/
def truthy : JsVal → Bool
  | undefined => false
  | null => false
  | bool b => b
  | num n => n != 0
  | str s => s != ""

/-- The expression `a || b`. -/
def or (a b : JsVal) : JsVal := if a.truthy then a else b

/-- The expression `a === b` on these values. -/
def strictEq (a b : JsVal) : Bool := decide (a = b)

/-- The string a value turns into as a property key or in `'' + v`. -/
def toStr : JsVal → String
  | undefined => "undefined"
  | null => "null"
  | bool true => "true"
  | bool false => "false"
  | num n => toString n
  | str s => s

/-- The string held by a field that is a string when present, as in
`user._username || ''`; any other value counts as missing. -/
def strOrEmpty : JsVal → String
  | str s => s
  | _ => ""

end JsVal

/-- A flat JavaScript object: its own properties in insertion order. -/
abbrev Obj := List (String × JsVal)

namespace Obj

/-- Property read `o[k]`, `undefined` when `o` has no such property. -/
def get : Obj → String → JsVal
  | [], _ => JsVal.undefined
  | (k', v) :: rest, k => if k' = k then v else get rest k

/-- Property write `o[k] = v`: replaces the value in place or appends the key. -/
def set : Obj → String → JsVal → Obj
  | [], k, v => [(k, v)]
  | (k', v') :: rest, k, v => if k' = k then (k, v) :: rest else (k', v') :: set rest k v

/-- One source object copied onto a target by `nodeExtend`: for every property
name of the source, the value read under that name is written onto the target
unless it is `undefined`. -/
def extend (target src : Obj) : Obj :=
  src.foldl (fun t kv => if get src kv.1 = JsVal.undefined then t
    else set t kv.1 (get src kv.1)) target

/-- The call `nodeExtend(true, {}, a, b, ...)` on flat objects. -/
def nodeExtend (srcs : List Obj) : Obj := srcs.foldl extend []

/-- Whether `o` has an own property `k`. -/
def has (o : Obj) (k : String) : Bool := o.any (fun kv => kv.1 == k)

end Obj

/-! ## What the importer takes from outside this file -/

/-- Functions of `utils.js` and of the JavaScript runtime that the importer calls. -/
structure Env where
  /-- Function `utils.isUserNameValid`. -/
  isUserNameValid : String → Bool
  /-- Function `utils.slugify`. -/
  slugify : String → String
  /-- Function `utils.truncateStr`. -/
  truncateStr : String → Nat → String
  /-- Method `String.prototype.toLowerCase`. -/
  toLowerCase : String → String
  /-- Function `JSON.stringify` on a flat object. -/
  jsonStringify : Obj → String
  /-- Product `a * b` of two values, after JavaScript number conversion. -/
  times : JsVal → JsVal → JsVal
  /-- Expression `new Date(t).toISOString()`, `none` when it throws a `RangeError`. -/
  toISOString : JsVal → Option String
  /-- Expression `((t1 - t0)/1000).toFixed(2)`. -/
  seconds : Int → Int → String
  /-- Directory `__dirname` of the module. -/
  dirname : String
  /-- Expression `parseInt(v, 10)`, `none` when the result is `NaN`. -/
  parseInt : JsVal → Option Int

/-- The constant `backupConfigFilepath`. -/
def backupConfigFilepath (env : Env) : String :=
  env.dirname ++ "/tmp/importer.nbb.backedConfig.json"

/-! ## Username resolution -/

/-- Class `\w` of a regular expression without the `u` flag. -/
def isWordChar (c : Char) : Bool :=
  ('a' ≤ c && c ≤ 'z') || ('A' ≤ c && c ≤ 'Z') || ('0' ≤ c && c ≤ '9') || c == '_'

/-- Class `\s`: the white space and line terminator code points of ECMAScript. -/
def isJsSpace (c : Char) : Bool :=
  let n := c.toNat
  (9 ≤ n && n ≤ 13) || n == 0x20 || n == 0xA0 || n == 0x1680 || (0x2000 ≤ n && n ≤ 0x200A)
    || n == 0x2028 || n == 0x2029 || n == 0x202F || n == 0x205F || n == 0x3000 || n == 0xFEFF

/-- Members of the bracket `[\u00BF-\u1FFF\u2C00-\uD7FF\-.*\w\s]` as written. -/
def inBracket (c : Char) : Bool :=
  let n := c.toNat
  (0xBF ≤ n && n ≤ 0x1FFF) || (0x2C00 ≤ n && n ≤ 0xD7FF) || c == '-' || c == '.' || c == '*'
    || isWordChar c || isJsSpace c

/-- Characters the first `replace` of `cleanUsername` keeps. The expression has
the `i` flag, so a character is kept when its canonical (upper-case) form is
that of a member of the bracket: besides the members themselves this is the
micro sign U+00B5, whose upper case U+039C lies in the first range. A character
above U+FFFF is a pair of surrogates, which the bracket excludes. -/
def keptByFirstReplace (c : Char) : Bool := inBracket c || c.toNat == 0xB5

/-- Function `Importer.cleanUsername`: the first `replace` drops what its negated
bracket matches, the five that follow drop the space, `*`, `æ`, `ø` and `å`. -/
def cleanUsername (str : String) : String :=
  let str := String.mk (str.data.filter keptByFirstReplace)
  String.mk (((((str.data.filter (· != ' ')).filter (· != '*')).filter (· != 'æ')).filter
    (· != 'ø')).filter (· != 'å'))

/-- The object `{username: .., userslug: ..}` that `makeValidNbbUsername`
returns; `none` is `null`. -/
structure NbbUsername where
  username : Option String
  userslug : Option String
  deriving DecidableEq, Repr

/-- Function `Importer.makeValidNbbUsername` on two strings. A slug is truthy when it is
not the empty string, and so is the alternative username. -/
def makeValidNbbUsername (env : Env) (_username _alternativeUsername : String) : NbbUsername :=
  let _userslug := env.slugify _username
  if env.isUserNameValid _username && _userslug != "" then
    { username := some _username, userslug := some _userslug }
  else
    let username := cleanUsername _username
    let userslug := env.slugify username
    if env.isUserNameValid username && userslug != "" then
      { username := some username, userslug := some userslug }
    else if _alternativeUsername != "" then
      let _alternativeUsernameSlug := env.slugify _alternativeUsername
      if env.isUserNameValid _alternativeUsername && _alternativeUsernameSlug != "" then
        { username := some _alternativeUsername, userslug := some _alternativeUsernameSlug }
      else
        let alternativeUsername := cleanUsername _alternativeUsername
        let alternativeUsernameSlug := env.slugify alternativeUsername
        if env.isUserNameValid alternativeUsername && alternativeUsernameSlug != "" then
          { username := some alternativeUsername, userslug := some alternativeUsernameSlug }
        else
          { username := none, userslug := none }
    else
      { username := none, userslug := none }

/-- A candidate qualifies when the validity rule accepts it and its slug is not empty. -/
def qualifies (env : Env) (c : String) : Bool :=
  env.isUserNameValid c && env.slugify c != ""

/-- The four candidates of the cascade in the order the specification lists them. -/
def candidates (_username _alternativeUsername : String) : List String :=
  [_username, cleanUsername _username, _alternativeUsername, cleanUsername _alternativeUsername]

/-- The cascade as the specification words it: the first qualifying candidate
with its slug, `{null, null}` when there is none. -/
def firstQualifying (env : Env) (_username _alternativeUsername : String) : NbbUsername :=
  match (candidates _username _alternativeUsername).find? (qualifies env) with
  | some c => { username := some c, userslug := some (env.slugify c) }
  | none => { username := none, userslug := none }

/-! ## The state of a run -/

/-- A percentage as JavaScript computes it: `count / total * 100` is `NaN` for
`0 / 0` and `Infinity` for a positive count over `0`. -/
inductive JsNum where
  | nan
  | inf
  | fin (q : ℚ)
  deriving DecidableEq

/-- A notification sent through `Importer.emit`. The text of a warning, success
or error message is the concatenation of the string forms of its parts. -/
inductive Event where
  | warn (parts : List JsVal)
  | success (parts : List JsVal)
  | error (parts : List JsVal)
  | phase (phase : String)
  | progress (count total : Nat) (percentage : JsNum)
  deriving DecidableEq

/-- A request issued to the target system or to its database. -/
inductive Call where
  | categoriesCreate (data : Obj)
  | userCreate (data : Obj)
  | topicsPost (data : Obj)
  | postsCreate (data : Obj)
  | userSetUserFields (uid : JsVal) (fields : Obj)
  | postsSetPostFields (pid : JsVal) (fields : Obj)
  | groupJoin (group : String) (uid : JsVal)
  | dbSetObject (key : String) (data : Obj)
  | dbSetObjectField (key field : String) (value : JsVal)
  | dbSortedSetAdd (key : String) (score member : JsVal)
  | dbGetObject (key : String)
  | metaConfigsInit
  | dbGetSortedSetRevRange (key : String)
  | dbGetObjectField (key field : String)
  | categoriesPurge (cid : JsVal)
  | userDelete (uid : JsVal)
  deriving DecidableEq, Repr

/-- The target system as the importer meets it: each answer may depend on all
the calls issued before. A creation answers with an error or with the created
data, a write with an error or with none. -/
structure Target where
  categoriesCreate : List Call → Obj → Except String Obj
  userCreate : List Call → Obj → Except String JsVal
  /-- Answer of `Topics.post`: the pair `topicData`, `postData`. -/
  topicsPost : List Call → Obj → Except String (Obj × Obj)
  postsCreate : List Call → Obj → Except String Obj
  userSetUserFields : List Call → JsVal → Obj → Option String
  groupJoin : List Call → String → JsVal → Option String
  dbSetObject : List Call → String → Obj → Option String
  dbSetObjectField : List Call → String → String → JsVal → Option String
  dbGetObject : List Call → String → Option String
  metaConfigsInit : List Call → Option String
  /-- Draw number `n` of `Math.random()`. -/
  random : Nat → ℚ
  /-- Clock reading `+new Date()`. -/
  now : List Call → Int
  dbSortedSetAdd : List Call → String → JsVal → JsVal → Option String
  /-- Answer of `db.getSortedSetRevRange(key, 0, -1, ..)`: an error, or the value
  handed back, `none` when it is not an array. -/
  dbGetSortedSetRevRange : List Call → String → Except String (Option (List JsVal))
  dbGetObjectField : List Call → String → String → Except String JsVal
  categoriesPurge : List Call → JsVal → Option String
  /-- Totals handed back by `Data.countCategories` and `Data.countUsers`. -/
  countCategories : List Call → Nat
  countUsers : List Call → Nat
  /-- Enumerations `Data.processCategoriesCidsSet` and `Data.processUsersUidsSet`,
  functions of the module `data.js`: the batches of ids handed to the iterator
  one after the other, the next one once the iterator has called `nextBatch`
  without an error, or the error the enumeration ends with before the first
  batch. The options `alwaysStartAt` and `doneIf` only decide which batches
  these are. -/
  categoriesCidsBatches : List Call → Except String (List (List JsVal))
  usersUidsBatches : List Call → Except String (List (List JsVal))

/-- One of the four mappings of the dataset: the records under their original
ids and the stored id list (`_uids`, `_cids`, `_tids`, `_pids`). A lookup that
finds no record stands for every property read whose result has no fields. -/
structure Table where
  recs : List (String × Obj)
  ids : List String
  deriving DecidableEq

namespace Table

/-- Property read `table[k]`. -/
def get (t : Table) (k : String) : Option Obj := t.recs.lookup k

/-- Replacement of the record stored under `k` in a list of records. -/
def putRec : List (String × Obj) → String → Obj → List (String × Obj)
  | [], k, o => [(k, o)]
  | (k', o') :: rest, k, o => if k' = k then (k, o) :: rest else (k', o') :: putRec rest k o

/-- Property write `table[k] = o`. -/
def put (t : Table) (k : String) (o : Obj) : Table := { t with recs := putRec t.recs k o }

end Table

/-- The value `Importer.data`. -/
structure Dataset where
  users : Table
  categories : Table
  topics : Table
  posts : Table
  deriving DecidableEq

/-- The entry `passwordGen` of the configuration. -/
structure PasswordGen where
  enabled : Bool
  chars : String
  len : Nat
  deriving DecidableEq

/-- The value `Importer._config`; `backedConfig` is `none` until it is set. -/
structure Config where
  passwordGen : PasswordGen
  categoriesTextColors : List JsVal
  categoriesBgColors : List JsVal
  categoriesIcons : List JsVal
  autoConfirmEmails : Bool
  userReputationMultiplier : JsVal
  adminTakeOwnership : Obj
  nbbTmpConfig : Obj
  backedConfig : Option Obj
  deriving DecidableEq

/-- The constant `defaults`. -/
def defaults : Config where
  passwordGen :=
    { enabled := false
      chars := "\x7b\x7d.-_=+qwertyuiopasdfghjklzxcvbnmQWERTYUIOPASDFGHJKLZXCVBNM1234567890"
      len := 13 }
  categoriesTextColors := [JsVal.str "#FFFFFF"]
  categoriesBgColors := [JsVal.str "#ab1290", JsVal.str "#004c66", JsVal.str "#0059b2"]
  categoriesIcons := [JsVal.str "fa-comment"]
  autoConfirmEmails := true
  userReputationMultiplier := JsVal.num 1
  adminTakeOwnership := [("enable", JsVal.bool false), ("username", JsVal.str "admin")]
  nbbTmpConfig :=
    [("postDelay", JsVal.num 0), ("minimumPostLength", JsVal.num 1),
     ("minimumPasswordLength", JsVal.num 0), ("minimumTitleLength", JsVal.num 1),
     ("maximumTitleLength", JsVal.num 300), ("maximumUsernameLength", JsVal.num 100),
     ("requireEmailConfirmation", JsVal.num 0), ("allowGuestPosting", JsVal.num 1)]
  backedConfig := none

/-- Everything a run reads and writes. -/
structure World where
  /-- Value `Importer._config`. -/
  config : Config
  /-- Value `Importer.data`. -/
  data : Dataset
  /-- Notifications emitted so far, oldest first. -/
  events : List Event
  /-- Value `Importer.phasePercentage`. -/
  phasePercentage : JsNum
  /-- Calls issued to the target system so far, oldest first. -/
  calls : List Call
  /-- Number of `Math.random()` draws made so far. -/
  draws : Nat
  /-- Object stored under the key `config` in the target database. -/
  targetConfig : Obj
  /-- Contents of the file `backupConfigFilepath`, `none` when it does not exist. -/
  snapshot : Option Obj
  /-- Variables `count` and `imported` of the phase that is running. -/
  count : Nat
  imported : Nat
  /-- Variable `oldOwnerNotFound` of `importUsers`. -/
  oldOwnerNotFound : Bool
  /-- Variable `startTime` of the phase that is running. -/
  startTime : Int
  /-- Why the run stopped: an error handed to a continuation, an exception, or a
  continuation that is never called; `none` while the run goes on. -/
  halted : Option String

namespace World

/-- Function `Importer.warn`. -/
def warn (parts : List JsVal) (w : World) : World :=
  { w with events := w.events ++ [Event.warn parts] }

/-- Function `Importer.success`. -/
def success (parts : List JsVal) (w : World) : World :=
  { w with events := w.events ++ [Event.success parts] }

/-- Function `Importer.error`. -/
def error (parts : List JsVal) (w : World) : World :=
  { w with events := w.events ++ [Event.error parts] }

/-- Function `Importer.phase`. -/
def phase (name : String) (w : World) : World :=
  { w with phasePercentage := JsNum.fin 0, events := w.events ++ [Event.phase name] }

/-- A call recorded in the trace. -/
def call (c : Call) (w : World) : World := { w with calls := w.calls ++ [c] }

/-- The run stops for the given reason. -/
def halt (reason : String) (w : World) : World := { w with halted := some reason }

/-- The record stored under `_uid` in `Importer.data.users` becomes `user`. -/
@[simp] def putUser (_uid : String) (user : Obj) (w : World) : World :=
  { w with data := { w.data with users := w.data.users.put _uid user } }

end World

/-! ## Number arithmetic

A JavaScript number is a double: a rational `m * 2 ^ e` with a significand `m`
of at most 53 bits. Each arithmetic operation yields the double nearest to the
exact result, a tie going to the even significand. The exponent range is not
modelled: the quotient of two counts, its product with `100` and the difference
of two percentages lie far inside it. -/

/-- The rational `2 ^ e`. -/
def twoPow (e : Int) : ℚ :=
  if 0 ≤ e then ((2 ^ e.toNat : Nat) : ℚ) else 1 / ((2 ^ (-e).toNat : Nat) : ℚ)

/-- The integer nearest to `y`, the even one of the two when `y` lies half way. -/
def roundHalfEven (y : ℚ) : Int :=
  if y - ⌊y⌋ < 1 / 2 then ⌊y⌋
  else if 1 / 2 < y - ⌊y⌋ then ⌊y⌋ + 1
  else if ⌊y⌋ % 2 = 0 then ⌊y⌋ else ⌊y⌋ + 1

/-- The number of binary digits of `n`, found with at most `fuel` halvings. -/
def bitLengthBelow : Nat → Nat → Nat
  | 0, _ => 0
  | fuel + 1, n => if n = 0 then 0 else bitLengthBelow fuel (n / 2) + 1

/-- The number of binary digits of `n`, sixteen at a time; the fuel `n` is
enough. -/
def bitLength : Nat → Nat → Nat
  | 0, _ => 0
  | fuel + 1, n =>
    if n < 65536 then bitLengthBelow 16 n else bitLength fuel (n / 65536) + 16

/-- The exponent `k` with `2 ^ k ≤ x < 2 ^ (k + 1)` of a positive rational: the
digit counts of numerator and denominator fix it up to one. -/
def floorLog2 (x : ℚ) : Int :=
  if twoPow ((bitLength x.num.natAbs x.num.natAbs : Int) - (bitLength x.den x.den : Int)) ≤ x
  then (bitLength x.num.natAbs x.num.natAbs : Int) - (bitLength x.den x.den : Int)
  else (bitLength x.num.natAbs x.num.natAbs : Int) - (bitLength x.den x.den : Int) - 1

/-- The double nearest to a positive rational: the significand is `x` scaled
into `[2 ^ 52, 2 ^ 53)` and rounded. -/
def roundPositive (x : ℚ) : ℚ :=
  (roundHalfEven (x / twoPow (floorLog2 x - 52)) : ℚ) * twoPow (floorLog2 x - 52)

/-- The double nearest to a rational, ties to even: the value of a JavaScript
arithmetic operation whose exact result is `x`. -/
def roundDouble (x : ℚ) : ℚ :=
  if x = 0 then 0 else if 0 < x then roundPositive x else -roundPositive (-x)

/-- The value of `count / total * 100` for a total other than `0`: the quotient
is rounded, then the product. The counts are lengths and indices of arrays,
integers that a double holds exactly. -/
def doublePercentage (count total : Nat) : ℚ :=
  roundDouble (roundDouble ((count : ℚ) / (total : ℚ)) * 100)

/-- The quotient `count / total * 100`. -/
def percentageOf (count total : Nat) : JsNum :=
  if total = 0 then (if count = 0 then JsNum.nan else JsNum.inf)
  else JsNum.fin (doublePercentage count total)

/-- The test `percentage - Importer.phasePercentage > interval`. -/
def exceeds (percentage last : JsNum) (interval : ℚ) : Bool :=
  match percentage, last with
  | JsNum.fin p, JsNum.fin l => decide (roundDouble (p - l) > interval)
  | JsNum.inf, JsNum.fin _ => true
  | _, _ => false

/-- The test `percentage >= 100`. -/
def atLeastHundred : JsNum → Bool
  | JsNum.fin p => decide (p ≥ 100)
  | JsNum.inf => true
  | JsNum.nan => false

/-- Function `Importer.progress`; `interval` is `none` when the argument is left out. -/
def progress (count total : Nat) (interval : Option ℚ) (w : World) : World :=
  let interval : ℚ := match interval with
    | some i => if i = 0 then 2 else i
    | none => 2
  let percentage := percentageOf count total
  if percentage = JsNum.fin 0 || atLeastHundred percentage
      || exceeds percentage w.phasePercentage interval then
    { w with phasePercentage := percentage,
             events := w.events ++ [Event.progress count total percentage] }
  else w

/-- The batch runner `async.eachLimit(ids, IMPORT_BATCH_SIZE, onEach, ..)` with the
items taken one after the other in dispatch order, each with all its callbacks;
once an item has failed no further item is started. Within a phase an item reads
and writes only its own record, the counters and the configuration, and reads
the tables of the earlier phases, which the running phase does not write. -/
def eachLimit (ids : List String) (onEach : String → World → World) (w : World) : World :=
  ids.foldl (fun w id => if w.halted.isSome then w else onEach id w) w

/-- Element `arr[Math.floor(Math.random() * arr.length)]`, with the draw counted. -/
def roulette (T : Target) (arr : List JsVal) (w : World) : JsVal × World :=
  let i := ⌊T.random w.draws * (arr.length : ℚ)⌋
  ((if 0 ≤ i then arr.getD i.toNat JsVal.undefined else JsVal.undefined),
   { w with draws := w.draws + 1 })

/-- The integer that `x.toFixed(0)` prints. -/
def toFixed0 (x : ℚ) : Int := if x < 0 then -⌊-x + 1 / 2⌋ else ⌊x + 1 / 2⌋

/-- The string `chars[index]` as it concatenates: `undefined` outside the string. -/
def charAt (chars : String) (index : Int) : String :=
  if 0 ≤ index then
    match chars.data.get? index.toNat with
    | some c => String.singleton c
    | none => "undefined"
  else "undefined"

/-- Function `Importer.genRandPwd`, from draw number `d` on; it returns the
password and the number of the next draw. -/
def genRandPwd (random : Nat → ℚ) (chars : String) : Nat → Nat → String × Nat
  | 0, d => ("", d + 1)
  | len + 1, d =>
    let index := toFixed0 (random d * ((chars.length : ℚ) - 1))
    let rest := genRandPwd random chars len (d + 1)
    (charAt chars index ++ rest.1, rest.2)

/-! ## Category pipeline -/

/-- The object `categoryData` of `importCategories`, with the three draws counted. -/
def categoryData (T : Target) (category : Obj) (w : World) : Obj × World :=
  let icon := roulette T w.config.categoriesIcons w
  let bgColor := roulette T w.config.categoriesBgColors icon.2
  let color := roulette T w.config.categoriesTextColors bgColor.2
  ([("name", (category.get "_name").or (JsVal.str ("Category " ++ toString (w.count + 1)))),
    ("description", (category.get "_description").or (JsVal.str "no description available")),
    ("order", (category.get "_order").or (JsVal.num (w.count + 1))),
    ("disabled", (category.get "_disabled").or (JsVal.num 0)),
    ("parentCid", ((category.get "_parent").or (category.get "_parentCid")).or JsVal.undefined),
    ("link", (category.get "_link").or (JsVal.num 0)),
    ("icon", icon.1), ("bgColor", bgColor.1), ("color", color.1)], color.2)

/-- The callback `onFields` of `importCategories`, called with the error of
`db.setObject` if there is one. -/
def importCategoriesOnFields (_cid : String) (category categoryReturn : Obj)
    (err : Option String) (w : World) : World :=
  let w := match err with
    | some e => w.warn [JsVal.str e]
    | none => w
  let w := progress w.count w.data.categories.ids.length none w
  let category := Obj.set category "imported" (JsVal.bool true)
  let w := { w with imported := w.imported + 1 }
  let category := Obj.nodeExtend [category, categoryReturn]
  { w with data := { w.data with categories := w.data.categories.put _cid category } }

/-- The callback `onCreate` of `importCategories`, called with the answer of
`Categories.create`. -/
def importCategoriesOnCreate (T : Target) (_cid : String) (category : Obj)
    (answer : Except String Obj) (w : World) : World :=
  match answer with
  | Except.error err =>
    w.warn [JsVal.str "skipping category:_cid: ", JsVal.str _cid, JsVal.str " : ", JsVal.str err]
  | Except.ok categoryReturn =>
    let fields : Obj :=
      [("_imported_cid", JsVal.str _cid),
       ("_imported_name", (category.get "_name").or (JsVal.str "")),
       ("_imported_slug", (category.get "_slug").or (JsVal.str "")),
       ("_imported_description", (category.get "_description").or (JsVal.str "")),
       ("_imported_link", (category.get "_link").or (JsVal.str ""))]
    let key := "category:" ++ (categoryReturn.get "cid").toStr
    let err := T.dbSetObject w.calls key fields
    importCategoriesOnFields _cid category categoryReturn err
      (w.call (Call.dbSetObject key fields))

/-- The worker `onEach` of `importCategories`. -/
def importCategoriesOnEach (T : Target) (_cid : String) (w : World) : World :=
  let w := { w with count := w.count + 1 }
  match w.data.categories.get _cid with
  | none => w.halt "TypeError: Cannot read property '_name' of undefined"
  | some category =>
    let req := categoryData T category w
    let answer := T.categoriesCreate req.2.calls req.1
    importCategoriesOnCreate T _cid category answer (req.2.call (Call.categoriesCreate req.1))

/-- The statements of `importCategories` that come before the batch. -/
def importCategoriesStart (T : Target) (w : World) : World :=
  let w := progress 0 1 none (w.phase "categoriesImportStart")
  let w := { w with count := 0, imported := 0, startTime := T.now w.calls }
  w.success [JsVal.str "Importing ", JsVal.num w.data.categories.ids.length,
    JsVal.str " categories."]

/-- Function `Importer.importCategories`. -/
def importCategories (T : Target) (env : Env) (w : World) : World :=
  let w := importCategoriesStart T w
  let total := w.data.categories.ids.length
  let w := eachLimit w.data.categories.ids (importCategoriesOnEach T) w
  if w.halted.isSome then w
  else
    let w := w.success [JsVal.str "Importing ", JsVal.num w.imported, JsVal.str "/", JsVal.num total,
      JsVal.str " categories took: ", JsVal.str (env.seconds w.startTime (T.now w.calls)),
      JsVal.str " seconds"]
    (progress 1 1 none w).phase "categoriesImportDone"

/-! ## User pipeline -/

/-- Function `Importer.makeModeratorOnAllCategories` up to the point where all
its `Group.join` calls have answered: one call per id of the category list, a
warning for each failed call. The flag tells whether every id had a record, so
that every iteration called `next` and `async.map` can call `done`. -/
def makeModeratorOnAllCategories (T : Target) (uid : JsVal) (w : World) : World × Bool :=
  w.data.categories.ids.foldl
    (fun (acc : World × Bool) cid =>
      match acc.1.data.categories.get cid with
      | none => (acc.1, false)
      | some _ =>
        let group := "group:cid:" ++ cid ++ ":privileges:mods:members"
        let err := T.groupJoin acc.1.calls group uid
        let w := acc.1.call (Call.groupJoin group uid)
        match err with
        | some e => (w.warn [JsVal.str e], acc.2)
        | none => (w, acc.2))
    (w, true)

/-- The closure `passwordGen` of `importUsers`. -/
def passwordGen (T : Target) (w : World) : JsVal × World :=
  if w.config.passwordGen.enabled then
    let r := genRandPwd T.random w.config.passwordGen.chars w.config.passwordGen.len w.draws
    (JsVal.str r.1, { w with draws := r.2 })
  else (JsVal.undefined, w)

/-- The object `fields` built in `onLevel` of `importUsers`, before `uid` is added. -/
def userFields (env : Env) (w : World) (_uid : String) (user : Obj) : Obj :=
  let fields : Obj :=
    [("signature", JsVal.str (env.truncateStr (user.get "_signature").strOrEmpty 252)),
     ("website", (user.get "_website").or (JsVal.str "")),
     ("banned", if (user.get "_banned").truthy then JsVal.num 1 else JsVal.num 0),
     ("location", (user.get "_location").or (JsVal.str "")),
     ("joindate", (user.get "_joindate").or (JsVal.num w.startTime)),
     ("reputation", env.times ((user.get "_reputation").or (JsVal.num 0))
        w.config.userReputationMultiplier),
     ("profileviews", (user.get "_profileViews").or (JsVal.num 0)),
     ("fullname", (user.get "_fullname").or (JsVal.str "")),
     ("birthday", (user.get "_birthday").or (JsVal.str "")),
     ("showemail", if (user.get "_showemail").truthy then JsVal.num 1 else JsVal.num 0),
     ("status", JsVal.str "offline"),
     ("_imported_uid", JsVal.str _uid),
     ("_imported_username", (user.get "_username").or (JsVal.str "")),
     ("_imported_slug", ((user.get "_slug").or (user.get "_userslug")).or (JsVal.str "")),
     ("_imported_signature", user.get "_signature")]
  if (user.get "_picture").truthy then
    (fields.set "gravatarpicture" (user.get "_picture")).set "picture" (user.get "_picture")
  else fields

/-- The callback `onLevel` of `importUsers` with `onUserFields`. -/
def importUsersOnLevel (T : Target) (env : Env) (_uid : String) (u : NbbUsername)
    (uid : JsVal) (user : Obj) (w : World) : World :=
  let fields := userFields env w _uid user
  let keptPicture := (user.get "_picture").truthy
  let err := T.userSetUserFields w.calls uid fields
  let w := w.call (Call.userSetUserFields uid fields)
  match err with
  | some e => w.halt e
  | none =>
    let fields := fields.set "uid" uid
    let user := Obj.nodeExtend [user, fields]
    let user := user.set "keptPicture" (JsVal.bool keptPicture)
    let user := user.set "userslug" (match u.userslug with
      | some s => JsVal.str s
      | none => JsVal.null)
    let w := w.putUser _uid user
    let w := progress w.count w.data.users.ids.length none w
    if w.config.autoConfirmEmails then
      let field := (user.get "email").toStr
      let err := T.dbSetObjectField w.calls "email:confirmed" field (JsVal.str "1")
      let w := w.call (Call.dbSetObjectField "email:confirmed" field (JsVal.str "1"))
      match err with
      | some e => w.halt e
      | none => w
    else w

/-- The callback `onCreate` of `importUsers`: `answer` is the pair `err`, `uid`
it is called with, `user` the record as the worker holds it. -/
def importUsersOnCreate (T : Target) (env : Env) (_uid : String) (u : NbbUsername)
    (username : String) (answer : Except String JsVal) (user : Obj) (w : World) : World :=
  match answer with
  | Except.error err =>
    w.warn [JsVal.str "[count: ", JsVal.num w.count, JsVal.str "] skipping username: \"",
      user.get "_username", JsVal.str "\" ", JsVal.str err]
  | Except.ok uid =>
    let user := user.set "imported" (JsVal.bool true)
    let w := { w.putUser _uid user with imported := w.imported + 1 }
    let level := env.toLowerCase (user.get "_level").toStr
    if level = "moderator" then
      let r := makeModeratorOnAllCategories T uid
        (w.warn [JsVal.str username, JsVal.str " just became a moderator on all categories"])
      if r.2 then importUsersOnLevel T env _uid u uid user r.1
      else r.1.halt "makeModeratorOnAllCategories never calls done"
    else if level = "administrator" then
      let w := w.call (Call.groupJoin "administrators" uid)
      let w := w.warn [JsVal.str username, JsVal.str " became an Administrator"]
      importUsersOnLevel T env _uid u uid user w
    else importUsersOnLevel T env _uid u uid user w

/-- The statements of the takeover branch of `importUsers` that come before
`onCreate(null, 1)`: the warning, the new `adminTakeOwnership` entry of the
configuration, `user._level = null` on the stored record, and the cleared flag. -/
def revokeOwnership (_uid : String) (user : Obj) (w : World) : World :=
  let w := w.warn [JsVal.str "[count:", JsVal.num w.count,
    JsVal.str "] skipping user: \"", user.get "_username",
    JsVal.str "\" because it was revoked ownership"]
  let w := { w with config := { w.config with adminTakeOwnership :=
    [("enable", JsVal.bool true), ("username", user.get "_username"),
     ("_username", user.get "_username"), ("_uid", user.get "_uid")] } }
  { w.putUser _uid (user.set "_level" JsVal.null) with oldOwnerNotFound := false }

/-- The value `user._password || passwordGen()`, with the draws counted. -/
def userPassword (T : Target) (user : Obj) (w : World) : JsVal × World :=
  if (user.get "_password").truthy then (user.get "_password", w) else passwordGen T w

/-- The worker of `importUsers` from the test of `userData.username` on: `u` is
the resolved username and `password` the password of `userData`. -/
def importUsersWithData (T : Target) (env : Env) (_uid : String) (user : Obj)
    (u : NbbUsername) (password : JsVal) (w : World) : World :=
  match u.username with
  | none =>
    w.warn [JsVal.str "[count:", JsVal.num w.count, JsVal.str "] skipping user: \"",
      user.get "_username", JsVal.str "\" username is invalid."]
  | some username =>
    let userData : Obj := [("username", JsVal.str username), ("email", user.get "_email"),
      ("password", password)]
    if !w.oldOwnerNotFound then
      let answer := T.userCreate w.calls userData
      importUsersOnCreate T env _uid u username answer user (w.call (Call.userCreate userData))
    else
      match w.config.adminTakeOwnership.get "username" with
      | JsVal.str adminName =>
        if env.toLowerCase (user.get "_username").strOrEmpty = env.toLowerCase adminName then
          importUsersOnCreate T env _uid u username (Except.ok (JsVal.num 1))
            (user.set "_level" JsVal.null) (revokeOwnership _uid user w)
        else
          let answer := T.userCreate w.calls userData
          importUsersOnCreate T env _uid u username answer user
            (w.call (Call.userCreate userData))
      | _ => w.halt "TypeError: config.adminTakeOwnership.username.toLowerCase is not a function"

/-- The worker of `importUsers`. -/
def importUsersOnEach (T : Target) (env : Env) (_uid : String) (w : World) : World :=
  let w := { w with count := w.count + 1 }
  match w.data.users.get _uid with
  | none => w.halt "TypeError: Cannot read property '_username' of undefined"
  | some user =>
    let u := makeValidNbbUsername env (user.get "_username").strOrEmpty
      (user.get "_alternativeUsername").strOrEmpty
    let password := userPassword T user w
    importUsersWithData T env _uid user u password.1 password.2

/-- The statements of `importUsers` that come before the batch. -/
def importUsersStart (T : Target) (w : World) : World :=
  let w := progress 0 1 none (w.phase "usersImportStart")
  let w := { w with count := 0, imported := 0, startTime := T.now w.calls,
                    oldOwnerNotFound := (w.config.adminTakeOwnership.get "enable").truthy }
  w.success [JsVal.str "Importing ", JsVal.num w.data.users.ids.length,
    JsVal.str " users."]

/-- Function `Importer.importUsers`; `Importer.dbkeys` is never defined (`setup`
defines `dbKeys`), so the run always ends through the last branch. -/
def importUsers (T : Target) (env : Env) (w : World) : World :=
  let w := importUsersStart T w
  let total := w.data.users.ids.length
  let w := eachLimit w.data.users.ids (importUsersOnEach T env) w
  if w.halted.isSome then w
  else
    let w := w.success [JsVal.str "Importing ", JsVal.num w.imported, JsVal.str "/", JsVal.num total,
      JsVal.str " users took: ", JsVal.str (env.seconds w.startTime (T.now w.calls)),
      JsVal.str " seconds"]
    (progress 1 1 none w).phase "usersImportDone"

/-! ## Topic pipeline -/

/-- The callback `onPost` of `importTopics` on success, with `onPinned`,
`onFields` and `onPostFields`. -/
def importTopicsOnPost (T : Target) (env : Env) (_tid : String) (topic category : Obj)
    (returnTopic : Obj × Obj) (w : World) : World :=
  let topic := topic.set "imported" (JsVal.bool true)
  let w := { w with data := { w.data with topics := w.data.topics.put _tid topic },
                    imported := w.imported + 1 }
  let timestamp := (topic.get "_timestamp").or (JsVal.num w.startTime)
  match env.toISOString timestamp with
  | none => w.halt "RangeError: Invalid time value"
  | some relativeTime =>
    let topicFields : Obj :=
      [("viewcount", (topic.get "_viewcount").or (JsVal.num 0)),
       ("locked", JsVal.num 0),
       ("deleted", if (topic.get "_deleted").truthy then JsVal.num 1 else JsVal.num 0),
       ("pinned", if (topic.get "_pinned").truthy then JsVal.num 1 else JsVal.num 0),
       ("timestamp", timestamp),
       ("lastposttime", timestamp),
       ("teaser_timestamp", JsVal.str relativeTime),
       ("relativeTime", JsVal.str relativeTime),
       ("_imported_tid", JsVal.str _tid),
       ("_imported_uid", (topic.get "_uid").or (JsVal.str "")),
       ("_imported_cid", topic.get "_cid"),
       ("_imported_slug", (topic.get "_slug").or (JsVal.str "")),
       ("_imported_title", (topic.get "_title").or (JsVal.str "")),
       ("_imported_content", (topic.get "_content").or (JsVal.str ""))]
    let postFields : Obj := [("timestamp", timestamp), ("relativeTime", JsVal.str relativeTime)]
    let tid := returnTopic.1.get "tid"
    let setKey := "categories:" ++ (category.get "cid").toStr ++ ":tid"
    let score := if (topicFields.get "pinned").truthy then JsVal.num (2 ^ 53) else timestamp
    let w := w.call (Call.dbSortedSetAdd setKey score tid)
    let key := "topic:" ++ tid.toStr
    let err := T.dbSetObject w.calls key topicFields
    let w := w.call (Call.dbSetObject key topicFields)
    match err with
    | some e => w.halt e
    | none =>
      let w := progress w.count w.data.topics.ids.length none w
      let w := w.call (Call.postsSetPostFields (returnTopic.2.get "pid") postFields)
      let topic := Obj.nodeExtend [topic, topicFields, returnTopic.1]
      { w with data := { w.data with topics := w.data.topics.put _tid topic } }

/-- The object handed to `Topics.post` in `importTopics`. -/
def topicsPostData (config : Config) (topic category user : Obj) : Obj :=
  [("uid", if !(config.adminTakeOwnership.get "enable").truthy then user.get "uid"
      else if JsVal.strictEq (config.adminTakeOwnership.get "_uid") (topic.get "_uid")
        then JsVal.num 1
      else user.get "uid"),
   ("title", (topic.get "_title").or (JsVal.str "")),
   ("content", (topic.get "_content").or (JsVal.str "")),
   ("cid", category.get "cid"),
   ("thumb", topic.get "_thumb")]

/-- The worker `onEach` of `importTopics`. -/
def importTopicsOnEach (T : Target) (env : Env) (_tid : String) (w : World) : World :=
  let w := { w with count := w.count + 1 }
  match w.data.topics.get _tid with
  | none => w.halt "TypeError: Cannot read property '_cid' of undefined"
  | some topic =>
    let category := w.data.categories.get (topic.get "_cid").toStr
    let user := (w.data.users.get (topic.get "_uid").toStr).getD []
    match category with
    | none =>
      w.warn [JsVal.str "[count:", JsVal.num w.count, JsVal.str "] skipping topic:_tid:\"",
        JsVal.str _tid, JsVal.str "\" --> _cid: ", topic.get "_cid", JsVal.str ":imported:",
        JsVal.bool false]
    | some category =>
      if !(category.get "imported").truthy then
        w.warn [JsVal.str "[count:", JsVal.num w.count, JsVal.str "] skipping topic:_tid:\"",
          JsVal.str _tid, JsVal.str "\" --> _cid: ", topic.get "_cid", JsVal.str ":imported:",
          JsVal.bool false]
      else
        let data := topicsPostData w.config topic category user
        let answer := T.topicsPost w.calls data
        let w := w.call (Call.topicsPost data)
        match answer with
        | Except.error err =>
          w.warn [JsVal.str "[count:", JsVal.num w.count, JsVal.str "] skipping topic:_tid: ",
            JsVal.str _tid, JsVal.str " ", JsVal.str err]
        | Except.ok returnTopic => importTopicsOnPost T env _tid topic category returnTopic w

/-- The statements of `importTopics` that come before the batch. -/
def importTopicsStart (T : Target) (w : World) : World :=
  let w := progress 0 1 none (w.phase "topicsImportStart")
  let w := { w with count := 0, imported := 0, startTime := T.now w.calls }
  w.success [JsVal.str "Importing ", JsVal.num w.data.topics.ids.length,
    JsVal.str " topics."]

/-- Function `Importer.importTopics`. -/
def importTopics (T : Target) (env : Env) (w : World) : World :=
  let w := importTopicsStart T w
  let total := w.data.topics.ids.length
  let w := eachLimit w.data.topics.ids (importTopicsOnEach T env) w
  if w.halted.isSome then w
  else
    let w := w.success [JsVal.str "Importing ", JsVal.num w.imported, JsVal.str "/", JsVal.num total,
      JsVal.str " topics took: ", JsVal.str (env.seconds w.startTime (T.now w.calls)),
      JsVal.str " seconds"]
    (progress 1 1 none w).phase "topicsImportDone"

/-! ## Post pipeline -/

/-- The callback `onCreate` of `importPosts` on success, with `onPostFields`. -/
def importPostsOnCreate (env : Env) (_pid : String) (post postReturn : Obj) (w : World) : World :=
  let post := post.set "imported" (JsVal.bool true)
  let w := { w with data := { w.data with posts := w.data.posts.put _pid post },
                    imported := w.imported + 1 }
  match env.toISOString ((post.get "_timestamp").or (JsVal.num w.startTime)) with
  | none => w.halt "RangeError: Invalid time value"
  | some relativeTime =>
    let fields : Obj :=
      [("reputation", (post.get "_reputation").or (JsVal.num 0)),
       ("votes", (post.get "_votes").or (JsVal.num 0)),
       ("edited", (post.get "_edited").or (JsVal.num 0)),
       ("deleted", (post.get "_deleted").or (JsVal.num 0)),
       ("relativeTime", JsVal.str relativeTime),
       ("_imported_pid", JsVal.str _pid),
       ("_imported_uid", (post.get "_uid").or (JsVal.str "")),
       ("_imported_tid", (post.get "_tid").or (JsVal.str "")),
       ("_imported_content", (post.get "_content").or (JsVal.str ""))]
    let w := w.call (Call.postsSetPostFields (postReturn.get "pid") fields)
    let w := progress w.count w.data.posts.ids.length none w
    let post := Obj.nodeExtend [post, fields, postReturn]
    let post := post.set "imported" (JsVal.bool true)
    { w with data := { w.data with posts := w.data.posts.put _pid post } }

/-- The object handed to `Posts.create` in `importPosts`. -/
def postsCreateData (config : Config) (startTime : Int) (post topic user : Obj) : Obj :=
  [("uid", if !(config.adminTakeOwnership.get "enable").truthy then user.get "uid"
      else if JsVal.strictEq (config.adminTakeOwnership.get "_uid") (post.get "_uid")
        then JsVal.num 1
      else user.get "uid"),
   ("tid", topic.get "tid"),
   ("content", (post.get "_content").or (JsVal.str "")),
   ("timestamp", (post.get "_timestamp").or (JsVal.num startTime)),
   ("toPid", post.get "_nbb-toPid")]

/-- The worker `onEach` of `importPosts`. -/
def importPostsOnEach (T : Target) (env : Env) (_pid : String) (w : World) : World :=
  let w := { w with count := w.count + 1 }
  match w.data.posts.get _pid with
  | none => w.halt "TypeError: Cannot read property '_tid' of undefined"
  | some post =>
    let topic := w.data.topics.get (post.get "_tid").toStr
    let user := (w.data.users.get (post.get "_uid").toStr).getD []
    match topic with
    | none =>
      w.warn [JsVal.str "skipping post:_pid: ", JsVal.str _pid, JsVal.str " _tid:valid: ",
        JsVal.bool false]
    | some topic =>
      if !(topic.get "imported").truthy then
        w.warn [JsVal.str "skipping post:_pid: ", JsVal.str _pid, JsVal.str " _tid:valid: ",
          JsVal.bool false]
      else
        let data := postsCreateData w.config w.startTime post topic user
        let answer := T.postsCreate w.calls data
        let w := w.call (Call.postsCreate data)
        match answer with
        | Except.error err =>
          w.warn [JsVal.str "[count: ", JsVal.num w.count, JsVal.str "] skipping post: ",
            post.get "_pid", JsVal.str " ", JsVal.str err]
        | Except.ok postReturn => importPostsOnCreate env _pid post postReturn w

/-- The statements of `importPosts` that come before the batch. -/
def importPostsStart (T : Target) (w : World) : World :=
  let w := progress 0 1 none (w.phase "postsImportStart")
  let w := { w with count := 0, imported := 0, startTime := T.now w.calls }
  w.success [JsVal.str "Importing ", JsVal.num w.data.posts.ids.length,
    JsVal.str " posts."]

/-- Function `Importer.importPosts`; its final callback takes no error. -/
def importPosts (T : Target) (env : Env) (w : World) : World :=
  let w := importPostsStart T w
  let total := w.data.posts.ids.length
  let w := eachLimit w.data.posts.ids (importPostsOnEach T env) w
  if w.halted.isSome then w
  else
    let w := (progress 1 1 none w).phase "postsImportDone"
    w.success [JsVal.str "Importing ", JsVal.num w.imported, JsVal.str "/", JsVal.num total,
      JsVal.str " posts took: ", JsVal.str (env.seconds w.startTime (T.now w.calls)),
      JsVal.str " seconds"]

/-! ## Configuration swap -/

/-- The effect of a successful `db.setObject(key, data)` on the stored object:
each field of `data` is written onto it (`HMSET` on redis, `$set` on mongo), the
fields `data` does not name stay. `importCategories` and `importTopics` rely on
this when they add their provenance fields to a record the target system has
already created. -/
def dbSetObjectOnto (stored data : Obj) : Obj :=
  data.foldl (fun o kv => Obj.set o kv.1 (Obj.get data kv.1)) stored

/-- Function `Importer.backupConfig`. File operations are taken to succeed. -/
def backupConfig (T : Target) (w : World) : World :=
  match w.snapshot with
  | some file => { w with config := { w.config with backedConfig := some file } }
  | none =>
    let err := T.dbGetObject w.calls "config"
    let w := w.call (Call.dbGetObject "config")
    match err with
    | some e => w.halt e
    | none =>
      let w := { w with config := { w.config with backedConfig := some w.targetConfig } }
      { w with snapshot := w.config.backedConfig }

/-- Function `Importer.setTmpConfig`. -/
def setTmpConfig (T : Target) (w : World) : World :=
  let config := Obj.nodeExtend [w.config.backedConfig.getD [], w.config.nbbTmpConfig]
  let config := if w.config.autoConfirmEmails then config.set "email:smtp:host" (JsVal.str "")
    else config
  let err := T.dbSetObject w.calls "config" config
  let w := w.call (Call.dbSetObject "config" config)
  match err with
  | some e => w.halt e
  | none =>
    let w := { w with targetConfig := dbSetObjectOnto w.targetConfig config }
    let err := T.metaConfigsInit w.calls
    let w := w.call Call.metaConfigsInit
    match err with
    | some e => w.halt e
    | none => w

/-- Function `Importer.restoreConfig`; `fs.readJsonFileSync` reads the file as
`fs.readJsonSync` does, and file operations are taken to succeed. -/
def restoreConfig (T : Target) (env : Env) (w : World) : World :=
  match w.snapshot with
  | some file =>
    let w := { w with config := { w.config with backedConfig := some file } }
    let backedConfig := w.config.backedConfig.getD []
    let err := T.dbSetObject w.calls "config" backedConfig
    let w := w.call (Call.dbSetObject "config" backedConfig)
    match err with
    | some _ =>
      let w := w.warn [JsVal.str "Something went wrong while restoring your nbb configs"]
      let w := w.warn [JsVal.str "here are your backed-up configs, you do it manually"]
      w.warn [JsVal.str (env.jsonStringify (w.config.backedConfig.getD []))]
    | none =>
      let w := { w with targetConfig := dbSetObjectOnto w.targetConfig backedConfig }
      let w := w.success [JsVal.str "Config restored:",
        JsVal.str (env.jsonStringify (w.config.backedConfig.getD []))]
      let w := { w with snapshot := none }
      let err := T.metaConfigsInit w.calls
      let w := w.call Call.metaConfigsInit
      match err with
      | some _ =>
        w.warn [JsVal.str "Could not re-init Meta configs, just restart NodeBB, you'll be fine"]
      | none => w
  | none =>
    w.warn [JsVal.str "Could not restore NodeBB tmp configs, because ",
      JsVal.str (backupConfigFilepath env), JsVal.str " does not exist"]

/-! ## Dependency gate -/

/-- The dependency gate as the specification words it: the parent record exists
and its `imported` is set. -/
def canImportChild (parentRecord : Option Obj) : Bool :=
  match parentRecord with
  | some r => (r.get "imported").truthy
  | none => false

/-- The calls issued since the trace had length `n`. -/
def callsSince (n : Nat) (w : World) : List Call := w.calls.drop n

/-- What the category batch keeps when the target system rejects the category
`c1`: the run goes on, `c1` keeps its record, every listed id keeps a record. -/
def RejectedInv (w0 : World) (c1 : String) (category : Obj) (w : World) : Prop :=
  w.halted = none ∧ w.data.categories.get c1 = some category ∧
    w.data.categories.ids = w0.data.categories.ids ∧
    ∀ id ∈ w0.data.categories.ids, (w.data.categories.get id).isSome = true

/-- The record of a user at the moment `onLevel` runs in the takeover branch:
`_level` cleared and `imported` set. -/
def revokedUser (user : Obj) : Obj :=
  (user.set "_level" JsVal.null).set "imported" (JsVal.bool true)

/-- The run at the moment `onLevel` runs in the takeover branch. -/
def revokedWorld (_uid : String) (user : Obj) (w : World) : World :=
  { (revokeOwnership _uid user w).putUser _uid (revokedUser user) with
    imported := (revokeOwnership _uid user w).imported + 1 }

/-! ## Closing phases -/

/-- Callback of `async.eachLimit` in `relockUnlockedTopics` for one topic id;
`len` is the length of the id list. -/
def relockUnlockedTopicsOnEach (T : Target) (len : Nat) (_tid : String) (w : World) : World :=
  let w := progress w.count len none w
  let w := { w with count := w.count + 1 }
  match w.data.topics.get _tid with
  | none =>
    w.warn [JsVal.str "[count:", JsVal.num w.count, JsVal.str "] imported topic:_tid: ",
            JsVal.str _tid,
            JsVal.str " doesn\x27t exist in storage, probably skipped some time earlier"]
  | some topic =>
    if (topic.get "_locked").truthy then
      let key := "topic:" ++ (topic.get "tid").toStr
      let err := T.dbSetObjectField w.calls key "locked" (JsVal.str "1")
      let w := w.call (Call.dbSetObjectField key "locked" (JsVal.str "1"))
      match err with
      | some e => w.warn [JsVal.str e]
      | none => w
    else w

/-- Function `Importer.relockUnlockedTopics`. -/
def relockUnlockedTopics (T : Target) (w : World) : World :=
  let w := { w with count := 0 }
  let len := w.data.topics.ids.length
  let w := progress 0 1 none (w.phase "relockingTopicsStart")
  let w := eachLimit w.data.topics.ids (relockUnlockedTopicsOnEach T len) w
  if w.halted.isSome then w
  else (progress 1 1 none w).phase "relockingTopicsDone"

/-- Callback of `async.eachLimit` in `fixTopicTimestamps` for one topic id. The
two reads of `async.parallel` are issued in the order written, and of two
errors the one of the first read is handed on. -/
def fixTopicTimestampsOnEach (T : Target) (len : Nat) (_tid : String) (w : World) : World :=
  let w := progress w.count len none w
  let w := { w with count := w.count + 1 }
  match w.data.topics.get _tid with
  | none => w
  | some topic =>
    let tid := topic.get "tid"
    if tid.truthy then
      let postsKey := "tid:" ++ tid.toStr ++ ":posts"
      let answer := T.dbGetSortedSetRevRange w.calls postsKey
      let w := w.call (Call.dbGetSortedSetRevRange postsKey)
      match answer with
      | Except.error e => w.halt e
      | Except.ok none => w
      | Except.ok (some []) => w
      | Except.ok (some (pid :: _)) =>
        let topicKey := "topic:" ++ tid.toStr
        let cid := T.dbGetObjectField w.calls topicKey "cid"
        let w := w.call (Call.dbGetObjectField topicKey "cid")
        let postKey := "post:" ++ pid.toStr
        let lastPostTimestamp := T.dbGetObjectField w.calls postKey "timestamp"
        let w := w.call (Call.dbGetObjectField postKey "timestamp")
        match cid, lastPostTimestamp with
        | Except.error e, _ => w.halt e
        | Except.ok _, Except.error e => w.halt e
        | Except.ok cid, Except.ok lastPostTimestamp =>
          let setKey := "categories:" ++ cid.toStr ++ ":tid"
          let err := T.dbSortedSetAdd w.calls setKey lastPostTimestamp tid
          let w := w.call (Call.dbSortedSetAdd setKey lastPostTimestamp tid)
          match err with
          | some e => w.halt e
          | none => w
    else w

/-- Function `Importer.fixTopicTimestamps`. -/
def fixTopicTimestamps (T : Target) (w : World) : World :=
  let w := { w with count := 0 }
  let len := w.data.topics.ids.length
  let w := progress 0 1 none (w.phase "fixTopicTimestampsStart")
  let w := eachLimit w.data.topics.ids (fixTopicTimestampsOnEach T len) w
  if w.halted.isSome then w
  else (progress 1 1 none w).phase "fixTopicTimestampsDone"

/-- What a sorted set of the target database holds for the member with the
string form `member` after the calls of a trace: the score of the last
`db.sortedSetAdd` for that key and member that the target accepted, `none` when
there is none. Members are compared by their string form, as the database
stores them. The first component is the trace replayed so far. -/
def sortedSetReplay (T : Target) (key member : String) (calls : List Call) :
    List Call × Option JsVal :=
  calls.foldl
    (fun st c =>
      (st.1 ++ [c],
       match c with
       | Call.dbSortedSetAdd k score m =>
         if k = key ∧ m.toStr = member ∧ T.dbSortedSetAdd st.1 k score m = none
         then some score else st.2
       | _ => st.2))
    ([], none)

/-- The score of `member` in the sorted set `key` after the calls of a trace. -/
def sortedSetScore (T : Target) (calls : List Call) (key : String) (member : JsVal) :
    Option JsVal :=
  (sortedSetReplay T key member.toStr calls).2

/-- The request `db.sortedSetAdd(key, score, tid)` that `fixTopicTimestamps` makes
for a topic with the target id `tid`, as key and score, when the reads are
answered as at the start of a trace; `none` when a read fails or the topic has
no posts. -/
def fixTopicTimestampsWrite (T : Target) (tid : String) : Option (String × JsVal) :=
  match T.dbGetSortedSetRevRange [] ("tid:" ++ tid ++ ":posts") with
  | Except.ok (some (pid :: _)) =>
    match T.dbGetObjectField [] ("topic:" ++ tid) "cid",
          T.dbGetObjectField [] ("post:" ++ pid.toStr) "timestamp" with
    | Except.ok cid, Except.ok lastPostTimestamp =>
      some ("categories:" ++ cid.toStr ++ ":tid", lastPostTimestamp)
    | _, _ => none
  | _ => none

/-- The `db.sortedSetAdd` requests of a trace: key, score and member. -/
def sortedSetAdds (calls : List Call) : List (String × JsVal × JsVal) :=
  calls.filterMap fun c =>
    match c with
    | Call.dbSortedSetAdd k score m => some (k, score, m)
    | _ => none

/-! ## Purge -/

/-- Iterator of `async.mapLimit` over one batch of category ids in `flushData`,
with `index` and `total` of the enclosing callback: the world, the next index
and the error handed to `nextBatch`. After an error no further id is taken. -/
def purgeCategoriesBatch (T : Target) (total : Nat) :
    List JsVal → Nat → World → World × Nat × Option String
  | [], index, w => (w, index, none)
  | id :: ids, index, w =>
    let w := progress index total none w
    let err := T.categoriesPurge w.calls id
    let w := w.call (Call.categoriesPurge id)
    match err with
    | some e => (w, index + 1, some e)
    | none => purgeCategoriesBatch T total ids (index + 1) w

/-- The batches of category ids taken one after the other until one fails. -/
def purgeCategoriesBatches (T : Target) (total : Nat) :
    List (List JsVal) → Nat → World → World × Option String
  | [], _, w => (w, none)
  | ids :: batches, index, w =>
    match purgeCategoriesBatch T total ids index w with
    | (w, _, some e) => (w, some e)
    | (w, index, none) => purgeCategoriesBatches T total batches index w

/-- First task of `async.series` in `flushData`: the world and the error handed
to `done`. -/
def flushDataCategories (T : Target) (w : World) : World × Option String :=
  let w := progress 0 1 none (w.phase "purgeCategories+Topics+PostsStart")
  let total := T.countCategories w.calls
  let r : World × Option String :=
    match T.categoriesCidsBatches w.calls with
    | Except.error e => (w, some e)
    | Except.ok batches => purgeCategoriesBatches T total batches 0 w
  ((progress 1 1 none r.1).phase "purgeCategories+Topics+PostsStart", r.2)

/-- Iterator of `async.mapLimit` over one batch of user ids in `flushData`; the
callback of `User.delete` takes no error. -/
def purgeUsersBatch (env : Env) (total : Nat) : List JsVal → Nat → World → World × Nat
  | [], index, w => (w, index)
  | uid :: uids, index, w =>
    let w := progress index total none w
    if env.parseInt uid = some 1 then purgeUsersBatch env total uids (index + 1) w
    else purgeUsersBatch env total uids (index + 1) (w.call (Call.userDelete uid))

/-- The batches of user ids taken one after the other. -/
def purgeUsersBatches (env : Env) (total : Nat) : List (List JsVal) → Nat → World → World
  | [], _, w => w
  | uids :: batches, index, w =>
    let r := purgeUsersBatch env total uids index w
    purgeUsersBatches env total batches r.2 r.1

/-- Second task of `async.series` in `flushData`. -/
def flushDataUsers (T : Target) (env : Env) (w : World) : World × Option String :=
  let w := progress 0 1 none (w.phase "purgeUsersStart")
  let total := T.countUsers w.calls
  let r : World × Option String :=
    match T.usersUidsBatches w.calls with
    | Except.error e => (w, some e)
    | Except.ok batches => (purgeUsersBatches env total batches 0 w, none)
  ((progress 1 1 none r.1).phase "purgeUsersDone", r.2)

/-- The counters that `flushData` resets, in the order written. -/
def globalCounters : List String :=
  ["nextUid", "userCount", "nextCid", "categoryCount", "nextTid", "topicCount",
   "nextPid", "postCount"]

/-- The tasks of `async.parallel` in `flushData`, all issued, in the order
written; the error handed on is the first one. -/
def resetGlobals (T : Target) : List String → World → World × Option String
  | [], w => (w, none)
  | field :: fields, w =>
    let err := T.dbSetObjectField w.calls "global" field (JsVal.num 1)
    let r := resetGlobals T fields (w.call (Call.dbSetObjectField "global" field (JsVal.num 1)))
    (r.1, match err with
          | some e => some e
          | none => r.2)

/-- Third task of `async.series` in `flushData`. -/
def flushDataGlobals (T : Target) (w : World) : World × Option String :=
  resetGlobals T globalCounters (progress 0 1 none (w.phase "resetGlobalsStart"))

/-- The three tasks of `flushData` under `async.series`: a task runs when the
ones before it handed no error to `done`. -/
def flushDataSeries (T : Target) (env : Env) (w : World) : World × Option String :=
  match flushDataCategories T w with
  | (w, some e) => (w, some e)
  | (w, none) =>
    match flushDataUsers T env w with
    | (w, some e) => (w, some e)
    | (w, none) => flushDataGlobals T w

/-- Function `Importer.flushData`: the world it leaves and the arguments of its
calls of the continuation `next`, in order; `none` is a call without an error. -/
def flushData (T : Target) (env : Env) (w : World) : World × List (Option String) :=
  let r := flushDataSeries T env w
  let first : World × List (Option String) :=
    match r.2 with
    | some e => (r.1.error [JsVal.str e], [some e])
    | none => (r.1, [])
  ((progress 1 1 none first.1).phase "resetGlobalsDone", first.2 ++ [none])

/-- The interval `interval || 2` that `Importer.progress` compares with. -/
def intervalOrTwo (interval : Option ℚ) : ℚ :=
  match interval with
  | some i => if i = 0 then 2 else i
  | none => 2

/-- The calls `Importer.progress(c, total, interval)` for `c` from `0` to `total`. -/
def progressSweep (total : Nat) (interval : Option ℚ) (w : World) : World :=
  (List.range (total + 1)).foldl (fun w c => progress c total interval w) w

/-- The percentage a progress notification carries, `0` for any other event. -/
def Event.percentage : Event → ℚ
  | Event.progress _ _ (JsNum.fin q) => q
  | _ => 0

/-- The position `index` that `genRandPwd` reads for the draw `r`. -/
def genRandPwdIndex (chars : String) (r : ℚ) : Int :=
  toFixed0 (r * ((chars.length : ℚ) - 1))

/-- The safe identifier class that the first replacement of `cleanUsername`
names: word characters, `-`, `.`, and the two Unicode ranges. -/
def inSafeClass (c : Char) : Bool :=
  isWordChar c || c == '-' || c == '.'
    || (0xBF ≤ c.toNat && c.toNat ≤ 0x1FFF) || (0x2C00 ≤ c.toNat && c.toNat ≤ 0xD7FF)

/-- The `Group.join` requests of a trace: group and member. -/
def groupJoins (calls : List Call) : List (String × JsVal) :=
  calls.filterMap fun c =>
    match c with
    | Call.groupJoin group uid => some (group, uid)
    | _ => none

/-- Whether a call is the profile write `User.setUserFields`. -/
def isUserSetUserFields : Call → Bool
  | Call.userSetUserFields _ _ => true
  | _ => false

/-- Whether a call is a `Group.join`. -/
def isGroupJoin : Call → Bool
  | Call.groupJoin _ _ => true
  | _ => false

/-- The object `topicFields` that `onPost` of `importTopics` builds for the
record `topic`, with `timestamp` and `relativeTime` as computed there. -/
def topicFieldsOf (_tid : String) (topic : Obj) (timestamp : JsVal) (relativeTime : String) :
    Obj :=
  [("viewcount", (topic.get "_viewcount").or (JsVal.num 0)),
   ("locked", JsVal.num 0),
   ("deleted", if (topic.get "_deleted").truthy then JsVal.num 1 else JsVal.num 0),
   ("pinned", if (topic.get "_pinned").truthy then JsVal.num 1 else JsVal.num 0),
   ("timestamp", timestamp),
   ("lastposttime", timestamp),
   ("teaser_timestamp", JsVal.str relativeTime),
   ("relativeTime", JsVal.str relativeTime),
   ("_imported_tid", JsVal.str _tid),
   ("_imported_uid", (topic.get "_uid").or (JsVal.str "")),
   ("_imported_cid", topic.get "_cid"),
   ("_imported_slug", (topic.get "_slug").or (JsVal.str "")),
   ("_imported_title", (topic.get "_title").or (JsVal.str "")),
   ("_imported_content", (topic.get "_content").or (JsVal.str ""))]

/-- The object `fields` that `onCreate` of `importPosts` builds for the record
`post`, with `relativeTime` as computed there. -/
def postFieldsOf (_pid : String) (post : Obj) (relativeTime : String) : Obj :=
  [("reputation", (post.get "_reputation").or (JsVal.num 0)),
   ("votes", (post.get "_votes").or (JsVal.num 0)),
   ("edited", (post.get "_edited").or (JsVal.num 0)),
   ("deleted", (post.get "_deleted").or (JsVal.num 0)),
   ("relativeTime", JsVal.str relativeTime),
   ("_imported_pid", JsVal.str _pid),
   ("_imported_uid", (post.get "_uid").or (JsVal.str "")),
   ("_imported_tid", (post.get "_tid").or (JsVal.str "")),
   ("_imported_content", (post.get "_content").or (JsVal.str ""))]

/-! ## What an imported record carries -/

/-- What an imported record of the dataset carries: the flag `imported`, the id
that the target system assigned under `idKey`, and a value for each of the
listed provenance fields. -/
def Carries (idKey : String) (provenance : List String) (r : Obj) : Prop :=
  r.get "imported" = JsVal.bool true ∧ r.get idKey ≠ JsVal.undefined ∧
    ∀ k ∈ provenance, r.get k ≠ JsVal.undefined

/-- A table after a pipeline, compared with the table before it: each record is
the record that was there before, or it carries what an imported record carries. -/
def Merged (idKey : String) (provenance : List String) (before after : Table) : Prop :=
  ∀ id r, after.get id = some r → before.get id = some r ∨ Carries idKey provenance r

/-- The provenance fields that `importCategories` writes to the target store. -/
def categoryProvenance : List String :=
  ["_imported_cid", "_imported_name", "_imported_slug", "_imported_description",
   "_imported_link"]

/-- The provenance fields of `importUsers` that have a value for every user. -/
def userProvenance : List String := ["_imported_uid", "_imported_username", "_imported_slug"]

/-- The provenance fields of `importTopics` that have a value for every topic. -/
def topicProvenance : List String :=
  ["_imported_tid", "_imported_uid", "_imported_slug", "_imported_title", "_imported_content"]

/-- The provenance fields of `importPosts`. -/
def postProvenance : List String :=
  ["_imported_pid", "_imported_uid", "_imported_tid", "_imported_content"]

/-! ## What the topic phase inserts -/

/-- The third argument of `db.sortedSetAdd` in `onPost` of `importTopics` for the
record `r`: `Math.pow(2, 53)` for a pinned topic, else `timestamp`, which is
`topic._timestamp || startTime`. -/
def topicScore (startTime : Int) (r : Obj) : JsVal :=
  if (r.get "_pinned").truthy then JsVal.num (2 ^ 53)
  else (r.get "_timestamp").or (JsVal.num startTime)

/-- The topic record `r` has been inserted: its category has a record, and among
the requests `adds` there is one for the sorted set of that category's target
id, with the topic's target id as member and `topicScore` as score; the score
of a topic that is not pinned, when a number, lies below `2 ^ 53`. -/
def Inserted (categories : Table) (startTime : Int) (adds : List (String × JsVal × JsVal))
    (r : Obj) : Prop :=
  ∃ category, categories.get (r.get "_cid").toStr = some category ∧
    ("categories:" ++ (category.get "cid").toStr ++ ":tid", topicScore startTime r,
      r.get "tid") ∈ adds ∧
    ((r.get "_pinned").truthy = false → ∀ n, topicScore startTime r = JsVal.num n → n < 2 ^ 53)

/-- Each record of the topic table `after` is the record that `before` has
under the same id, or it has been inserted. -/
def InsertedAll (before after categories : Table) (startTime : Int)
    (adds : List (String × JsVal × JsVal)) : Prop :=
  ∀ id r, after.get id = some r → before.get id = some r ∨ Inserted categories startTime adds r

/-! ## Sample inputs -/

/-- A stand-in for `utils.js` and the runtime: a name is valid when it has at
least two characters, all of them ASCII letters or digits; the slug is the
lower-case name. -/
def sampleEnv : Env where
  isUserNameValid := fun s => decide (2 ≤ s.data.length) && s.data.all Char.isAlphanum
  slugify := fun s => String.mk (s.data.map Char.toLower)
  truncateStr := fun s n => String.mk (s.data.take n)
  toLowerCase := fun s => String.mk (s.data.map Char.toLower)
  jsonStringify := fun o => String.join (o.map (fun kv => kv.1 ++ ":" ++ kv.2.toStr ++ ";"))
  times := fun a b =>
    match a, b with
    | JsVal.num x, JsVal.num y => JsVal.num (x * y)
    | _, _ => JsVal.undefined
  toISOString := fun t => some t.toStr
  seconds := fun _ _ => "0.00"
  dirname := "/srv/import"
  parseInt := fun v =>
    match v with
    | JsVal.num n => some n
    | JsVal.str "1" => some 1
    | _ => none

/-- The sample runtime with the time range of `Date`: a number of milliseconds
beyond 8.64e15 on either side has no ISO string. -/
def sampleDateEnv : Env :=
  { sampleEnv with
    toISOString := fun t =>
      match t with
      | JsVal.num n => if n.natAbs ≤ 8640000000000000 then some (toString n) else none
      | _ => none }

/-- A target system that rejects the category named `Closed` and accepts every
other request, numbering what it creates by the length of the trace. -/
def sampleTarget : Target where
  categoriesCreate := fun h d =>
    if d.get "name" = JsVal.str "Closed" then Except.error "category rejected"
    else Except.ok [("cid", JsVal.num (h.length + 1)), ("slug", JsVal.str "open")]
  userCreate := fun h _ => Except.ok (JsVal.num (h.length + 2))
  topicsPost := fun h _ =>
    Except.ok ([("tid", JsVal.num (h.length + 1))], [("pid", JsVal.num (h.length + 1))])
  postsCreate := fun h _ => Except.ok [("pid", JsVal.num (h.length + 1))]
  userSetUserFields := fun _ _ _ => none
  groupJoin := fun _ _ _ => none
  dbSetObject := fun _ _ _ => none
  dbSetObjectField := fun _ _ _ _ => none
  dbGetObject := fun _ _ => none
  metaConfigsInit := fun _ => none
  random := fun _ => 0
  now := fun _ => 1000
  dbSortedSetAdd := fun _ _ _ _ => none
  dbGetSortedSetRevRange := fun _ k =>
    if k = "tid:9:posts" then Except.ok (some [JsVal.num 31, JsVal.num 30])
    else Except.ok (some [])
  dbGetObjectField := fun _ k f =>
    if k = "topic:9" ∧ f = "cid" then Except.ok (JsVal.num 7)
    else if k = "post:31" ∧ f = "timestamp" then Except.ok (JsVal.num 5000)
    else Except.ok JsVal.undefined
  categoriesPurge := fun _ _ => none
  countCategories := fun _ => 2
  countUsers := fun _ => 3
  categoriesCidsBatches := fun _ => Except.ok [[JsVal.num 1, JsVal.num 2]]
  usersUidsBatches := fun _ => Except.ok [[JsVal.num 1, JsVal.num 2, JsVal.num 3]]

/-- A dataset of two categories, two users, three topics and three posts; topic
`t3` and post `p3` have no author. -/
def sampleData : Dataset where
  categories :=
    { recs := [("c1", [("_name", JsVal.str "Closed")]), ("c2", [("_name", JsVal.str "Open")])]
      ids := ["c1", "c2"] }
  users :=
    { recs := [("u1", [("_username", JsVal.str "Root"), ("_uid", JsVal.str "u1")]),
               ("u2", [("_username", JsVal.str "bob"), ("_uid", JsVal.str "u2")])]
      ids := ["u1", "u2"] }
  topics :=
    { recs := [("t1", [("_cid", JsVal.str "c1"), ("_uid", JsVal.str "u1")]),
               ("t2", [("_cid", JsVal.str "c2"), ("_uid", JsVal.str "u1")]),
               ("t3", [("_cid", JsVal.str "c2"), ("_title", JsVal.str "From a guest")])]
      ids := ["t1", "t2", "t3"] }
  posts :=
    { recs := [("p1", [("_tid", JsVal.str "t1"), ("_uid", JsVal.str "u2")]),
               ("p2", [("_tid", JsVal.str "t2"), ("_uid", JsVal.str "u2")]),
               ("p3", [("_tid", JsVal.str "t2"), ("_content", JsVal.str "A guest reply")])]
      ids := ["p1", "p2", "p3"] }

/-- A run about to start on `sampleData`, with admin takeover enabled for the
legacy name `root`. -/
def sampleWorld : World where
  config := { defaults with
    adminTakeOwnership := [("enable", JsVal.bool true), ("username", JsVal.str "root")] }
  data := sampleData
  events := []
  phasePercentage := JsNum.fin 0
  calls := []
  draws := 0
  targetConfig := [("title", JsVal.str "Forum"), ("postDelay", JsVal.str "10")]
  snapshot := none
  count := 0
  imported := 0
  oldOwnerNotFound := false
  startTime := 0
  halted := none

/-- The sample run at a point where category `c2` and topic `t2` are imported. -/
def sampleWorldImported : World :=
  { sampleWorld with data := { sampleData with
      categories := sampleData.categories.put "c2"
        [("_name", JsVal.str "Open"), ("imported", JsVal.bool true), ("cid", JsVal.num 7)]
      topics := sampleData.topics.put "t2"
        [("_cid", JsVal.str "c2"), ("_uid", JsVal.str "u1"), ("imported", JsVal.bool true),
         ("tid", JsVal.num 9)] } }

/-- A target system whose configuration writes fail and that accepts the rest. -/
def failingStoreTarget : Target :=
  { sampleTarget with dbSetObject := fun _ key _ =>
      if key = "config" then some "store unreachable" else none }

/-- The sample run with a snapshot file left behind by an earlier run. -/
def sampleWorldResumed : World :=
  { sampleWorld with snapshot := some [("title", JsVal.str "Forum"), ("postDelay", JsVal.str "10")],
                     targetConfig := [("title", JsVal.str "Forum"), ("postDelay", JsVal.num 0)] }

/-- A run whose legacy admin is named `***`, a name that `cleanUsername` empties,
with takeover enabled for that name; category `c2` is already imported. -/
def sampleWorldStarAdmin : World :=
  { sampleWorld with
    config := { defaults with
      adminTakeOwnership := [("enable", JsVal.bool true), ("username", JsVal.str "***")] }
    data :=
      { users := { recs := [("u1", [("_username", JsVal.str "***"), ("_uid", JsVal.str "u1")])]
                   ids := ["u1"] }
        categories :=
          { recs := [("c2", [("_name", JsVal.str "Open"), ("imported", JsVal.bool true),
              ("cid", JsVal.num 7)])]
            ids := ["c2"] }
        topics := { recs := [("t2", [("_cid", JsVal.str "c2"), ("_uid", JsVal.str "u1")])]
                    ids := ["t2"] }
        posts := { recs := [], ids := [] } } }

/-- A run in the middle of the user batch, the flag `oldOwnerNotFound` still set,
whose legacy admin is named `##`, as is the name configured for the takeover. -/
def sampleWorldSymbolAdmin : World :=
  { sampleWorld with
    config := { defaults with
      adminTakeOwnership := [("enable", JsVal.bool true), ("username", JsVal.str "##")] }
    oldOwnerNotFound := true
    data := { sampleData with
      users := { recs := [("u9", [("_username", JsVal.str "##"), ("_uid", JsVal.str "u9")])]
                 ids := ["u9"] } } }

/-- A run in the middle of the user batch, the flag `oldOwnerNotFound` still set,
with takeover enabled for the legacy name `root`. -/
def sampleWorldTakeover : World := { sampleWorld with oldOwnerNotFound := true }

/-- A run in which topic `t1` is locked in the source and was never imported,
and topic `t2` is locked in the source and was imported as topic 9. -/
def sampleWorldLocked : World :=
  { sampleWorld with data := { sampleData with
      topics :=
        { recs := [("t1", [("_cid", JsVal.str "c1"), ("_locked", JsVal.bool true)]),
                   ("t2", [("_cid", JsVal.str "c2"), ("_locked", JsVal.bool true),
                           ("imported", JsVal.bool true), ("tid", JsVal.num 9)])]
          ids := ["t1", "t2"] } } }

/-- A target system whose write of the counter `nextTid` fails and that accepts
the rest. -/
def failingResetTarget : Target :=
  { sampleTarget with
    dbSetObjectField := fun _ _ field _ => if field = "nextTid" then some "write failed" else none }

/-- A run in which category `c1` was not imported, category `c2` was imported as
category 7, and the only user is a moderator. -/
def sampleWorldModerator : World :=
  { sampleWorldImported with data := { sampleWorldImported.data with
      users :=
        { recs := [("u3", [("_username", JsVal.str "carol"), ("_level", JsVal.str "Moderator")])]
          ids := ["u3"] } } }

/-- A target system that creates the topic as topic 9 with first post 30 and the
reply as post 31, and whose store then answers accordingly: the posts of topic
9 are 31 and 30, latest first, topic 9 lies in category 7, and post 31 has the
timestamp 5000. -/
def pinnedTarget : Target :=
  { sampleTarget with
    topicsPost := fun _ _ => Except.ok ([("tid", JsVal.num 9)], [("pid", JsVal.num 30)])
    postsCreate := fun _ _ => Except.ok [("pid", JsVal.num 31)] }

/-- A run before the topic phase: category `c2` was imported as category 7, the
topic `t2` of `c2` is pinned and dated 2000, and the post `p2` is a reply to it
dated 5000. -/
def sampleWorldPinned : World :=
  { sampleWorld with data :=
      { users := { recs := [], ids := [] }
        categories :=
          { recs := [("c2", [("_name", JsVal.str "Open"), ("imported", JsVal.bool true),
                             ("cid", JsVal.num 7)])]
            ids := ["c2"] }
        topics :=
          { recs := [("t2", [("_cid", JsVal.str "c2"), ("_title", JsVal.str "Pinned"),
                             ("_pinned", JsVal.bool true), ("_timestamp", JsVal.num 2000)])]
            ids := ["t2"] }
        posts :=
          { recs := [("p2", [("_tid", JsVal.str "t2"), ("_content", JsVal.str "A reply"),
                             ("_timestamp", JsVal.num 5000)])]
            ids := ["p2"] } } }

/-! ## Username resolution: theorems -/

/-- C1: for every pair of strings, every validity rule and every slugifier,
`makeValidNbbUsername` returns either the pair of nulls or a username that the
validity rule accepts together with its slug, which is not empty. -/
theorem makeValidNbbUsername_valid_or_null (env : Env) (_username _alternativeUsername : String) :
    makeValidNbbUsername env _username _alternativeUsername
        = { username := none, userslug := none } ∨
      ∃ name, makeValidNbbUsername env _username _alternativeUsername
          = { username := some name, userslug := some (env.slugify name) } ∧
        env.isUserNameValid name = true ∧ env.slugify name ≠ "" := by
  unfold makeValidNbbUsername
  simp only []
  split
  · rename_i h
    simp only [Bool.and_eq_true, bne_iff_ne] at h
    exact Or.inr ⟨_, rfl, h.1, h.2⟩
  · split
    · rename_i h
      simp only [Bool.and_eq_true, bne_iff_ne] at h
      exact Or.inr ⟨_, rfl, h.1, h.2⟩
    · split
      · split
        · rename_i h
          simp only [Bool.and_eq_true, bne_iff_ne] at h
          exact Or.inr ⟨_, rfl, h.1, h.2⟩
        · split
          · rename_i h
            simp only [Bool.and_eq_true, bne_iff_ne] at h
            exact Or.inr ⟨_, rfl, h.1, h.2⟩
          · exact Or.inl rfl
      · exact Or.inl rfl

/-- C2: when the validity rule rejects the empty string, `makeValidNbbUsername`
returns the first of the four candidates (raw username, cleaned username, raw
alternative, cleaned alternative) that is valid and has a non-empty slug,
paired with that slug, and it returns the pair of nulls exactly when none of
the four qualifies. -/
theorem makeValidNbbUsername_eq_firstQualifying (env : Env)
    (_username _alternativeUsername : String) (hempty : env.isUserNameValid "" = false) :
    makeValidNbbUsername env _username _alternativeUsername
        = firstQualifying env _username _alternativeUsername ∧
      (makeValidNbbUsername env _username _alternativeUsername
          = { username := none, userslug := none } ↔
        ∀ c ∈ candidates _username _alternativeUsername, qualifies env c = false) := by
  have hclean : cleanUsername "" = "" := by decide
  have hq : qualifies env "" = false := by simp [qualifies, hempty]
  have key : makeValidNbbUsername env _username _alternativeUsername
      = firstQualifying env _username _alternativeUsername := by
    have e : ∀ c, (env.isUserNameValid c && env.slugify c != "") = qualifies env c :=
      fun _ => rfl
    unfold makeValidNbbUsername firstQualifying candidates
    simp only [e, List.find?]
    cases h1 : qualifies env _username
    · cases h2 : qualifies env (cleanUsername _username)
      · by_cases hb : _alternativeUsername = ""
        · subst hb
          simp [hclean, hq]
        · cases h3 : qualifies env _alternativeUsername
          · cases h4 : qualifies env (cleanUsername _alternativeUsername) <;> simp [hb]
          · simp [hb]
      · simp
    · simp
  refine ⟨key, ?_⟩
  rw [key]
  unfold firstQualifying
  cases hf : (candidates _username _alternativeUsername).find? (qualifies env) with
  | none =>
    simp only [true_iff]
    intro c hc
    have := List.find?_eq_none.mp hf c hc
    simpa using this
  | some c =>
    simp only [NbbUsername.mk.injEq, false_iff, reduceCtorEq, and_self]
    intro hall
    have hmem := List.mem_of_find?_eq_some hf
    have hqc := List.find?_some hf
    rw [hall c hmem] at hqc
    exact Bool.false_ne_true hqc

/-- C2 at a concrete input: the raw name `b!` is rejected, its cleaned form `b`
is too short, and the alternative `Bob` is the first candidate that qualifies. -/
theorem makeValidNbbUsername_eq_firstQualifying_witness :
    sampleEnv.isUserNameValid "" = false ∧
      makeValidNbbUsername sampleEnv "b!" "Bob" = { username := some "Bob", userslug := some "bob" } ∧
      makeValidNbbUsername sampleEnv "b!" "Bob" = firstQualifying sampleEnv "b!" "Bob" :=
  ⟨by decide, by decide,
    (makeValidNbbUsername_eq_firstQualifying sampleEnv "b!" "Bob" (by decide)).1⟩

/-! ## Frame lemmas -/

@[simp] theorem progress_calls (c t : Nat) (i : Option ℚ) (w : World) :
    (progress c t i w).calls = w.calls := by
  unfold progress; simp only []; split <;> rfl

@[simp] theorem progress_data (c t : Nat) (i : Option ℚ) (w : World) :
    (progress c t i w).data = w.data := by
  unfold progress; simp only []; split <;> rfl

@[simp] theorem progress_halted (c t : Nat) (i : Option ℚ) (w : World) :
    (progress c t i w).halted = w.halted := by
  unfold progress; simp only []; split <;> rfl

@[simp] theorem progress_config (c t : Nat) (i : Option ℚ) (w : World) :
    (progress c t i w).config = w.config := by
  unfold progress; simp only []; split <;> rfl

@[simp] theorem progress_count (c t : Nat) (i : Option ℚ) (w : World) :
    (progress c t i w).count = w.count := by
  unfold progress; simp only []; split <;> rfl

@[simp] theorem progress_imported (c t : Nat) (i : Option ℚ) (w : World) :
    (progress c t i w).imported = w.imported := by
  unfold progress; simp only []; split <;> rfl

@[simp] theorem progress_oldOwnerNotFound (c t : Nat) (i : Option ℚ) (w : World) :
    (progress c t i w).oldOwnerNotFound = w.oldOwnerNotFound := by
  unfold progress; simp only []; split <;> rfl

@[simp] theorem progress_startTime (c t : Nat) (i : Option ℚ) (w : World) :
    (progress c t i w).startTime = w.startTime := by
  unfold progress; simp only []; split <;> rfl

@[simp] theorem progress_draws (c t : Nat) (i : Option ℚ) (w : World) :
    (progress c t i w).draws = w.draws := by
  unfold progress; simp only []; split <;> rfl

@[simp] theorem progress_targetConfig (c t : Nat) (i : Option ℚ) (w : World) :
    (progress c t i w).targetConfig = w.targetConfig := by
  unfold progress; simp only []; split <;> rfl

@[simp] theorem progress_snapshot (c t : Nat) (i : Option ℚ) (w : World) :
    (progress c t i w).snapshot = w.snapshot := by
  unfold progress; simp only []; split <;> rfl

theorem progress_events (c t : Nat) (i : Option ℚ) (w : World) :
    ∃ es, (progress c t i w).events = w.events ++ es := by
  unfold progress; simp only []; split
  · exact ⟨_, rfl⟩
  · exact ⟨[], by simp⟩

theorem importTopicsOnPost_calls (T : Target) (env : Env) (_tid : String) (topic category : Obj)
    (returnTopic : Obj × Obj) (w : World) :
    ∃ rest, (importTopicsOnPost T env _tid topic category returnTopic w).calls
      = w.calls ++ rest := by
  unfold importTopicsOnPost
  simp only []
  split
  · exact ⟨[], by simp [World.halt]⟩
  · split
    · exact ⟨_, by simp [World.halt, World.call, List.append_assoc]; rfl⟩
    · exact ⟨_, by simp [World.call, List.append_assoc]; rfl⟩

theorem importPostsOnCreate_calls (env : Env) (_pid : String) (post postReturn : Obj)
    (w : World) :
    ∃ rest, (importPostsOnCreate env _pid post postReturn w).calls = w.calls ++ rest := by
  unfold importPostsOnCreate
  simp only []
  split
  · exact ⟨[], by simp [World.halt]⟩
  · exact ⟨_, by simp [World.call]; rfl⟩

/-! ## Dependency gate: theorems -/

theorem importTopicsOnEach_skip (T : Target) (env : Env) (w : World) (_tid : String)
    (topic : Obj) (h : w.data.topics.get _tid = some topic)
    (hg : canImportChild (w.data.categories.get (topic.get "_cid").toStr) = false) :
    ∃ parts, importTopicsOnEach T env _tid w
      = World.warn parts { w with count := w.count + 1 } := by
  unfold importTopicsOnEach
  simp only [h]
  cases hp : w.data.categories.get (topic.get "_cid").toStr with
  | none => exact ⟨_, rfl⟩
  | some category =>
    rw [hp] at hg
    simp only [canImportChild] at hg
    simp only [hg, Bool.not_false, ↓reduceIte]
    exact ⟨_, rfl⟩

theorem importTopicsOnEach_post (T : Target) (env : Env) (w : World) (_tid : String)
    (topic category : Obj) (h : w.data.topics.get _tid = some topic)
    (hp : w.data.categories.get (topic.get "_cid").toStr = some category)
    (hg : (category.get "imported").truthy = true) :
    ∃ rest, (importTopicsOnEach T env _tid w).calls
      = w.calls ++ Call.topicsPost (topicsPostData w.config topic category
          ((w.data.users.get (topic.get "_uid").toStr).getD [])) :: rest := by
  unfold importTopicsOnEach
  simp only [h, hp, hg, Bool.not_true, Bool.false_eq_true, ↓reduceIte]
  split
  · exact ⟨[], by simp [World.warn, World.call]⟩
  · rename_i returnTopic _
    obtain ⟨rest, hrest⟩ := importTopicsOnPost_calls T env _tid topic category returnTopic
        (World.call (Call.topicsPost (topicsPostData w.config topic category
          ((w.data.users.get (topic.get "_uid").toStr).getD [])))
          { w with count := w.count + 1 })
    exact ⟨rest, by rw [hrest]; simp [World.call]⟩

theorem importPostsOnEach_skip (T : Target) (env : Env) (w : World) (_pid : String)
    (post : Obj) (h : w.data.posts.get _pid = some post)
    (hg : canImportChild (w.data.topics.get (post.get "_tid").toStr) = false) :
    ∃ parts, importPostsOnEach T env _pid w
      = World.warn parts { w with count := w.count + 1 } := by
  unfold importPostsOnEach
  simp only [h]
  cases hp : w.data.topics.get (post.get "_tid").toStr with
  | none => exact ⟨_, rfl⟩
  | some topic =>
    rw [hp] at hg
    simp only [canImportChild] at hg
    simp only [hg, Bool.not_false, ↓reduceIte]
    exact ⟨_, rfl⟩

theorem importPostsOnEach_create (T : Target) (env : Env) (w : World) (_pid : String)
    (post topic : Obj) (h : w.data.posts.get _pid = some post)
    (hp : w.data.topics.get (post.get "_tid").toStr = some topic)
    (hg : (topic.get "imported").truthy = true) :
    ∃ rest, (importPostsOnEach T env _pid w).calls
      = w.calls ++ Call.postsCreate (postsCreateData w.config w.startTime post topic
          ((w.data.users.get (post.get "_uid").toStr).getD [])) :: rest := by
  unfold importPostsOnEach
  simp only [h, hp, hg, Bool.not_true, Bool.false_eq_true, ↓reduceIte]
  split
  · exact ⟨[], by simp [World.warn, World.call]⟩
  · rename_i postReturn _
    obtain ⟨rest, hrest⟩ := importPostsOnCreate_calls env _pid post postReturn
        (World.call (Call.postsCreate (postsCreateData w.config w.startTime post topic
          ((w.data.users.get (post.get "_uid").toStr).getD [])))
          { w with count := w.count + 1 })
    exact ⟨rest, by rw [hrest]; simp [World.call]⟩

/-- C3: whatever the target system answers, processing a topic issues a
`Topics.post` call, or changes the dataset at all, only if the category found
under the topic's `_cid` exists and has `imported` set at that moment, and then
the call is issued; when the category is absent or not imported the item issues
no call, leaves the dataset (so the topic's `imported` flag) as it was, emits
one warning and hands no error to the batch. The same holds for a post and the
topic found under its `_tid`, with `Posts.create`. -/
theorem child_created_only_under_imported_parent (T : Target) (env : Env) (w : World) :
    (∀ _tid topic, w.data.topics.get _tid = some topic →
      ((∃ data, Call.topicsPost data ∈ callsSince w.calls.length (importTopicsOnEach T env _tid w)) →
        canImportChild (w.data.categories.get (topic.get "_cid").toStr) = true) ∧
      ((importTopicsOnEach T env _tid w).data ≠ w.data →
        canImportChild (w.data.categories.get (topic.get "_cid").toStr) = true) ∧
      (canImportChild (w.data.categories.get (topic.get "_cid").toStr) = true →
        ∃ data rest, callsSince w.calls.length (importTopicsOnEach T env _tid w)
          = Call.topicsPost data :: rest) ∧
      (canImportChild (w.data.categories.get (topic.get "_cid").toStr) = false →
        callsSince w.calls.length (importTopicsOnEach T env _tid w) = [] ∧
        (importTopicsOnEach T env _tid w).data = w.data ∧
        (importTopicsOnEach T env _tid w).halted = w.halted ∧
        ∃ parts, (importTopicsOnEach T env _tid w).events = w.events ++ [Event.warn parts])) ∧
    (∀ _pid post, w.data.posts.get _pid = some post →
      ((∃ data, Call.postsCreate data ∈ callsSince w.calls.length (importPostsOnEach T env _pid w)) →
        canImportChild (w.data.topics.get (post.get "_tid").toStr) = true) ∧
      ((importPostsOnEach T env _pid w).data ≠ w.data →
        canImportChild (w.data.topics.get (post.get "_tid").toStr) = true) ∧
      (canImportChild (w.data.topics.get (post.get "_tid").toStr) = true →
        ∃ data rest, callsSince w.calls.length (importPostsOnEach T env _pid w)
          = Call.postsCreate data :: rest) ∧
      (canImportChild (w.data.topics.get (post.get "_tid").toStr) = false →
        callsSince w.calls.length (importPostsOnEach T env _pid w) = [] ∧
        (importPostsOnEach T env _pid w).data = w.data ∧
        (importPostsOnEach T env _pid w).halted = w.halted ∧
        ∃ parts, (importPostsOnEach T env _pid w).events = w.events ++ [Event.warn parts])) := by
  constructor
  · intro _tid topic h
    have hskip : canImportChild (w.data.categories.get (topic.get "_cid").toStr) = false →
        callsSince w.calls.length (importTopicsOnEach T env _tid w) = [] ∧
        (importTopicsOnEach T env _tid w).data = w.data ∧
        (importTopicsOnEach T env _tid w).halted = w.halted ∧
        ∃ parts, (importTopicsOnEach T env _tid w).events = w.events ++ [Event.warn parts] := by
      intro hg
      obtain ⟨parts, hw⟩ := importTopicsOnEach_skip T env w _tid topic h hg
      rw [hw]
      exact ⟨by simp [callsSince, World.warn], rfl, rfl, parts, rfl⟩
    refine ⟨?_, ?_, ?_, hskip⟩
    · rintro ⟨data, hmem⟩
      by_contra hg
      rw [(hskip (by simpa using hg)).1] at hmem
      simp at hmem
    · intro hne
      by_contra hg
      exact hne (hskip (by simpa using hg)).2.1
    · intro hg
      cases hp : w.data.categories.get (topic.get "_cid").toStr with
      | none => rw [hp] at hg; simp [canImportChild] at hg
      | some category =>
        rw [hp] at hg
        obtain ⟨rest, hrest⟩ := importTopicsOnEach_post T env w _tid topic category h hp hg
        exact ⟨topicsPostData w.config topic category
          ((w.data.users.get (topic.get "_uid").toStr).getD []), rest,
          by simp [callsSince, hrest]⟩
  · intro _pid post h
    have hskip : canImportChild (w.data.topics.get (post.get "_tid").toStr) = false →
        callsSince w.calls.length (importPostsOnEach T env _pid w) = [] ∧
        (importPostsOnEach T env _pid w).data = w.data ∧
        (importPostsOnEach T env _pid w).halted = w.halted ∧
        ∃ parts, (importPostsOnEach T env _pid w).events = w.events ++ [Event.warn parts] := by
      intro hg
      obtain ⟨parts, hw⟩ := importPostsOnEach_skip T env w _pid post h hg
      rw [hw]
      exact ⟨by simp [callsSince, World.warn], rfl, rfl, parts, rfl⟩
    refine ⟨?_, ?_, ?_, hskip⟩
    · rintro ⟨data, hmem⟩
      by_contra hg
      rw [(hskip (by simpa using hg)).1] at hmem
      simp at hmem
    · intro hne
      by_contra hg
      exact hne (hskip (by simpa using hg)).2.1
    · intro hg
      cases hp : w.data.topics.get (post.get "_tid").toStr with
      | none => rw [hp] at hg; simp [canImportChild] at hg
      | some topic =>
        rw [hp] at hg
        obtain ⟨rest, hrest⟩ := importPostsOnEach_create T env w _pid post topic h hp hg
        exact ⟨postsCreateData w.config w.startTime post topic
          ((w.data.users.get (post.get "_uid").toStr).getD []), rest,
          by simp [callsSince, hrest]⟩

/-- C3 at a concrete input: in the sample run topic `t1` names the category `c1`,
which is not imported, so processing it issues no call and leaves the dataset as
it was; topic `t2` names the imported category `c2`, so a `Topics.post` call is
issued. -/
theorem child_created_only_under_imported_parent_witness :
    sampleWorldImported.data.topics.get "t1"
        = some [("_cid", JsVal.str "c1"), ("_uid", JsVal.str "u1")] ∧
      canImportChild (sampleWorldImported.data.categories.get "c1") = false ∧
      callsSince sampleWorldImported.calls.length
          (importTopicsOnEach sampleTarget sampleEnv "t1" sampleWorldImported) = [] ∧
      (importTopicsOnEach sampleTarget sampleEnv "t1" sampleWorldImported).data
        = sampleWorldImported.data :=
  ⟨by decide, by decide,
    (((child_created_only_under_imported_parent sampleTarget sampleEnv sampleWorldImported).1
      "t1" [("_cid", JsVal.str "c1"), ("_uid", JsVal.str "u1")] (by decide)).2.2.2
        (by decide)).1,
    (((child_created_only_under_imported_parent sampleTarget sampleEnv sampleWorldImported).1
      "t1" [("_cid", JsVal.str "c1"), ("_uid", JsVal.str "u1")] (by decide)).2.2.2
        (by decide)).2.1⟩

/-! ## Tables and batches: lemmas -/

theorem Table.get_put_self (t : Table) (k : String) (o : Obj) : (t.put k o).get k = some o := by
  unfold Table.put Table.get
  simp only []
  induction t.recs with
  | nil => simp [Table.putRec, List.lookup]
  | cons kv rest ih =>
    obtain ⟨k', o'⟩ := kv
    unfold Table.putRec
    by_cases hk : k' = k
    · simp [hk, List.lookup]
    · have hk' : (k == k') = false := by simpa using fun h => hk h.symm
      simp [hk, List.lookup, hk', ih]

theorem Table.get_put_ne (t : Table) (k k' : String) (o : Obj) (hne : k' ≠ k) :
    (t.put k o).get k' = t.get k' := by
  unfold Table.put Table.get
  simp only []
  induction t.recs with
  | nil =>
    have : (k' == k) = false := by simpa using hne
    simp [Table.putRec, List.lookup, this]
  | cons kv rest ih =>
    obtain ⟨k'', o'⟩ := kv
    unfold Table.putRec
    by_cases hk : k'' = k
    · subst hk
      have : (k' == k'') = false := by simpa using hne
      simp [List.lookup, this]
    · simp only [hk, ↓reduceIte, List.lookup]
      cases k' == k'' <;> simp [ih]

theorem Table.get_put_isSome (t : Table) (k k' : String) (o : Obj)
    (h : (t.get k').isSome = true) : ((t.put k o).get k').isSome = true := by
  by_cases hk : k' = k
  · subst hk; simp [Table.get_put_self]
  · rw [Table.get_put_ne t k k' o hk]; exact h

theorem eachLimit_nil (onEach : String → World → World) (w : World) :
    eachLimit [] onEach w = w := rfl

theorem eachLimit_cons (id : String) (ids : List String) (onEach : String → World → World)
    (w : World) :
    eachLimit (id :: ids) onEach w
      = eachLimit ids onEach (if w.halted.isSome then w else onEach id w) := rfl

theorem eachLimit_append (xs ys : List String) (onEach : String → World → World) (w : World) :
    eachLimit (xs ++ ys) onEach w = eachLimit ys onEach (eachLimit xs onEach w) := by
  unfold eachLimit
  rw [List.foldl_append]

/-- An invariant that every item of the list keeps is kept by the batch. -/
theorem eachLimit_induct (P : World → Prop) (ids : List String)
    (onEach : String → World → World)
    (hstep : ∀ id ∈ ids, ∀ w, P w → w.halted = none → P (onEach id w))
    (w : World) (hw : P w) : P (eachLimit ids onEach w) := by
  induction ids generalizing w with
  | nil => exact hw
  | cons id ids ih =>
    rw [eachLimit_cons]
    apply ih (fun id' hid' => hstep id' (List.mem_cons_of_mem _ hid'))
    cases hh : w.halted with
    | none => simpa [hh] using hstep id (List.mem_cons_self _ _) w hw hh
    | some e => simpa [hh] using hw

/-! ## Category pipeline: lemmas -/

theorem roulette_snd (T : Target) (arr : List JsVal) (w : World) :
    (roulette T arr w).2 = { w with draws := w.draws + 1 } := rfl

theorem categoryData_snd (T : Target) (category : Obj) (w : World) :
    (categoryData T category w).2 = { w with draws := w.draws + 1 + 1 + 1 } := rfl

/-- What a category item leaves alone; `P` is any property of the table that
writing a record keeps. -/
theorem importCategoriesOnFields_frame (_cid : String) (category categoryReturn : Obj)
    (err : Option String) (w : World) :
    (importCategoriesOnFields _cid category categoryReturn err w).halted = w.halted ∧
      (importCategoriesOnFields _cid category categoryReturn err w).data.categories
        = w.data.categories.put _cid
            (Obj.nodeExtend [Obj.set category "imported" (JsVal.bool true), categoryReturn]) ∧
      ∃ es, (importCategoriesOnFields _cid category categoryReturn err w).events
        = w.events ++ es := by
  unfold importCategoriesOnFields
  cases err with
  | none =>
    obtain ⟨es, hes⟩ := progress_events w.count w.data.categories.ids.length none w
    exact ⟨by simp, by simp, es, by simpa using hes⟩
  | some e =>
    obtain ⟨es, hes⟩ := progress_events (w.warn [JsVal.str e]).count
      (w.warn [JsVal.str e]).data.categories.ids.length none (w.warn [JsVal.str e])
    refine ⟨by simp [World.warn], by simp [World.warn], [Event.warn [JsVal.str e]] ++ es, ?_⟩
    simp only [hes]
    simp [World.warn]

theorem importCategoriesOnCreate_frame (T : Target) (_cid : String) (category : Obj)
    (answer : Except String Obj) (w : World) :
    (importCategoriesOnCreate T _cid category answer w).halted = w.halted ∧
      (importCategoriesOnCreate T _cid category answer w).data.categories.ids
        = w.data.categories.ids ∧
      (∀ k, k ≠ _cid →
        (importCategoriesOnCreate T _cid category answer w).data.categories.get k
          = w.data.categories.get k) ∧
      (∀ k, (w.data.categories.get k).isSome = true →
        ((importCategoriesOnCreate T _cid category answer w).data.categories.get k).isSome
          = true) ∧
      ∃ es, (importCategoriesOnCreate T _cid category answer w).events = w.events ++ es := by
  unfold importCategoriesOnCreate
  cases answer with
  | error err => exact ⟨rfl, rfl, fun _ _ => rfl, fun _ h => h, _, rfl⟩
  | ok categoryReturn =>
    simp only []
    obtain ⟨h1, h2, es, h3⟩ := importCategoriesOnFields_frame _cid category categoryReturn
      (T.dbSetObject w.calls ("category:" ++ (categoryReturn.get "cid").toStr)
        [("_imported_cid", JsVal.str _cid),
         ("_imported_name", (category.get "_name").or (JsVal.str "")),
         ("_imported_slug", (category.get "_slug").or (JsVal.str "")),
         ("_imported_description", (category.get "_description").or (JsVal.str "")),
         ("_imported_link", (category.get "_link").or (JsVal.str ""))])
      (w.call (Call.dbSetObject ("category:" ++ (categoryReturn.get "cid").toStr)
        [("_imported_cid", JsVal.str _cid),
         ("_imported_name", (category.get "_name").or (JsVal.str "")),
         ("_imported_slug", (category.get "_slug").or (JsVal.str "")),
         ("_imported_description", (category.get "_description").or (JsVal.str "")),
         ("_imported_link", (category.get "_link").or (JsVal.str ""))]))
    refine ⟨h1, by rw [h2]; rfl, ?_, ?_, es, h3⟩
    · intro k hk
      rw [h2]
      exact Table.get_put_ne _ _ _ _ hk
    · intro k hk
      rw [h2]
      exact Table.get_put_isSome _ _ _ _ hk

/-- What a category item leaves alone when its record exists. -/
theorem importCategoriesOnEach_frame (T : Target) (_cid : String) (w : World) (category : Obj)
    (hget : w.data.categories.get _cid = some category) :
    (importCategoriesOnEach T _cid w).halted = w.halted ∧
      (importCategoriesOnEach T _cid w).data.categories.ids = w.data.categories.ids ∧
      (∀ k, k ≠ _cid →
        (importCategoriesOnEach T _cid w).data.categories.get k = w.data.categories.get k) ∧
      (∀ k, (w.data.categories.get k).isSome = true →
        ((importCategoriesOnEach T _cid w).data.categories.get k).isSome = true) ∧
      ∃ es, (importCategoriesOnEach T _cid w).events = w.events ++ es := by
  unfold importCategoriesOnEach
  simp only [hget]
  exact importCategoriesOnCreate_frame T _cid category _ _

/-- A category whose creation the target system rejects is left as it was, with
one warning that names it. -/
theorem importCategoriesOnEach_rejected (T : Target) (_cid : String) (w : World)
    (category : Obj) (hget : w.data.categories.get _cid = some category)
    (hrej : ∀ (h : List Call) (w : World),
      ∃ e, T.categoriesCreate h (categoryData T category w).1 = Except.error e) :
    (importCategoriesOnEach T _cid w).halted = w.halted ∧
      (importCategoriesOnEach T _cid w).data = w.data ∧
      ∃ e, (importCategoriesOnEach T _cid w).events = w.events ++
        [Event.warn [JsVal.str "skipping category:_cid: ", JsVal.str _cid, JsVal.str " : ",
          JsVal.str e]] := by
  unfold importCategoriesOnEach
  simp only [hget]
  obtain ⟨e, he⟩ := hrej (categoryData T category { w with count := w.count + 1 }).2.calls
    { w with count := w.count + 1 }
  rw [he]
  exact ⟨rfl, rfl, e, rfl⟩

/-! ## User and topic pipelines leave the categories alone -/

theorem makeModeratorOnAllCategories_frame (T : Target) (uid : JsVal) (w : World) :
    (makeModeratorOnAllCategories T uid w).1.data = w.data ∧
      (makeModeratorOnAllCategories T uid w).1.config = w.config ∧
      (makeModeratorOnAllCategories T uid w).1.oldOwnerNotFound = w.oldOwnerNotFound ∧
      (makeModeratorOnAllCategories T uid w).1.halted = w.halted := by
  unfold makeModeratorOnAllCategories
  generalize w.data.categories.ids = l
  suffices h : ∀ (acc : World × Bool),
      (fun (x : World × Bool) => x.1.data = acc.1.data ∧ x.1.config = acc.1.config ∧
        x.1.oldOwnerNotFound = acc.1.oldOwnerNotFound ∧ x.1.halted = acc.1.halted)
      (l.foldl
        (fun (acc : World × Bool) cid =>
          match acc.1.data.categories.get cid with
          | none => (acc.1, false)
          | some _ =>
            match T.groupJoin acc.1.calls ("group:cid:" ++ cid ++ ":privileges:mods:members")
                uid with
            | some e =>
              ((acc.1.call (Call.groupJoin ("group:cid:" ++ cid ++ ":privileges:mods:members")
                uid)).warn [JsVal.str e], acc.2)
            | none =>
              (acc.1.call (Call.groupJoin ("group:cid:" ++ cid ++ ":privileges:mods:members")
                uid), acc.2))
        acc) from h (w, true)
  induction l with
  | nil => intro acc; exact ⟨rfl, rfl, rfl, rfl⟩
  | cons cid l ih =>
    intro acc
    rw [List.foldl_cons]
    obtain ⟨h1, h2, h3, h4⟩ := ih
      (match acc.1.data.categories.get cid with
        | none => (acc.1, false)
        | some _ =>
          match T.groupJoin acc.1.calls ("group:cid:" ++ cid ++ ":privileges:mods:members")
              uid with
          | some e =>
            ((acc.1.call (Call.groupJoin ("group:cid:" ++ cid ++ ":privileges:mods:members")
              uid)).warn [JsVal.str e], acc.2)
          | none =>
            (acc.1.call (Call.groupJoin ("group:cid:" ++ cid ++ ":privileges:mods:members")
              uid), acc.2))
    simp only [h1, h2, h3, h4]
    split
    · exact ⟨rfl, rfl, rfl, rfl⟩
    · split <;> exact ⟨rfl, rfl, rfl, rfl⟩

theorem makeModeratorOnAllCategories_data (T : Target) (uid : JsVal) (w : World) :
    (makeModeratorOnAllCategories T uid w).1.data = w.data :=
  (makeModeratorOnAllCategories_frame T uid w).1

theorem importUsersOnLevel_categories (T : Target) (env : Env) (_uid : String) (u : NbbUsername)
    (uid : JsVal) (user : Obj) (w : World) :
    (importUsersOnLevel T env _uid u uid user w).data.categories = w.data.categories := by
  unfold importUsersOnLevel
  simp only []
  split
  · rfl
  · split
    · split <;> simp [World.halt, World.call]
    · simp [World.call]

theorem importUsersOnCreate_categories (T : Target) (env : Env) (_uid : String)
    (u : NbbUsername) (username : String) (answer : Except String JsVal) (user : Obj)
    (w : World) :
    (importUsersOnCreate T env _uid u username answer user w).data.categories
      = w.data.categories := by
  unfold importUsersOnCreate
  cases answer with
  | error err => rfl
  | ok uid =>
    simp only []
    split
    · split
      · rw [importUsersOnLevel_categories, makeModeratorOnAllCategories_data]; rfl
      · simp only [World.halt]
        rw [makeModeratorOnAllCategories_data]; rfl
    · split
      · rw [importUsersOnLevel_categories]; rfl
      · rw [importUsersOnLevel_categories]; rfl

theorem passwordGen_data (T : Target) (w : World) : (passwordGen T w).2.data = w.data := by
  unfold passwordGen
  split <;> rfl

theorem userPassword_data (T : Target) (user : Obj) (w : World) :
    (userPassword T user w).2.data = w.data := by
  unfold userPassword
  split
  · rfl
  · exact passwordGen_data T w

theorem importUsersWithData_categories (T : Target) (env : Env) (_uid : String) (user : Obj)
    (u : NbbUsername) (password : JsVal) (w : World) :
    (importUsersWithData T env _uid user u password w).data.categories
      = w.data.categories := by
  unfold importUsersWithData
  split
  · rfl
  · simp only []
    split
    · rw [importUsersOnCreate_categories]; rfl
    · split
      · split
        · rw [importUsersOnCreate_categories]; rfl
        · rw [importUsersOnCreate_categories]; rfl
      · rfl

theorem importUsersOnEach_categories (T : Target) (env : Env) (_uid : String) (w : World) :
    (importUsersOnEach T env _uid w).data.categories = w.data.categories := by
  unfold importUsersOnEach
  simp only []
  split
  · rfl
  · rw [importUsersWithData_categories, userPassword_data]

theorem importUsers_categories (T : Target) (env : Env) (w : World) :
    (importUsers T env w).data.categories = w.data.categories := by
  have hloop : ∀ (ids : List String) (w' : World),
      (eachLimit ids (importUsersOnEach T env) w').data.categories = w'.data.categories := by
    intro ids w'
    exact eachLimit_induct (fun x => x.data.categories = w'.data.categories) ids _
      (fun id _ x hx _ => (importUsersOnEach_categories T env id x).trans hx) w' rfl
  unfold importUsers
  simp only []
  split
  · rw [hloop]; simp [importUsersStart, World.success, World.phase]
  · simp only [World.phase, World.success, progress_data]
    rw [hloop]; simp [importUsersStart, World.success, World.phase]

theorem importTopicsOnPost_categories (T : Target) (env : Env) (_tid : String)
    (topic category : Obj) (returnTopic : Obj × Obj) (w : World) :
    (importTopicsOnPost T env _tid topic category returnTopic w).data.categories
      = w.data.categories := by
  unfold importTopicsOnPost
  simp only []
  split
  · rfl
  · split
    · rfl
    · simp [World.call]

theorem importTopicsOnEach_categories (T : Target) (env : Env) (_tid : String) (w : World) :
    (importTopicsOnEach T env _tid w).data.categories = w.data.categories := by
  unfold importTopicsOnEach
  simp only []
  split
  · rfl
  · split
    · rfl
    · split
      · rfl
      · split
        · rfl
        · rw [importTopicsOnPost_categories]; rfl

theorem eachLimit_importTopicsOnEach_categories (T : Target) (env : Env) (ids : List String)
    (w : World) :
    (eachLimit ids (importTopicsOnEach T env) w).data.categories = w.data.categories :=
  eachLimit_induct (fun x => x.data.categories = w.data.categories) ids _
    (fun id _ x hx _ => (importTopicsOnEach_categories T env id x).trans hx) w rfl

/-! ## A rejected category -/

theorem rejectedInv_step (T : Target) (w0 : World) (c1 : String) (category : Obj)
    (hrej : ∀ (h : List Call) (w : World),
      ∃ e, T.categoriesCreate h (categoryData T category w).1 = Except.error e)
    (id : String) (hid : id ∈ w0.data.categories.ids) (w : World)
    (hw : RejectedInv w0 c1 category w) :
    RejectedInv w0 c1 category (importCategoriesOnEach T id w) ∧
      ∃ es, (importCategoriesOnEach T id w).events = w.events ++ es := by
  obtain ⟨h1, h2, h3, h4⟩ := hw
  by_cases hc : id = c1
  · subst hc
    obtain ⟨a, b, e, c⟩ := importCategoriesOnEach_rejected T id w category h2 hrej
    exact ⟨⟨a.trans h1, by rw [b]; exact h2, by rw [b]; exact h3, by rw [b]; exact h4⟩, _, c⟩
  · obtain ⟨cat, hcat⟩ := Option.isSome_iff_exists.mp (h4 id hid)
    obtain ⟨a, b, c, d, e⟩ := importCategoriesOnEach_frame T id w cat hcat
    exact ⟨⟨a.trans h1, (c c1 (fun h => hc h.symm)).trans h2, b.trans h3,
      fun k hk => d k (h4 k hk)⟩, e⟩

theorem rejectedInv_batch (T : Target) (w0 : World) (c1 : String) (category : Obj)
    (hrej : ∀ (h : List Call) (w : World),
      ∃ e, T.categoriesCreate h (categoryData T category w).1 = Except.error e)
    (ev : Event) (ids : List String) (hids : ∀ id ∈ ids, id ∈ w0.data.categories.ids)
    (w : World) (hw : RejectedInv w0 c1 category w) :
    RejectedInv w0 c1 category (eachLimit ids (importCategoriesOnEach T) w) ∧
      (ev ∈ w.events → ev ∈ (eachLimit ids (importCategoriesOnEach T) w).events) := by
  have := eachLimit_induct
    (fun x => RejectedInv w0 c1 category x ∧ (ev ∈ w.events → ev ∈ x.events)) ids
    (importCategoriesOnEach T)
    (fun id hid x hx _ => by
      obtain ⟨hinv, es, hes⟩ := rejectedInv_step T w0 c1 category hrej id (hids id hid) x hx.1
      exact ⟨hinv, fun hev => by rw [hes]; exact List.mem_append_left _ (hx.2 hev)⟩)
    w ⟨hw, id⟩
  exact this

/-- C4: if the target system rejects the creation of category `c1`, the category
pipeline still runs to its end without an error, emits the warning that names
`c1`, and leaves the record of `c1` as it was, so with `imported` unset; in the
topic pipeline that follows (after the user pipeline, at whatever point of the
batch) a topic whose `_cid` is `c1` is skipped with one warning, issues no call to
the target system and leaves the dataset untouched. -/
theorem rejected_category_blocks_its_topics (T : Target) (env : Env) (w0 : World)
    (c1 : String) (category : Obj)
    (hrun : w0.halted = none)
    (hrecs : ∀ id ∈ w0.data.categories.ids, (w0.data.categories.get id).isSome = true)
    (hmem : c1 ∈ w0.data.categories.ids)
    (hget : w0.data.categories.get c1 = some category)
    (hunset : (category.get "imported").truthy = false)
    (hrej : ∀ (h : List Call) (w : World),
      ∃ e, T.categoriesCreate h (categoryData T category w).1 = Except.error e) :
    (importCategories T env w0).halted = none ∧
      (∃ e, Event.warn [JsVal.str "skipping category:_cid: ", JsVal.str c1, JsVal.str " : ",
        JsVal.str e] ∈ (importCategories T env w0).events) ∧
      (importCategories T env w0).data.categories.get c1 = some category ∧
      ∀ (pre : List String) (_tid : String) (topic : Obj),
        (eachLimit pre (importTopicsOnEach T env)
          (importTopicsStart T (importUsers T env (importCategories T env w0)))).data.topics.get
            _tid = some topic →
        (topic.get "_cid").toStr = c1 →
        callsSince (eachLimit pre (importTopicsOnEach T env)
            (importTopicsStart T (importUsers T env (importCategories T env w0)))).calls.length
          (importTopicsOnEach T env _tid (eachLimit pre (importTopicsOnEach T env)
            (importTopicsStart T (importUsers T env (importCategories T env w0))))) = [] ∧
        (importTopicsOnEach T env _tid (eachLimit pre (importTopicsOnEach T env)
            (importTopicsStart T (importUsers T env (importCategories T env w0))))).data
          = (eachLimit pre (importTopicsOnEach T env)
            (importTopicsStart T (importUsers T env (importCategories T env w0)))).data ∧
        ∃ parts, (importTopicsOnEach T env _tid (eachLimit pre (importTopicsOnEach T env)
            (importTopicsStart T (importUsers T env (importCategories T env w0))))).events
          = (eachLimit pre (importTopicsOnEach T env)
            (importTopicsStart T (importUsers T env (importCategories T env w0)))).events
            ++ [Event.warn parts] := by
  -- the category batch
  have hstart : RejectedInv w0 c1 category (importCategoriesStart T w0) := by
    refine ⟨?_, ?_, ?_, ?_⟩ <;>
      simp [importCategoriesStart, World.success, World.phase, hrun, hget, hrecs]
    exact hrecs
  obtain ⟨pre0, post0, hsplit⟩ := List.append_of_mem hmem
  have hids0 : (importCategoriesStart T w0).data.categories.ids = w0.data.categories.ids := by
    simp [importCategoriesStart, World.success, World.phase]
  have hpre := (rejectedInv_batch T w0 c1 category hrej (Event.phase "") pre0
    (fun id hid => by rw [hsplit]; exact List.mem_append_left _ hid) _ hstart).1
  obtain ⟨_, _, e, hev⟩ := importCategoriesOnEach_rejected T c1
    (eachLimit pre0 (importCategoriesOnEach T) (importCategoriesStart T w0)) category hpre.2.1 hrej
  have hc1 := (rejectedInv_step T w0 c1 category hrej c1 hmem _ hpre).1
  have hpost := rejectedInv_batch T w0 c1 category hrej
    (Event.warn [JsVal.str "skipping category:_cid: ", JsVal.str c1, JsVal.str " : ",
      JsVal.str e]) post0
    (fun id hid => by rw [hsplit]; exact List.mem_append_right _ (List.mem_cons_of_mem _ hid))
    _ hc1
  have hloop : eachLimit (importCategoriesStart T w0).data.categories.ids
        (importCategoriesOnEach T) (importCategoriesStart T w0)
      = eachLimit post0 (importCategoriesOnEach T) (importCategoriesOnEach T c1
          (eachLimit pre0 (importCategoriesOnEach T) (importCategoriesStart T w0))) := by
    rw [hids0, hsplit, eachLimit_append, eachLimit_cons, hpre.1]
    rfl
  have hevloop := hpost.2 (by rw [hev]; simp)
  have hA : (importCategories T env w0).halted = none ∧
      (Event.warn [JsVal.str "skipping category:_cid: ", JsVal.str c1, JsVal.str " : ",
        JsVal.str e] ∈ (importCategories T env w0).events) ∧
      (importCategories T env w0).data.categories.get c1 = some category := by
    unfold importCategories
    simp only [hloop, hpost.1.1, Option.isSome_none, Bool.false_eq_true, ↓reduceIte]
    refine ⟨?_, ?_, ?_⟩
    · simp [World.phase, World.success, hpost.1.1]
    · obtain ⟨es, hes⟩ := progress_events 1 1 none
        (World.success [JsVal.str "Importing ",
          JsVal.num (eachLimit post0 (importCategoriesOnEach T) (importCategoriesOnEach T c1
            (eachLimit pre0 (importCategoriesOnEach T) (importCategoriesStart T w0)))).imported,
          JsVal.str "/", JsVal.num (importCategoriesStart T w0).data.categories.ids.length,
          JsVal.str " categories took: ",
          JsVal.str (env.seconds
            (eachLimit post0 (importCategoriesOnEach T) (importCategoriesOnEach T c1
              (eachLimit pre0 (importCategoriesOnEach T) (importCategoriesStart T w0)))).startTime
            (T.now (eachLimit post0 (importCategoriesOnEach T) (importCategoriesOnEach T c1
              (eachLimit pre0 (importCategoriesOnEach T) (importCategoriesStart T w0)))).calls)),
          JsVal.str " seconds"]
          (eachLimit post0 (importCategoriesOnEach T) (importCategoriesOnEach T c1
            (eachLimit pre0 (importCategoriesOnEach T) (importCategoriesStart T w0)))))
      simp only [World.phase, hes]
      simp only [World.success, List.mem_append]
      exact Or.inl (Or.inl (Or.inl hevloop))
    · simp [World.phase, World.success, hpost.1.2.1]
  refine ⟨hA.1, ⟨e, hA.2.1⟩, hA.2.2, ?_⟩
  -- the topic batch
  intro pre _tid topic htopic hcid
  have hcats : (eachLimit pre (importTopicsOnEach T env)
      (importTopicsStart T (importUsers T env (importCategories T env w0)))).data.categories
        = (importCategories T env w0).data.categories := by
    rw [eachLimit_importTopicsOnEach_categories]
    simp only [importTopicsStart, World.success, World.phase, progress_data]
    exact importUsers_categories T env _
  have hgate : canImportChild ((eachLimit pre (importTopicsOnEach T env)
      (importTopicsStart T (importUsers T env (importCategories T env w0)))).data.categories.get
        (topic.get "_cid").toStr) = false := by
    rw [hcats, hcid, hA.2.2]
    simpa [canImportChild] using hunset
  obtain ⟨parts, hskip⟩ := importTopicsOnEach_skip T env _ _tid topic htopic hgate
  rw [hskip]
  exact ⟨by simp [callsSince, World.warn], rfl, parts, rfl⟩

/-- C4 at a concrete input: the sample target system rejects the category `c1`
(named `Closed`); the category pipeline ends without an error and leaves the
record of `c1` as it was, and at the start of the topic batch the topic `t1`,
whose `_cid` is `c1`, is skipped without a call. -/
theorem rejected_category_blocks_its_topics_witness :
    sampleWorld.halted = none ∧ "c1" ∈ sampleWorld.data.categories.ids ∧
      sampleWorld.data.categories.get "c1" = some [("_name", JsVal.str "Closed")] ∧
      (importCategories sampleTarget sampleEnv sampleWorld).halted = none ∧
      (importCategories sampleTarget sampleEnv sampleWorld).data.categories.get "c1"
        = some [("_name", JsVal.str "Closed")] ∧
      callsSince (eachLimit [] (importTopicsOnEach sampleTarget sampleEnv)
          (importTopicsStart sampleTarget (importUsers sampleTarget sampleEnv
            (importCategories sampleTarget sampleEnv sampleWorld)))).calls.length
        (importTopicsOnEach sampleTarget sampleEnv "t1"
          (eachLimit [] (importTopicsOnEach sampleTarget sampleEnv)
            (importTopicsStart sampleTarget (importUsers sampleTarget sampleEnv
              (importCategories sampleTarget sampleEnv sampleWorld))))) = [] :=
  have h := rejected_category_blocks_its_topics sampleTarget sampleEnv sampleWorld "c1"
    [("_name", JsVal.str "Closed")] rfl (by decide) (by decide) (by decide) (by decide)
    (fun _ _ => ⟨"category rejected", rfl⟩)
  ⟨rfl, by decide, by decide, h.1, h.2.2.1,
    (h.2.2.2 [] "t1" [("_cid", JsVal.str "c1"), ("_uid", JsVal.str "u1")]
      (by with_unfolding_all decide) rfl).1⟩

/-! ## Configuration swap: theorems -/

theorem Obj.get_set_self (o : Obj) (k : String) (v : JsVal) : Obj.get (Obj.set o k v) k = v := by
  induction o with
  | nil => simp [Obj.set, Obj.get]
  | cons kv rest ih =>
    obtain ⟨k', v'⟩ := kv
    by_cases hk : k' = k
    · simp [Obj.set, Obj.get, hk]
    · simp [Obj.set, Obj.get, hk, ih]

theorem Obj.get_set_ne (o : Obj) (k k' : String) (v : JsVal) (hne : k' ≠ k) :
    Obj.get (Obj.set o k v) k' = Obj.get o k' := by
  have hne' : ¬ k = k' := fun h => hne h.symm
  induction o with
  | nil => simp [Obj.set, Obj.get, hne']
  | cons kv rest ih =>
    obtain ⟨k'', v'⟩ := kv
    by_cases hk : k'' = k
    · subst hk
      simp [Obj.set, Obj.get, hne']
    · simp only [Obj.set, hk, ↓reduceIte, Obj.get, ih]

theorem Obj.get_of_not_has (o : Obj) (k : String) (h : Obj.has o k = false) :
    Obj.get o k = JsVal.undefined := by
  induction o with
  | nil => rfl
  | cons kv rest ih =>
    simp only [Obj.has, List.any_cons, Bool.or_eq_false_iff, beq_eq_false_iff_ne] at h
    simp only [Obj.get, h.1, ↓reduceIte]
    exact ih (by simpa [Obj.has] using h.2)

/-- Reading a key after a list of writes whose values are given by `f`. -/
theorem Obj.get_foldl_set (f : String → JsVal) (l : Obj) (t : Obj) (k : String) :
    Obj.get (l.foldl (fun o kv => Obj.set o kv.1 (f kv.1)) t) k
      = if Obj.has l k = true then f k else Obj.get t k := by
  induction l generalizing t with
  | nil => simp [Obj.has]
  | cons kv rest ih =>
    rw [List.foldl_cons, ih]
    by_cases hr : Obj.has rest k = true
    · have : Obj.has (kv :: rest) k = true := by
        simp only [Obj.has, List.any_cons, Bool.or_eq_true] at hr ⊢
        exact Or.inr hr
      simp [hr, this]
    · by_cases hk : kv.1 = k
      · have : Obj.has (kv :: rest) k = true := by
          simp [Obj.has, hk]
        simp only [hr, this, ↓reduceIte, Bool.false_eq_true]
        rw [← hk, Obj.get_set_self]
      · have : Obj.has (kv :: rest) k = false := by
          simp only [Bool.not_eq_true] at hr
          simp only [Obj.has, List.any_cons, Bool.or_eq_false_iff, beq_eq_false_iff_ne]
          exact ⟨hk, by simpa [Obj.has] using hr⟩
        simp only [hr, this, ↓reduceIte, Bool.false_eq_true]
        exact Obj.get_set_ne _ _ _ _ (fun e => hk e.symm)

/-- A field that the written object does not name keeps its stored value. -/
theorem dbSetObjectOnto_get_of_not_has (data stored : Obj) (k : String)
    (h : Obj.has data k = false) :
    Obj.get (dbSetObjectOnto stored data) k = Obj.get stored k := by
  unfold dbSetObjectOnto
  rw [Obj.get_foldl_set (Obj.get data)]
  simp [h]

/-- A field that the written object names takes the written value. -/
theorem dbSetObjectOnto_get_of_has (data stored : Obj) (k : String)
    (h : Obj.has data k = true) :
    Obj.get (dbSetObjectOnto stored data) k = Obj.get data k := by
  unfold dbSetObjectOnto
  rw [Obj.get_foldl_set (Obj.get data)]
  simp [h]

/-- Reading a key of `extend target src`: the value of the source unless that
is `undefined`. -/
theorem Obj.get_extend (target src : Obj) (k : String) :
    Obj.get (Obj.extend target src) k
      = if Obj.get src k = JsVal.undefined then Obj.get target k else Obj.get src k := by
  unfold Obj.extend
  suffices h : ∀ (l t : Obj),
      Obj.get (l.foldl (fun t kv => if Obj.get src kv.1 = JsVal.undefined then t
        else Obj.set t kv.1 (Obj.get src kv.1)) t) k
      = if Obj.has l k = true ∧ Obj.get src k ≠ JsVal.undefined then Obj.get src k
        else Obj.get t k by
    rw [h]
    by_cases hu : Obj.get src k = JsVal.undefined
    · simp [hu]
    · have hh : Obj.has src k = true := by
        by_contra hn
        exact hu (Obj.get_of_not_has src k (by simpa using hn))
      simp [hu, hh]
  intro l
  induction l with
  | nil => intro t; simp [Obj.has]
  | cons kv rest ih =>
    intro t
    rw [List.foldl_cons, ih]
    by_cases hu : Obj.get src k = JsVal.undefined
    · simp only [hu, ne_eq, not_true_eq_false, and_false, ↓reduceIte]
      split
      · rfl
      · rename_i hv
        exact Obj.get_set_ne _ _ _ _ (fun e => hv (e ▸ hu))
    · by_cases hr : Obj.has rest k = true
      · have : Obj.has (kv :: rest) k = true := by
          simp only [Obj.has, List.any_cons, Bool.or_eq_true] at hr ⊢
          exact Or.inr hr
        simp [hr, this, hu]
      · by_cases hk : kv.1 = k
        · have : Obj.has (kv :: rest) k = true := by simp [Obj.has, hk]
          simp only [hr, this, hu, ne_eq, not_false_eq_true, and_true, ↓reduceIte,
            false_and, hk]
          exact Obj.get_set_self _ _ _
        · have : Obj.has (kv :: rest) k = false := by
            simp only [Bool.not_eq_true] at hr
            simp only [Obj.has, List.any_cons, Bool.or_eq_false_iff, beq_eq_false_iff_ne]
            exact ⟨hk, by simpa [Obj.has] using hr⟩
          simp only [hr, this, Bool.false_eq_true, false_and, ↓reduceIte]
          split
          · rfl
          · exact Obj.get_set_ne _ _ _ _ (fun e => hk e.symm)

/-- C5, the claim as stated fails: the sample run starts with no snapshot file and
a configuration of two keys, every operation succeeds, and after `backupConfig`,
`setTmpConfig` and `restoreConfig` the target configuration differs from the
initial one: the mail host that `setTmpConfig` blanked is still there. -/
theorem config_roundtrip_keeps_overlay_keys :
    sampleWorld.snapshot = none ∧
      (restoreConfig sampleTarget sampleEnv
        (setTmpConfig sampleTarget (backupConfig sampleTarget sampleWorld))).halted = none ∧
      Obj.get sampleWorld.targetConfig "email:smtp:host" = JsVal.undefined ∧
      Obj.get (restoreConfig sampleTarget sampleEnv
        (setTmpConfig sampleTarget (backupConfig sampleTarget sampleWorld))).targetConfig
          "email:smtp:host" = JsVal.str "" ∧
      (restoreConfig sampleTarget sampleEnv
        (setTmpConfig sampleTarget (backupConfig sampleTarget sampleWorld))).targetConfig
        ≠ sampleWorld.targetConfig := by
  refine ⟨rfl, by decide, by decide, by decide, by decide⟩

/-- C5 as amended: starting with no snapshot file and a target configuration `C`,
when every store operation succeeds, `backupConfig`, `setTmpConfig` and
`restoreConfig` end without an error and without a snapshot file, every key of
`C` holds again the value it had in `C`, and a key that `C` did not have keeps
the value the temporary configuration gave it. -/
theorem config_roundtrip_restores_keys (T : Target) (env : Env) (w : World)
    (hfile : w.snapshot = none) (hrun : w.halted = none)
    (hget : ∀ h k, T.dbGetObject h k = none)
    (hset : ∀ h k o, T.dbSetObject h k o = none)
    (hinit : ∀ h, T.metaConfigsInit h = none) :
    (restoreConfig T env (setTmpConfig T (backupConfig T w))).halted = none ∧
      (restoreConfig T env (setTmpConfig T (backupConfig T w))).snapshot = none ∧
      (∀ k, Obj.has w.targetConfig k = true →
        Obj.get (restoreConfig T env (setTmpConfig T (backupConfig T w))).targetConfig k
          = Obj.get w.targetConfig k) ∧
      (∀ k, Obj.has w.targetConfig k = false →
        Obj.get (restoreConfig T env (setTmpConfig T (backupConfig T w))).targetConfig k
          = Obj.get (setTmpConfig T (backupConfig T w)).targetConfig k) := by
  have hb : backupConfig T w
      = { (w.call (Call.dbGetObject "config")) with
          config := { w.config with backedConfig := some w.targetConfig },
          snapshot := some w.targetConfig } := by
    unfold backupConfig
    simp [hfile, hget, World.call]
  have hs : (setTmpConfig T (backupConfig T w)).snapshot = some w.targetConfig ∧
      (setTmpConfig T (backupConfig T w)).halted = none := by
    unfold setTmpConfig
    simp [hb, hset, hinit, World.call, hrun]
  have hr : (restoreConfig T env (setTmpConfig T (backupConfig T w))).halted = none ∧
      (restoreConfig T env (setTmpConfig T (backupConfig T w))).snapshot = none ∧
      (restoreConfig T env (setTmpConfig T (backupConfig T w))).targetConfig
        = dbSetObjectOnto (setTmpConfig T (backupConfig T w)).targetConfig w.targetConfig := by
    unfold restoreConfig
    simp [hs.1, hs.2, hset, hinit, World.call, World.success]
  refine ⟨hr.1, hr.2.1, ?_, ?_⟩
  · intro k hk
    rw [hr.2.2]
    exact dbSetObjectOnto_get_of_has _ _ _ hk
  · intro k hk
    rw [hr.2.2]
    exact dbSetObjectOnto_get_of_not_has _ _ _ hk

/-- C5 as amended, at a concrete input: in the sample run the key `postDelay`,
which the temporary configuration overrides, holds its initial value again. -/
theorem config_roundtrip_restores_keys_witness :
    sampleWorld.snapshot = none ∧ sampleWorld.halted = none ∧
      Obj.has sampleWorld.targetConfig "postDelay" = true ∧
      Obj.get (restoreConfig sampleTarget sampleEnv
        (setTmpConfig sampleTarget (backupConfig sampleTarget sampleWorld))).targetConfig
          "postDelay" = Obj.get sampleWorld.targetConfig "postDelay" :=
  ⟨rfl, rfl, by decide,
    (config_roundtrip_restores_keys sampleTarget sampleEnv sampleWorld rfl rfl
      (fun _ _ => rfl) (fun _ _ _ => rfl) (fun _ => rfl)).2.2.1 "postDelay" (by decide)⟩

/-- C6: when the snapshot file exists, `backupConfig` caches the contents of the
file, issues no call (so it does not read the current configuration), and leaves
the file, the target configuration and the run status as they were. -/
theorem backupConfig_reuses_snapshot (T : Target) (w : World) (file : Obj)
    (hfile : w.snapshot = some file) :
    (backupConfig T w).config.backedConfig = some file ∧
      (backupConfig T w).calls = w.calls ∧
      (backupConfig T w).snapshot = some file ∧
      (backupConfig T w).targetConfig = w.targetConfig ∧
      (backupConfig T w).halted = w.halted := by
  unfold backupConfig
  simp [hfile]

/-- C6 at a concrete input: the resumed sample run holds a snapshot with
`postDelay` 10 while the target configuration says 0; the backup is the file. -/
theorem backupConfig_reuses_snapshot_witness :
    sampleWorldResumed.snapshot
        = some [("title", JsVal.str "Forum"), ("postDelay", JsVal.str "10")] ∧
      (backupConfig sampleTarget sampleWorldResumed).config.backedConfig
        = some [("title", JsVal.str "Forum"), ("postDelay", JsVal.str "10")] ∧
      (backupConfig sampleTarget sampleWorldResumed).calls = [] :=
  ⟨rfl,
    (backupConfig_reuses_snapshot sampleTarget sampleWorldResumed
      [("title", JsVal.str "Forum"), ("postDelay", JsVal.str "10")] rfl).1,
    (backupConfig_reuses_snapshot sampleTarget sampleWorldResumed
      [("title", JsVal.str "Forum"), ("postDelay", JsVal.str "10")] rfl).2.1⟩

/-- C7: when the snapshot file exists and writing its contents to the target
system fails, `restoreConfig` keeps the file, leaves the target configuration as
it was, ends its warnings with the whole cached configuration as JSON, and hands
no error to its continuation; when the file is absent it emits one warning and
hands no error either. -/
theorem restoreConfig_degrades (T : Target) (env : Env) (w : World) :
    (∀ file err, w.snapshot = some file → T.dbSetObject w.calls "config" file = some err →
      (restoreConfig T env w).snapshot = some file ∧
      (restoreConfig T env w).targetConfig = w.targetConfig ∧
      (restoreConfig T env w).halted = w.halted ∧
      (restoreConfig T env w).events = w.events ++
        [Event.warn [JsVal.str "Something went wrong while restoring your nbb configs"],
         Event.warn [JsVal.str "here are your backed-up configs, you do it manually"],
         Event.warn [JsVal.str (env.jsonStringify file)]]) ∧
    (w.snapshot = none →
      (restoreConfig T env w).halted = w.halted ∧
      (restoreConfig T env w).calls = w.calls ∧
      (restoreConfig T env w).events = w.events ++
        [Event.warn [JsVal.str "Could not restore NodeBB tmp configs, because ",
          JsVal.str (backupConfigFilepath env), JsVal.str " does not exist"]]) := by
  constructor
  · intro file err hfile herr
    unfold restoreConfig
    simp [hfile, herr, World.warn, World.call]
  · intro hfile
    unfold restoreConfig
    simp [hfile, World.warn]

/-- C7 at a concrete input: the store refuses the write of the resumed sample
run, and the snapshot file is still there afterwards. -/
theorem restoreConfig_degrades_witness :
    sampleWorldResumed.snapshot
        = some [("title", JsVal.str "Forum"), ("postDelay", JsVal.str "10")] ∧
      failingStoreTarget.dbSetObject sampleWorldResumed.calls "config"
        [("title", JsVal.str "Forum"), ("postDelay", JsVal.str "10")]
          = some "store unreachable" ∧
      (restoreConfig failingStoreTarget sampleEnv sampleWorldResumed).snapshot
        = some [("title", JsVal.str "Forum"), ("postDelay", JsVal.str "10")] ∧
      (restoreConfig failingStoreTarget sampleEnv sampleWorldResumed).halted = none :=
  ⟨rfl, rfl,
    ((restoreConfig_degrades failingStoreTarget sampleEnv sampleWorldResumed).1
      [("title", JsVal.str "Forum"), ("postDelay", JsVal.str "10")] "store unreachable"
      rfl rfl).1,
    ((restoreConfig_degrades failingStoreTarget sampleEnv sampleWorldResumed).1
      [("title", JsVal.str "Forum"), ("postDelay", JsVal.str "10")] "store unreachable"
      rfl rfl).2.2.1⟩

/-! ## Admin takeover: lemmas -/

theorem Obj.get_nodeExtend_pair (a b : Obj) (k : String) :
    Obj.get (Obj.nodeExtend [a, b]) k
      = if Obj.get b k = JsVal.undefined then Obj.get a k else Obj.get b k := by
  unfold Obj.nodeExtend
  simp only [List.foldl_cons, List.foldl_nil]
  rw [Obj.get_extend, Obj.get_extend]
  by_cases hb : Obj.get b k = JsVal.undefined
  · by_cases ha : Obj.get a k = JsVal.undefined
    · simp [hb, ha, Obj.get]
    · simp [hb, ha]
  · simp [hb]

theorem userFields_get_imported (env : Env) (w : World) (_uid : String) (user : Obj) :
    Obj.get (userFields env w _uid user) "imported" = JsVal.undefined := by
  unfold userFields
  simp only []
  split <;> simp [Obj.get, Obj.set]

theorem userPassword_snd (T : Target) (user : Obj) (w : World) :
    ∃ d, (userPassword T user w).2 = { w with draws := d } := by
  unfold userPassword passwordGen
  split
  · exact ⟨w.draws, rfl⟩
  · split
    · exact ⟨_, rfl⟩
    · exact ⟨w.draws, rfl⟩

/-- What `onLevel` does to the record, the trace and the run. -/
theorem importUsersOnLevel_effect (T : Target) (env : Env) (_uid : String) (u : NbbUsername)
    (uid : JsVal) (user : Obj) (w : World) :
    (importUsersOnLevel T env _uid u uid user w).config = w.config ∧
      (importUsersOnLevel T env _uid u uid user w).oldOwnerNotFound = w.oldOwnerNotFound ∧
      (Call.userSetUserFields uid (userFields env w _uid user)
        ∈ callsSince w.calls.length (importUsersOnLevel T env _uid u uid user w)) ∧
      (∀ d, Call.userCreate d
        ∉ callsSince w.calls.length (importUsersOnLevel T env _uid u uid user w)) ∧
      (T.userSetUserFields w.calls uid (userFields env w _uid user) ≠ none →
        (importUsersOnLevel T env _uid u uid user w).data = w.data) ∧
      (T.userSetUserFields w.calls uid (userFields env w _uid user) = none →
        uid ≠ JsVal.undefined →
        ∃ rec, (importUsersOnLevel T env _uid u uid user w).data.users.get _uid = some rec ∧
          Obj.get rec "uid" = uid ∧ Obj.get rec "imported" = Obj.get user "imported") := by
  unfold importUsersOnLevel
  simp only []
  cases hset : T.userSetUserFields w.calls uid (userFields env w _uid user) with
  | some e =>
    refine ⟨rfl, rfl, by simp [callsSince, World.halt, World.call],
      by simp [callsSince, World.halt, World.call], fun _ => rfl, ?_⟩
    intro h; simp at h
  | none =>
    simp only []
    have hrec : ∀ (x : World),
        x.data.users = w.data.users.put _uid
          (((Obj.nodeExtend [user, (userFields env w _uid user).set "uid" uid]).set "keptPicture"
            (JsVal.bool (user.get "_picture").truthy)).set "userslug"
              (match u.userslug with
                | some s => JsVal.str s
                | none => JsVal.null)) →
        uid ≠ JsVal.undefined →
        ∃ rec, x.data.users.get _uid = some rec ∧
          Obj.get rec "uid" = uid ∧ Obj.get rec "imported" = Obj.get user "imported" := by
      intro x hx huid
      refine ⟨_, by rw [hx, Table.get_put_self], ?_, ?_⟩
      · rw [Obj.get_set_ne _ _ _ _ (by decide), Obj.get_set_ne _ _ _ _ (by decide),
          Obj.get_nodeExtend_pair, Obj.get_set_self]
        simp [huid]
      · rw [Obj.get_set_ne _ _ _ _ (by decide), Obj.get_set_ne _ _ _ _ (by decide),
          Obj.get_nodeExtend_pair, Obj.get_set_ne _ _ _ _ (by decide),
          userFields_get_imported]
        simp
    split
    · split
      · refine ⟨by simp [World.halt, World.call], by simp [World.halt, World.call],
          by simp [callsSince, World.halt, World.call],
          by simp [callsSince, World.halt, World.call],
          fun h => absurd rfl h, fun _ huid => hrec _ ?_ huid⟩
        simp [World.halt, World.call]
      · refine ⟨by simp [World.call], by simp [World.call],
          by simp [callsSince, World.call], by simp [callsSince, World.call],
          fun h => absurd rfl h, fun _ huid => hrec _ ?_ huid⟩
        simp [World.call]
    · refine ⟨by simp [World.call], by simp [World.call],
        by simp [callsSince, World.call], by simp [callsSince, World.call],
        fun h => absurd rfl h, fun _ huid => hrec _ ?_ huid⟩
      simp [World.call]

/-- The takeover branch: with the flag still set, a resolved username and a
source username that matches the legacy admin name, the worker goes straight to
`onLevel` for account 1. -/
theorem importUsersWithData_takeover (T : Target) (env : Env) (_uid : String) (user : Obj)
    (u : NbbUsername) (password : JsVal) (w : World) (username adminName : String)
    (hres : u.username = some username)
    (hflag : w.oldOwnerNotFound = true)
    (hname : w.config.adminTakeOwnership.get "username" = JsVal.str adminName)
    (hmatch : env.toLowerCase (user.get "_username").strOrEmpty = env.toLowerCase adminName)
    (hnull : env.toLowerCase "null" = "null") :
    importUsersWithData T env _uid user u password w
      = importUsersOnLevel T env _uid u (JsVal.num 1) (revokedUser user)
          (revokedWorld _uid user w) := by
  unfold importUsersWithData
  simp only [hres, hflag, hname, hmatch, Bool.not_true, Bool.false_eq_true, ↓reduceIte]
  unfold importUsersOnCreate
  have hlevel : Obj.get ((Obj.set user "_level" JsVal.null).set "imported" (JsVal.bool true))
      "_level" = JsVal.null := by
    rw [Obj.get_set_ne _ _ _ _ (by decide), Obj.get_set_self]
  simp only [hlevel, JsVal.toStr, hnull]
  rw [if_neg (by decide), if_neg (by decide)]
  rfl

theorem revokedWorld_facts (_uid : String) (user : Obj) (w : World) :
    (revokedWorld _uid user w).config.adminTakeOwnership
        = [("enable", JsVal.bool true), ("username", user.get "_username"),
           ("_username", user.get "_username"), ("_uid", user.get "_uid")] ∧
      (revokedWorld _uid user w).oldOwnerNotFound = false ∧
      (revokedWorld _uid user w).calls = w.calls ∧
      (revokedWorld _uid user w).halted = w.halted ∧
      (revokedWorld _uid user w).data.users.get _uid = some (revokedUser user) ∧
      Obj.get (revokedUser user) "imported" = JsVal.bool true := by
  refine ⟨rfl, rfl, rfl, rfl, ?_, ?_⟩
  · simp only [revokedWorld, World.putUser]
    exact Table.get_put_self _ _ _
  · exact Obj.get_set_self _ _ _

/-- What the worker does in the takeover branch, from the test of
`userData.username` on. -/
theorem importUsersWithData_takeover_effect (T : Target) (env : Env) (_uid : String)
    (user : Obj) (u : NbbUsername) (password : JsVal) (w : World) (username adminName : String)
    (hres : u.username = some username)
    (hflag : w.oldOwnerNotFound = true)
    (hname : w.config.adminTakeOwnership.get "username" = JsVal.str adminName)
    (hmatch : env.toLowerCase (user.get "_username").strOrEmpty = env.toLowerCase adminName)
    (hnull : env.toLowerCase "null" = "null") :
    (importUsersWithData T env _uid user u password w).config.adminTakeOwnership
        = [("enable", JsVal.bool true), ("username", user.get "_username"),
           ("_username", user.get "_username"), ("_uid", user.get "_uid")] ∧
      (importUsersWithData T env _uid user u password w).oldOwnerNotFound = false ∧
      (∀ d, Call.userCreate d
        ∉ callsSince w.calls.length (importUsersWithData T env _uid user u password w)) ∧
      (∃ fields, Call.userSetUserFields (JsVal.num 1) fields
        ∈ callsSince w.calls.length (importUsersWithData T env _uid user u password w)) ∧
      ∃ rec, (importUsersWithData T env _uid user u password w).data.users.get _uid
          = some rec ∧
        Obj.get rec "imported" = JsVal.bool true ∧
        ((∀ h f, T.userSetUserFields h (JsVal.num 1) f = none) →
          Obj.get rec "uid" = JsVal.num 1) := by
  rw [importUsersWithData_takeover T env _uid user u password w username adminName hres hflag
    hname hmatch hnull]
  obtain ⟨f1, f2, f3, -, f5, f6⟩ := revokedWorld_facts _uid user w
  obtain ⟨e1, e2, e3, e4, e5, e6⟩ := importUsersOnLevel_effect T env _uid u (JsVal.num 1)
    (revokedUser user) (revokedWorld _uid user w)
  rw [f3] at e3 e4
  refine ⟨by rw [e1]; exact f1, e2.trans f2, e4, ⟨_, e3⟩, ?_⟩
  cases hset : T.userSetUserFields (revokedWorld _uid user w).calls (JsVal.num 1)
      (userFields env (revokedWorld _uid user w) _uid (revokedUser user)) with
  | some e =>
    refine ⟨revokedUser user, ?_, f6, fun hall => ?_⟩
    · rw [e5 (by rw [hset]; simp)]; exact f5
    · rw [hall] at hset; simp at hset
  | none =>
    obtain ⟨rec, r1, r2, r3⟩ := e6 hset (by simp)
    exact ⟨rec, r1, r3.trans f6, fun _ => r2⟩

/-- What the worker does in the takeover branch. -/
theorem importUsersOnEach_takeover (T : Target) (env : Env) (_uid : String) (w : World)
    (user : Obj) (username adminName : String)
    (hget : w.data.users.get _uid = some user)
    (hres : (makeValidNbbUsername env (user.get "_username").strOrEmpty
      (user.get "_alternativeUsername").strOrEmpty).username = some username)
    (hflag : w.oldOwnerNotFound = true)
    (hname : w.config.adminTakeOwnership.get "username" = JsVal.str adminName)
    (hmatch : env.toLowerCase (user.get "_username").strOrEmpty = env.toLowerCase adminName)
    (hnull : env.toLowerCase "null" = "null") :
    (importUsersOnEach T env _uid w).config.adminTakeOwnership
        = [("enable", JsVal.bool true), ("username", user.get "_username"),
           ("_username", user.get "_username"), ("_uid", user.get "_uid")] ∧
      (importUsersOnEach T env _uid w).oldOwnerNotFound = false ∧
      (∀ d, Call.userCreate d ∉ callsSince w.calls.length (importUsersOnEach T env _uid w)) ∧
      (∃ fields, Call.userSetUserFields (JsVal.num 1) fields
        ∈ callsSince w.calls.length (importUsersOnEach T env _uid w)) ∧
      ∃ rec, (importUsersOnEach T env _uid w).data.users.get _uid = some rec ∧
        Obj.get rec "imported" = JsVal.bool true ∧
        ((∀ h f, T.userSetUserFields h (JsVal.num 1) f = none) →
          Obj.get rec "uid" = JsVal.num 1) := by
  unfold importUsersOnEach
  simp only [hget]
  obtain ⟨d, hd⟩ := userPassword_snd T user { w with count := w.count + 1 }
  have hcalls : (userPassword T user { w with count := w.count + 1 }).2.calls = w.calls := by
    rw [hd]
  have := importUsersWithData_takeover_effect T env _uid user
    (makeValidNbbUsername env (user.get "_username").strOrEmpty
      (user.get "_alternativeUsername").strOrEmpty)
    (userPassword T user { w with count := w.count + 1 }).1
    (userPassword T user { w with count := w.count + 1 }).2 username adminName hres
    (by rw [hd]; exact hflag) (by rw [hd]; exact hname) hmatch hnull
  rw [hcalls] at this
  exact this

/-! ## The cached takeover id stays -/

theorem importUsersOnCreate_config (T : Target) (env : Env) (_uid : String)
    (u : NbbUsername) (username : String) (answer : Except String JsVal) (user : Obj)
    (w : World) :
    (importUsersOnCreate T env _uid u username answer user w).config = w.config ∧
      (importUsersOnCreate T env _uid u username answer user w).oldOwnerNotFound
        = w.oldOwnerNotFound := by
  unfold importUsersOnCreate
  cases answer with
  | error err => exact ⟨rfl, rfl⟩
  | ok uid =>
    simp only []
    split
    · split
      · obtain ⟨e1, e2, -⟩ := importUsersOnLevel_effect T env _uid u uid
          (user.set "imported" (JsVal.bool true))
          (makeModeratorOnAllCategories T uid
            (World.warn [JsVal.str username,
              JsVal.str " just became a moderator on all categories"]
              { w.putUser _uid (user.set "imported" (JsVal.bool true)) with
                imported := w.imported + 1 })).1
        obtain ⟨-, m2, m3, -⟩ := makeModeratorOnAllCategories_frame T uid
          (World.warn [JsVal.str username,
            JsVal.str " just became a moderator on all categories"]
            { w.putUser _uid (user.set "imported" (JsVal.bool true)) with
              imported := w.imported + 1 })
        exact ⟨by rw [e1, m2]; rfl, by rw [e2, m3]; rfl⟩
      · obtain ⟨-, m2, m3, -⟩ := makeModeratorOnAllCategories_frame T uid
          (World.warn [JsVal.str username,
            JsVal.str " just became a moderator on all categories"]
            { w.putUser _uid (user.set "imported" (JsVal.bool true)) with
              imported := w.imported + 1 })
        exact ⟨by simp only [World.halt]; rw [m2]; rfl,
          by simp only [World.halt]; rw [m3]; rfl⟩
    · split
      · obtain ⟨e1, e2, -⟩ := importUsersOnLevel_effect T env _uid u uid
          (user.set "imported" (JsVal.bool true))
          (World.warn [JsVal.str username, JsVal.str " became an Administrator"]
            (World.call (Call.groupJoin "administrators" uid)
              { w.putUser _uid (user.set "imported" (JsVal.bool true)) with
                imported := w.imported + 1 }))
        exact ⟨by rw [e1]; rfl, by rw [e2]; rfl⟩
      · obtain ⟨e1, e2, -⟩ := importUsersOnLevel_effect T env _uid u uid
          (user.set "imported" (JsVal.bool true))
          { w.putUser _uid (user.set "imported" (JsVal.bool true)) with
            imported := w.imported + 1 }
        exact ⟨by rw [e1]; rfl, by rw [e2]; rfl⟩

theorem importUsersWithData_config_of_found (T : Target) (env : Env) (_uid : String)
    (user : Obj) (u : NbbUsername) (password : JsVal) (w : World)
    (hflag : w.oldOwnerNotFound = false) :
    (importUsersWithData T env _uid user u password w).config = w.config ∧
      (importUsersWithData T env _uid user u password w).oldOwnerNotFound = false := by
  unfold importUsersWithData
  split
  · exact ⟨rfl, hflag⟩
  · simp only [hflag, Bool.not_false, ↓reduceIte]
    exact ⟨(importUsersOnCreate_config _ _ _ _ _ _ _ _).1,
      (importUsersOnCreate_config _ _ _ _ _ _ _ _).2.trans hflag⟩

theorem importUsersOnEach_config_of_found (T : Target) (env : Env) (_uid : String) (w : World)
    (hflag : w.oldOwnerNotFound = false) :
    (importUsersOnEach T env _uid w).config = w.config ∧
      (importUsersOnEach T env _uid w).oldOwnerNotFound = false := by
  unfold importUsersOnEach
  simp only []
  split
  · exact ⟨rfl, hflag⟩
  · rename_i user _
    obtain ⟨d, hd⟩ := userPassword_snd T user { w with count := w.count + 1 }
    have h := importUsersWithData_config_of_found T env _uid user
      (makeValidNbbUsername env (user.get "_username").strOrEmpty
        (user.get "_alternativeUsername").strOrEmpty)
      (userPassword T user { w with count := w.count + 1 }).1
      (userPassword T user { w with count := w.count + 1 }).2 (by rw [hd]; exact hflag)
    have hc : (userPassword T user { w with count := w.count + 1 }).2.config = w.config := by
      rw [hd]
    exact ⟨h.1.trans hc, h.2⟩

theorem eachLimit_importUsersOnEach_config_of_found (T : Target) (env : Env)
    (ids : List String) (w : World) (hflag : w.oldOwnerNotFound = false) :
    (eachLimit ids (importUsersOnEach T env) w).config = w.config :=
  (eachLimit_induct (fun x => x.config = w.config ∧ x.oldOwnerNotFound = false) ids _
    (fun id _ x hx _ =>
      ⟨(importUsersOnEach_config_of_found T env id x hx.2).1.trans hx.1,
        (importUsersOnEach_config_of_found T env id x hx.2).2⟩) w ⟨rfl, hflag⟩).1

theorem importTopicsOnPost_config (T : Target) (env : Env) (_tid : String)
    (topic category : Obj) (returnTopic : Obj × Obj) (w : World) :
    (importTopicsOnPost T env _tid topic category returnTopic w).config = w.config := by
  unfold importTopicsOnPost
  simp only []
  split
  · rfl
  · split
    · rfl
    · simp [World.call]

theorem importTopicsOnEach_config (T : Target) (env : Env) (_tid : String) (w : World) :
    (importTopicsOnEach T env _tid w).config = w.config := by
  unfold importTopicsOnEach
  simp only []
  split
  · rfl
  · split
    · rfl
    · split
      · rfl
      · split
        · rfl
        · rw [importTopicsOnPost_config]; rfl

theorem eachLimit_importTopicsOnEach_config (T : Target) (env : Env) (ids : List String)
    (w : World) : (eachLimit ids (importTopicsOnEach T env) w).config = w.config :=
  eachLimit_induct (fun x => x.config = w.config) ids _
    (fun id _ x hx _ => (importTopicsOnEach_config T env id x).trans hx) w rfl

/-! ## Admin takeover: theorems -/

theorem topicsPostData_uid_takeover (config : Config) (topic category user : Obj)
    (henable : (config.adminTakeOwnership.get "enable").truthy = true)
    (heq : config.adminTakeOwnership.get "_uid" = topic.get "_uid") :
    Obj.get (topicsPostData config topic category user) "uid" = JsVal.num 1 := by
  simp [topicsPostData, Obj.get, henable, JsVal.strictEq, heq]

/-- A record whose username does not resolve is skipped: one warning, nothing else. -/
theorem importUsersOnEach_invalid (T : Target) (env : Env) (_uid : String) (w : World)
    (user : Obj) (hget : w.data.users.get _uid = some user)
    (hres : (makeValidNbbUsername env (user.get "_username").strOrEmpty
      (user.get "_alternativeUsername").strOrEmpty).username = none) :
    (importUsersOnEach T env _uid w).data = w.data ∧
      (importUsersOnEach T env _uid w).config = w.config ∧
      (importUsersOnEach T env _uid w).oldOwnerNotFound = w.oldOwnerNotFound ∧
      (importUsersOnEach T env _uid w).calls = w.calls ∧
      (importUsersOnEach T env _uid w).halted = w.halted ∧
      (importUsersOnEach T env _uid w).events = w.events ++
        [Event.warn [JsVal.str "[count:", JsVal.num (w.count + 1),
          JsVal.str "] skipping user: \"", user.get "_username",
          JsVal.str "\" username is invalid."]] := by
  unfold importUsersOnEach
  simp only [hget]
  obtain ⟨d, hd⟩ := userPassword_snd T user { w with count := w.count + 1 }
  unfold importUsersWithData
  simp [hres, hd, World.warn]

/-- C8, the claim as stated fails: takeover is enabled for the legacy name `***`
and the record `u1` has that name, but the name does not pass username
resolution (its cleaned form is empty), so the user pipeline skips the record
before the takeover test: the record is not marked imported, no takeover id is
cached, and the later topic `t2`, whose author is `u1`, is submitted without an
author id instead of with 1. -/
theorem takeover_misses_unresolvable_admin :
    (Obj.get sampleWorldStarAdmin.config.adminTakeOwnership "enable").truthy = true ∧
      Obj.get sampleWorldStarAdmin.config.adminTakeOwnership "username" = JsVal.str "***" ∧
      sampleWorldStarAdmin.data.users.get "u1"
        = some [("_username", JsVal.str "***"), ("_uid", JsVal.str "u1")] ∧
      cleanUsername "***" = "" ∧
      (importUsers sampleTarget sampleEnv sampleWorldStarAdmin).halted = none ∧
      (importUsers sampleTarget sampleEnv sampleWorldStarAdmin).data.users.get "u1"
        = some [("_username", JsVal.str "***"), ("_uid", JsVal.str "u1")] ∧
      Obj.get (importUsers sampleTarget sampleEnv sampleWorldStarAdmin).config.adminTakeOwnership
        "_uid" = JsVal.undefined ∧
      (importTopicsOnEach sampleTarget sampleEnv "t2"
        (importTopicsStart sampleTarget
          (importUsers sampleTarget sampleEnv sampleWorldStarAdmin))).calls.head?
        = some (Call.topicsPost [("uid", JsVal.undefined), ("title", JsVal.str ""),
            ("content", JsVal.str ""), ("cid", JsVal.num 7), ("thumb", JsVal.undefined)]) := by
  refine ⟨by decide, by decide, by decide, by decide, ?_, ?_, ?_, ?_⟩ <;>
    with_unfolding_all decide

/-- C8 as amended: with admin takeover enabled and not yet used, when a user
record is processed whose source username equals the legacy admin name
case-insensitively and passes username resolution, no `User.create` call is
made for it, the record is marked imported and, when the profile write for
account 1 succeeds, carries `uid` 1, and the record's `_uid` is cached in the
run configuration; the rest of the user batch and the topic batch keep that
configuration, and under it a topic whose `_uid` is the cached one and whose
category is imported is submitted to `Topics.post` with `uid` 1. -/
theorem takeover_record_and_later_topic (T : Target) (env : Env) (_uid : String) (w : World)
    (user : Obj) (username adminName : String)
    (hget : w.data.users.get _uid = some user)
    (hres : (makeValidNbbUsername env (user.get "_username").strOrEmpty
      (user.get "_alternativeUsername").strOrEmpty).username = some username)
    (hflag : w.oldOwnerNotFound = true)
    (hname : w.config.adminTakeOwnership.get "username" = JsVal.str adminName)
    (hmatch : env.toLowerCase (user.get "_username").strOrEmpty = env.toLowerCase adminName)
    (hnull : env.toLowerCase "null" = "null") :
    (∀ d, Call.userCreate d ∉ callsSince w.calls.length (importUsersOnEach T env _uid w)) ∧
      (∃ rec, (importUsersOnEach T env _uid w).data.users.get _uid = some rec ∧
        Obj.get rec "imported" = JsVal.bool true ∧
        ((∀ h f, T.userSetUserFields h (JsVal.num 1) f = none) →
          Obj.get rec "uid" = JsVal.num 1)) ∧
      (Obj.get (importUsersOnEach T env _uid w).config.adminTakeOwnership "enable").truthy
        = true ∧
      Obj.get (importUsersOnEach T env _uid w).config.adminTakeOwnership "_uid"
        = Obj.get user "_uid" ∧
      (∀ rest, (eachLimit rest (importUsersOnEach T env) (importUsersOnEach T env _uid w)).config
        = (importUsersOnEach T env _uid w).config) ∧
      (∀ pre x, (eachLimit pre (importTopicsOnEach T env) x).config = x.config) ∧
      ∀ (w2 : World) (_tid : String) (topic category : Obj),
        w2.config = (importUsersOnEach T env _uid w).config →
        w2.data.topics.get _tid = some topic →
        Obj.get topic "_uid" = Obj.get user "_uid" →
        w2.data.categories.get (Obj.get topic "_cid").toStr = some category →
        (Obj.get category "imported").truthy = true →
        Obj.get (topicsPostData w2.config topic category
          ((w2.data.users.get (Obj.get topic "_uid").toStr).getD [])) "uid" = JsVal.num 1 ∧
        ∃ rest, (importTopicsOnEach T env _tid w2).calls
          = w2.calls ++ Call.topicsPost (topicsPostData w2.config topic category
              ((w2.data.users.get (Obj.get topic "_uid").toStr).getD [])) :: rest := by
  obtain ⟨t1, t2, t3, -, t5⟩ := importUsersOnEach_takeover T env _uid w user username adminName
    hget hres hflag hname hmatch hnull
  have henable : (Obj.get (importUsersOnEach T env _uid w).config.adminTakeOwnership
      "enable").truthy = true := by
    rw [t1]; rfl
  have hcached : Obj.get (importUsersOnEach T env _uid w).config.adminTakeOwnership "_uid"
      = Obj.get user "_uid" := by
    rw [t1]; simp [Obj.get]
  refine ⟨t3, t5, henable, hcached,
    fun rest => eachLimit_importUsersOnEach_config_of_found T env rest _ t2,
    fun pre x => eachLimit_importTopicsOnEach_config T env pre x, ?_⟩
  intro w2 _tid topic category hcfg htopic hauthor hcat himp
  refine ⟨topicsPostData_uid_takeover _ _ _ _ (by rw [hcfg]; exact henable)
    (by rw [hcfg, hcached, hauthor]), ?_⟩
  exact importTopicsOnEach_post T env w2 _tid topic category htopic hcat himp

/-- C8 as amended, at a concrete input: in the sample run the record `u1`, named
`Root`, matches the legacy name `root`; it is marked imported with `uid` 1 and
its `_uid` is cached. -/
theorem takeover_record_and_later_topic_witness :
    sampleWorldTakeover.data.users.get "u1"
        = some [("_username", JsVal.str "Root"), ("_uid", JsVal.str "u1")] ∧
      sampleWorldTakeover.oldOwnerNotFound = true ∧
      sampleEnv.toLowerCase "Root" = sampleEnv.toLowerCase "root" ∧
      (∃ rec, (importUsersOnEach sampleTarget sampleEnv "u1" sampleWorldTakeover).data.users.get
          "u1" = some rec ∧
        Obj.get rec "imported" = JsVal.bool true ∧
        ((∀ h f, sampleTarget.userSetUserFields h (JsVal.num 1) f = none) →
          Obj.get rec "uid" = JsVal.num 1)) ∧
      Obj.get (importUsersOnEach sampleTarget sampleEnv "u1"
        sampleWorldTakeover).config.adminTakeOwnership "_uid" = JsVal.str "u1" :=
  have h := takeover_record_and_later_topic sampleTarget sampleEnv "u1" sampleWorldTakeover
    [("_username", JsVal.str "Root"), ("_uid", JsVal.str "u1")] "Root" "root"
    (by decide) (by decide) rfl (by decide) (by decide) (by decide)
  ⟨by decide, rfl, by decide, h.2.1, h.2.2.2.1⟩

/-- C9, the claim as stated fails: takeover is enabled, no earlier record has
matched, and the record `u9` is named `##` like the configured legacy admin, but
the name does not pass username resolution; the worker skips the record with a
warning before it reaches the takeover test, so the record is not marked
imported and nothing is remapped onto account 1. -/
theorem takeover_not_checked_before_resolution :
    (Obj.get sampleWorldSymbolAdmin.config.adminTakeOwnership "enable").truthy = true ∧
      sampleWorldSymbolAdmin.oldOwnerNotFound = true ∧
      sampleWorldSymbolAdmin.data.users.get "u9"
        = some [("_username", JsVal.str "##"), ("_uid", JsVal.str "u9")] ∧
      Obj.get sampleWorldSymbolAdmin.config.adminTakeOwnership "username" = JsVal.str "##" ∧
      cleanUsername "##" = "" ∧
      (importUsersOnEach sampleTarget sampleEnv "u9" sampleWorldSymbolAdmin).data
        = sampleWorldSymbolAdmin.data ∧
      (importUsersOnEach sampleTarget sampleEnv "u9" sampleWorldSymbolAdmin).config
        = sampleWorldSymbolAdmin.config ∧
      (importUsersOnEach sampleTarget sampleEnv "u9" sampleWorldSymbolAdmin).calls = [] ∧
      (importUsersOnEach sampleTarget sampleEnv "u9" sampleWorldSymbolAdmin).oldOwnerNotFound
        = true := by
  refine ⟨by decide, by decide, by decide, by decide, by decide, ?_, ?_, ?_, ?_⟩ <;> decide

/-- C9 as amended: for every user record whose source username equals the
configured legacy admin name case-insensitively, processed while takeover is
enabled and no earlier record has matched: if username resolution yields a
username, the record is remapped onto account 1 (its profile write is addressed
to account 1 and its `_uid` is cached), marked imported, the flag is cleared and
no `User.create` call is made; if username resolution yields none, the record is
skipped with a warning and the takeover is not applied. -/
theorem takeover_decided_after_resolution (T : Target) (env : Env) (_uid : String) (w : World)
    (user : Obj) (adminName : String)
    (hget : w.data.users.get _uid = some user)
    (hflag : w.oldOwnerNotFound = true)
    (hname : w.config.adminTakeOwnership.get "username" = JsVal.str adminName)
    (hmatch : env.toLowerCase (user.get "_username").strOrEmpty = env.toLowerCase adminName)
    (hnull : env.toLowerCase "null" = "null") :
    (∀ username, (makeValidNbbUsername env (user.get "_username").strOrEmpty
        (user.get "_alternativeUsername").strOrEmpty).username = some username →
      (∀ d, Call.userCreate d ∉ callsSince w.calls.length (importUsersOnEach T env _uid w)) ∧
      (∃ fields, Call.userSetUserFields (JsVal.num 1) fields
        ∈ callsSince w.calls.length (importUsersOnEach T env _uid w)) ∧
      (∃ rec, (importUsersOnEach T env _uid w).data.users.get _uid = some rec ∧
        Obj.get rec "imported" = JsVal.bool true) ∧
      Obj.get (importUsersOnEach T env _uid w).config.adminTakeOwnership "_uid"
        = Obj.get user "_uid" ∧
      (importUsersOnEach T env _uid w).oldOwnerNotFound = false) ∧
    ((makeValidNbbUsername env (user.get "_username").strOrEmpty
        (user.get "_alternativeUsername").strOrEmpty).username = none →
      (importUsersOnEach T env _uid w).data = w.data ∧
      (importUsersOnEach T env _uid w).config = w.config ∧
      (importUsersOnEach T env _uid w).oldOwnerNotFound = true ∧
      (importUsersOnEach T env _uid w).calls = w.calls ∧
      (importUsersOnEach T env _uid w).events = w.events ++
        [Event.warn [JsVal.str "[count:", JsVal.num (w.count + 1),
          JsVal.str "] skipping user: \"", user.get "_username",
          JsVal.str "\" username is invalid."]]) := by
  constructor
  · intro username hres
    obtain ⟨t1, t2, t3, t4, rec, r1, r2, -⟩ := importUsersOnEach_takeover T env _uid w user
      username adminName hget hres hflag hname hmatch hnull
    exact ⟨t3, t4, ⟨rec, r1, r2⟩, by rw [t1]; simp [Obj.get], t2⟩
  · intro hres
    obtain ⟨i1, i2, i3, i4, -, i6⟩ := importUsersOnEach_invalid T env _uid w user hget hres
    exact ⟨i1, i2, i3.trans hflag, i4, i6⟩

/-- C9 as amended, at a concrete input: the record `u1` of the sample run, named
`Root`, resolves and is taken over without a `User.create` call. -/
theorem takeover_decided_after_resolution_witness :
    sampleWorldTakeover.data.users.get "u1"
        = some [("_username", JsVal.str "Root"), ("_uid", JsVal.str "u1")] ∧
      sampleWorldTakeover.oldOwnerNotFound = true ∧
      (∀ d, Call.userCreate d ∉ callsSince sampleWorldTakeover.calls.length
        (importUsersOnEach sampleTarget sampleEnv "u1" sampleWorldTakeover)) ∧
      (importUsersOnEach sampleTarget sampleEnv "u1" sampleWorldTakeover).oldOwnerNotFound
        = false :=
  have h := (takeover_decided_after_resolution sampleTarget sampleEnv "u1" sampleWorldTakeover
    [("_username", JsVal.str "Root"), ("_uid", JsVal.str "u1")] "root"
    (by decide) rfl (by decide) (by decide) (by decide)).1 "Root" (by decide)
  ⟨by decide, rfl, h.1, h.2.2.2.2⟩

/-- C10, the code at the failing input: takeover is enabled but no takeover id
has been recorded, topic `t3` and post `p3` have no `_uid`, and no user record
is found for them; both are submitted with author id 1. -/
theorem authorless_records_attributed_to_admin :
    (Obj.get sampleWorldImported.config.adminTakeOwnership "enable").truthy = true ∧
      Obj.has sampleWorldImported.config.adminTakeOwnership "_uid" = false ∧
      sampleWorldImported.data.topics.get "t3"
        = some [("_cid", JsVal.str "c2"), ("_title", JsVal.str "From a guest")] ∧
      sampleWorldImported.data.posts.get "p3"
        = some [("_tid", JsVal.str "t2"), ("_content", JsVal.str "A guest reply")] ∧
      sampleWorldImported.data.users.get JsVal.undefined.toStr = none ∧
      (importTopicsOnEach sampleTarget sampleEnv "t3" sampleWorldImported).calls.head?
        = some (Call.topicsPost [("uid", JsVal.num 1), ("title", JsVal.str "From a guest"),
            ("content", JsVal.str ""), ("cid", JsVal.num 7), ("thumb", JsVal.undefined)]) ∧
      (importPostsOnEach sampleTarget sampleEnv "p3" sampleWorldImported).calls.head?
        = some (Call.postsCreate [("uid", JsVal.num 1), ("tid", JsVal.num 9),
            ("content", JsVal.str "A guest reply"), ("timestamp", JsVal.num 0),
            ("toPid", JsVal.undefined)]) := by
  refine ⟨by decide, by decide, by decide, by decide, by decide, ?_, ?_⟩ <;>
    with_unfolding_all decide

/-! ## Username cleaning and password generation: theorems -/

/-- Claim C19, counterexample: the tab is a whitespace character outside the safe
identifier class, and `cleanUsername` keeps it. -/
theorem cleanUsername_keeps_tab :
    cleanUsername "a\tb" = "a\tb" ∧ isJsSpace '\t' = true ∧ inSafeClass '\t' = false := by
  decide

theorem keptByFirstReplace_class (c : Char) (h : keptByFirstReplace c = true) (hs : c ≠ '*') :
    inSafeClass c = true ∨ isJsSpace c = true ∨ c.toNat = 0xB5 := by
  simp only [keptByFirstReplace, inBracket, Bool.or_eq_true, beq_iff_eq] at h
  simp only [inSafeClass, Bool.or_eq_true, beq_iff_eq]
  tauto

/-- Claim C19, amended: the result of `cleanUsername` has no space U+0020, no
`*`, no `æ`, `ø` or `å`; each of its characters lies in the safe identifier
class, is a whitespace character other than the space, or is the micro sign;
and the result is the input with characters left out. -/
theorem cleanUsername_output_class (s : String) :
    (∀ c ∈ (cleanUsername s).data,
        c ≠ ' ' ∧ c ≠ '*' ∧ c ≠ 'æ' ∧ c ≠ 'ø' ∧ c ≠ 'å' ∧
        (inSafeClass c = true ∨ (isJsSpace c = true ∧ c ≠ ' ') ∨ c.toNat = 0xB5)) ∧
      (cleanUsername s).data.Sublist s.data := by
  constructor
  · intro c hc
    simp only [cleanUsername, List.mem_filter, bne_iff_ne, ne_eq] at hc
    obtain ⟨⟨⟨⟨⟨⟨-, hk⟩, h1⟩, h2⟩, h3⟩, h4⟩, h5⟩ := hc
    refine ⟨h1, h2, h3, h4, h5, ?_⟩
    rcases keptByFirstReplace_class c hk h2 with h | h | h
    · exact Or.inl h
    · exact Or.inr (Or.inl ⟨h, h1⟩)
    · exact Or.inr (Or.inr h)
  · simp only [cleanUsername]
    exact (List.filter_sublist _).trans ((List.filter_sublist _).trans
      ((List.filter_sublist _).trans ((List.filter_sublist _).trans
        ((List.filter_sublist _).trans (List.filter_sublist _)))))

theorem genRandPwdIndex_abc (r : ℚ) (h0 : 0 ≤ r) (h1 : r < 1) :
    genRandPwdIndex "abc" r = if r < 1 / 4 then 0 else if r < 3 / 4 then 1 else 2 := by
  have hl : (("abc".length : ℕ) : ℚ) - 1 = 2 := by norm_num [String.length]
  unfold genRandPwdIndex toFixed0
  rw [hl, if_neg (by linarith)]
  split_ifs with ha hb
  · rw [Int.floor_eq_iff]; constructor <;> push_cast <;> linarith
  · rw [Int.floor_eq_iff]; constructor <;> push_cast <;> linarith
  · rw [Int.floor_eq_iff]; constructor <;> push_cast <;> linarith

theorem genRandPwd_abc (r : ℚ) (h0 : 0 ≤ r) (h1 : r < 1) :
    (genRandPwd (fun _ => r) "abc" 1 0).1
      = if r < 1 / 4 then "a" else if r < 3 / 4 then "b" else "c" := by
  have e : (genRandPwd (fun _ => r) "abc" 1 0).1
      = charAt "abc" (genRandPwdIndex "abc" r) ++ "" := rfl
  rw [e, genRandPwdIndex_abc r h0 h1]
  split_ifs <;> decide

/-- Claim C20: with the character set `abc` and a draw `r` of `Math.random()`, a
password of length one is `a` exactly for `r` below `1/4`, `b` exactly for `r`
from `1/4` up to `3/4`, and `c` exactly for `r` from `3/4` on: the three
characters are chosen on intervals of length `1/4`, `1/2` and `1/4`. -/
theorem genRandPwd_positions_not_uniform (r : ℚ) :
    ((0 ≤ r ∧ r < 1 ∧ (genRandPwd (fun _ => r) "abc" 1 0).1 = "a") ↔ (0 ≤ r ∧ r < 1 / 4)) ∧
    ((0 ≤ r ∧ r < 1 ∧ (genRandPwd (fun _ => r) "abc" 1 0).1 = "b")
      ↔ (1 / 4 ≤ r ∧ r < 3 / 4)) ∧
    ((0 ≤ r ∧ r < 1 ∧ (genRandPwd (fun _ => r) "abc" 1 0).1 = "c") ↔ (3 / 4 ≤ r ∧ r < 1)) := by
  have ab : ("a" : String) ≠ "b" := by decide
  have ac : ("a" : String) ≠ "c" := by decide
  have bc : ("b" : String) ≠ "c" := by decide
  refine ⟨⟨?_, ?_⟩, ⟨?_, ?_⟩, ⟨?_, ?_⟩⟩
  · rintro ⟨h0, h1, h⟩
    rw [genRandPwd_abc r h0 h1] at h
    split_ifs at h with ha hb
    · exact ⟨h0, ha⟩
    · exact absurd h.symm ab
    · exact absurd h.symm ac
  · rintro ⟨h0, ha⟩
    have h1 : r < 1 := by linarith
    exact ⟨h0, h1, by rw [genRandPwd_abc r h0 h1, if_pos ha]⟩
  · rintro ⟨h0, h1, h⟩
    rw [genRandPwd_abc r h0 h1] at h
    split_ifs at h with ha hb
    · exact absurd h ab
    · exact ⟨not_lt.mp ha, hb⟩
    · exact absurd h.symm bc
  · rintro ⟨ha, hb⟩
    have h0 : 0 ≤ r := by linarith
    have h1 : r < 1 := by linarith
    exact ⟨h0, h1, by rw [genRandPwd_abc r h0 h1, if_neg (not_lt.mpr ha), if_pos hb]⟩
  · rintro ⟨h0, h1, h⟩
    rw [genRandPwd_abc r h0 h1] at h
    split_ifs at h with ha hb
    · exact absurd h ac
    · exact absurd h bc
    · exact ⟨not_lt.mp hb, h1⟩
  · rintro ⟨hb, h1⟩
    have h0 : 0 ≤ r := by linarith
    have ha : ¬ r < 1 / 4 := by linarith
    exact ⟨h0, h1, by rw [genRandPwd_abc r h0 h1, if_neg ha, if_neg (not_lt.mpr hb)]⟩

/-! ## Number arithmetic: lemmas -/

theorem twoPow_eq (e : Int) : twoPow e = (2 : ℚ) ^ e := by
  unfold twoPow
  split
  · rename_i h
    lift e to ℕ using h
    simp
  · rename_i h
    have h' : 0 ≤ -e := by omega
    obtain ⟨n, hn⟩ := Int.eq_ofNat_of_zero_le h'
    have he : e = -(n : Int) := by omega
    subst he
    simp

theorem twoPow_pos (e : Int) : 0 < twoPow e := by
  rw [twoPow_eq]; positivity

theorem twoPow_add (a b : Int) : twoPow (a + b) = twoPow a * twoPow b := by
  rw [twoPow_eq, twoPow_eq, twoPow_eq, zpow_add₀ (by norm_num)]

theorem twoPow_le (a b : Int) (h : a ≤ b) : twoPow a ≤ twoPow b := by
  rw [twoPow_eq, twoPow_eq]
  exact zpow_le_zpow_right₀ (by norm_num) h

theorem twoPow_natCast (n : Nat) : twoPow (n : Int) = ((2 ^ n : Nat) : ℚ) := by
  rw [twoPow_eq]; simp

theorem bitLengthBelow_spec (fuel n : Nat) (h : n < 2 ^ fuel) :
    n < 2 ^ bitLengthBelow fuel n ∧ (0 < n → 2 ^ bitLengthBelow fuel n ≤ 2 * n) := by
  induction fuel generalizing n with
  | zero =>
    have : n = 0 := by simpa using h
    subst this
    simp [bitLengthBelow]
  | succ fuel ih =>
    unfold bitLengthBelow
    by_cases hn : n = 0
    · subst hn; simp
    · rw [if_neg hn]
      have h2 : n / 2 < 2 ^ fuel := by
        rw [pow_succ] at h
        omega
      obtain ⟨h3, h4⟩ := ih (n / 2) h2
      rw [pow_succ]
      refine ⟨by omega, fun _ => ?_⟩
      by_cases h0 : n / 2 = 0
      · have hb : bitLengthBelow fuel (n / 2) = 0 := by
          rw [h0]; cases fuel <;> simp [bitLengthBelow]
        rw [hb]
        omega
      · have := h4 (Nat.pos_of_ne_zero h0)
        omega

theorem bitLength_spec (fuel n : Nat) (h : n ≤ fuel) :
    n < 2 ^ bitLength fuel n ∧ (0 < n → 2 ^ bitLength fuel n ≤ 2 * n) := by
  induction fuel generalizing n with
  | zero =>
    have : n = 0 := by omega
    subst this
    simp [bitLength]
  | succ fuel ih =>
    unfold bitLength
    by_cases hn : n < 65536
    · rw [if_pos hn]
      exact bitLengthBelow_spec 16 n (by norm_num; exact hn)
    · rw [if_neg hn]
      have h2 : n / 65536 ≤ fuel := by omega
      have h0 : 0 < n / 65536 := by omega
      obtain ⟨h3, h4⟩ := ih (n / 65536) h2
      have h5 := h4 h0
      rw [pow_add]
      norm_num
      refine ⟨by omega, fun _ => by omega⟩

theorem floorLog2_spec (x : ℚ) (hx : 0 < x) :
    twoPow (floorLog2 x) ≤ x ∧ x < twoPow (floorLog2 x + 1) := by
  have hnum : 0 < x.num := Rat.num_pos.mpr hx
  have hn0 : 0 < x.num.natAbs := Int.natAbs_pos.mpr hnum.ne'
  have hd0 : 0 < x.den := x.den_pos
  obtain ⟨n1, n2⟩ := bitLength_spec x.num.natAbs x.num.natAbs le_rfl
  obtain ⟨d1, d2⟩ := bitLength_spec x.den x.den le_rfl
  have n2 := n2 hn0
  have d2 := d2 hd0
  unfold floorLog2
  generalize bitLength x.num.natAbs x.num.natAbs = a at n1 n2
  generalize bitLength x.den x.den = b at d1 d2
  have hxe : x = (x.num.natAbs : ℚ) / (x.den : ℚ) := by
    have h0 : ((x.num.natAbs : ℕ) : Int) = x.num := Int.natAbs_of_nonneg hnum.le
    have h1 : ((x.num.natAbs : ℕ) : ℚ) = (x.num : ℚ) :=
      (Int.cast_natCast (R := ℚ) x.num.natAbs).symm.trans (congrArg Int.cast h0)
    rw [h1]
    exact (Rat.num_div_den x).symm
  have hdq : (0 : ℚ) < (x.den : ℚ) := by exact_mod_cast hd0
  have hK : twoPow ((a : Int) - (b : Int)) = (2 : ℚ) ^ a / (2 : ℚ) ^ b := by
    rw [twoPow_eq, zpow_sub₀ (by norm_num), zpow_natCast, zpow_natCast]
  have hb0 : (0 : ℚ) < (2 : ℚ) ^ b := by positivity
  have q1 : (x.num.natAbs : ℚ) < (2 : ℚ) ^ a := by exact_mod_cast n1
  have q2 : (2 : ℚ) ^ a ≤ 2 * (x.num.natAbs : ℚ) := by exact_mod_cast n2
  have q3 : (x.den : ℚ) < (2 : ℚ) ^ b := by exact_mod_cast d1
  have q4 : (2 : ℚ) ^ b ≤ 2 * (x.den : ℚ) := by exact_mod_cast d2
  have hnq : (0 : ℚ) < (x.num.natAbs : ℚ) := by exact_mod_cast hn0
  have upper : x < twoPow ((a : Int) - (b : Int) + 1) := by
    rw [twoPow_add, hK, hxe, twoPow_eq]
    rw [div_lt_iff₀ hdq]
    have : (2 : ℚ) ^ a / (2 : ℚ) ^ b * (2 : ℚ) ^ (1 : Int) * (x.den : ℚ)
        = (2 : ℚ) ^ a * (2 * (x.den : ℚ)) / (2 : ℚ) ^ b := by
      rw [zpow_one]; field_simp; ring
    rw [this, lt_div_iff₀ hb0]
    nlinarith
  have lower : twoPow ((a : Int) - (b : Int) - 1) ≤ x := by
    have e1 : ((a : Int) - (b : Int) - 1) = ((a : Int) - (b : Int)) + (-1) := by ring
    rw [e1, twoPow_add, hK, hxe, twoPow_eq]
    rw [le_div_iff₀ hdq]
    have : (2 : ℚ) ^ a / (2 : ℚ) ^ b * (2 : ℚ) ^ (-1 : Int) * (x.den : ℚ)
        = (2 : ℚ) ^ a * (x.den : ℚ) / (2 * (2 : ℚ) ^ b) := by
      rw [zpow_neg, zpow_one]; field_simp; ring
    rw [this, div_le_iff₀ (by positivity)]
    nlinarith
  split
  · rename_i h
    exact ⟨h, upper⟩
  · rename_i h
    refine ⟨lower, ?_⟩
    have e2 : ((a : Int) - (b : Int) - 1 + 1) = (a : Int) - (b : Int) := by ring
    rw [e2]
    exact not_le.mp h

theorem floorLog2_mono (x y : ℚ) (hx : 0 < x) (hxy : x ≤ y) : floorLog2 x ≤ floorLog2 y := by
  by_contra h
  have h' : floorLog2 y + 1 ≤ floorLog2 x := by omega
  have h1 := (floorLog2_spec x hx).1
  have h2 := (floorLog2_spec y (lt_of_lt_of_le hx hxy)).2
  have h3 := twoPow_le _ _ h'
  linarith

theorem roundHalfEven_floor_le (y : ℚ) : ⌊y⌋ ≤ roundHalfEven y := by
  unfold roundHalfEven
  split_ifs <;> omega

theorem roundHalfEven_le_floor_succ (y : ℚ) : roundHalfEven y ≤ ⌊y⌋ + 1 := by
  unfold roundHalfEven
  split_ifs <;> omega

theorem roundHalfEven_intCast (z : Int) : roundHalfEven (z : ℚ) = z := by
  unfold roundHalfEven
  simp

theorem roundHalfEven_mono (x y : ℚ) (h : x ≤ y) : roundHalfEven x ≤ roundHalfEven y := by
  have hf : ⌊x⌋ ≤ ⌊y⌋ := Int.floor_mono h
  rcases lt_or_eq_of_le hf with hlt | heq
  · have h1 := roundHalfEven_le_floor_succ x
    have h2 := roundHalfEven_floor_le y
    omega
  · unfold roundHalfEven
    rw [← heq]
    split_ifs <;> first | omega | (exfalso; linarith)

theorem scaled_bounds (x : ℚ) (hx : 0 < x) :
    ((2 ^ 52 : Int) : ℚ) ≤ x / twoPow (floorLog2 x - 52) ∧
      x / twoPow (floorLog2 x - 52) < ((2 ^ 53 : Int) : ℚ) := by
  obtain ⟨h1, h2⟩ := floorLog2_spec x hx
  have hp := twoPow_pos (floorLog2 x - 52)
  have e1 : twoPow (floorLog2 x) = twoPow (floorLog2 x - 52) * twoPow 52 := by
    rw [← twoPow_add]; congr 1; ring
  have e2 : twoPow (floorLog2 x + 1) = twoPow (floorLog2 x - 52) * twoPow 53 := by
    rw [← twoPow_add]; congr 1; ring
  have c52 : twoPow 52 = ((2 ^ 52 : Int) : ℚ) := by rw [twoPow_eq]; norm_num
  have c53 : twoPow 53 = ((2 ^ 53 : Int) : ℚ) := by rw [twoPow_eq]; norm_num
  rw [e1, c52] at h1
  rw [e2, c53] at h2
  constructor
  · rw [le_div_iff₀ hp]; linarith
  · rw [div_lt_iff₀ hp]; linarith

theorem significand_bounds (x : ℚ) (hx : 0 < x) :
    (2 ^ 52 : Int) ≤ roundHalfEven (x / twoPow (floorLog2 x - 52)) ∧
      roundHalfEven (x / twoPow (floorLog2 x - 52)) ≤ (2 ^ 53 : Int) := by
  obtain ⟨h1, h2⟩ := scaled_bounds x hx
  have a := roundHalfEven_mono _ _ h1
  have b := roundHalfEven_mono _ _ h2.le
  rw [roundHalfEven_intCast] at a b
  exact ⟨a, b⟩

theorem roundPositive_pos (x : ℚ) (hx : 0 < x) : 0 < roundPositive x := by
  unfold roundPositive
  have h := (significand_bounds x hx).1
  have hq : (0 : ℚ) < (roundHalfEven (x / twoPow (floorLog2 x - 52)) : ℚ) := by
    have : (0 : Int) < roundHalfEven (x / twoPow (floorLog2 x - 52)) :=
      lt_of_lt_of_le (by norm_num) h
    exact_mod_cast this
  exact mul_pos hq (twoPow_pos _)

theorem roundPositive_mono (x y : ℚ) (hx : 0 < x) (hxy : x ≤ y) :
    roundPositive x ≤ roundPositive y := by
  have hy : 0 < y := lt_of_lt_of_le hx hxy
  have hle := floorLog2_mono x y hx hxy
  unfold roundPositive
  rcases lt_or_eq_of_le hle with hlt | heq
  · have hxs := (significand_bounds x hx).2
    have hys := (significand_bounds y hy).1
    have hxq : (roundHalfEven (x / twoPow (floorLog2 x - 52)) : ℚ) ≤ ((2 ^ 53 : Int) : ℚ) := by
      exact_mod_cast hxs
    have hyq : ((2 ^ 52 : Int) : ℚ) ≤ (roundHalfEven (y / twoPow (floorLog2 y - 52)) : ℚ) := by
      exact_mod_cast hys
    have px := twoPow_pos (floorLog2 x - 52)
    have py := twoPow_pos (floorLog2 y - 52)
    have hstep : twoPow (floorLog2 x - 52) * 2 ≤ twoPow (floorLog2 y - 52) := by
      have : twoPow (floorLog2 x - 52 + 1) ≤ twoPow (floorLog2 y - 52) :=
        twoPow_le _ _ (by omega)
      rw [twoPow_add] at this
      have c1 : twoPow 1 = 2 := by rw [twoPow_eq]; norm_num
      rw [c1] at this
      exact this
    calc (roundHalfEven (x / twoPow (floorLog2 x - 52)) : ℚ) * twoPow (floorLog2 x - 52)
        ≤ ((2 ^ 53 : Int) : ℚ) * twoPow (floorLog2 x - 52) :=
          mul_le_mul_of_nonneg_right hxq px.le
      _ = ((2 ^ 52 : Int) : ℚ) * (twoPow (floorLog2 x - 52) * 2) := by push_cast; ring
      _ ≤ ((2 ^ 52 : Int) : ℚ) * twoPow (floorLog2 y - 52) :=
          mul_le_mul_of_nonneg_left hstep (by positivity)
      _ ≤ (roundHalfEven (y / twoPow (floorLog2 y - 52)) : ℚ) * twoPow (floorLog2 y - 52) :=
          mul_le_mul_of_nonneg_right hyq py.le
  · rw [heq]
    have py := twoPow_pos (floorLog2 y - 52)
    have hdiv : x / twoPow (floorLog2 y - 52) ≤ y / twoPow (floorLog2 y - 52) :=
      div_le_div_of_nonneg_right hxy py.le
    have hm := roundHalfEven_mono _ _ hdiv
    have hmq : (roundHalfEven (x / twoPow (floorLog2 y - 52)) : ℚ)
        ≤ (roundHalfEven (y / twoPow (floorLog2 y - 52)) : ℚ) := by exact_mod_cast hm
    exact mul_le_mul_of_nonneg_right hmq py.le

theorem roundDouble_zero : roundDouble 0 = 0 := by
  unfold roundDouble
  rw [if_pos rfl]

theorem roundDouble_of_pos (x : ℚ) (hx : 0 < x) : roundDouble x = roundPositive x := by
  unfold roundDouble
  rw [if_neg hx.ne', if_pos hx]

theorem roundDouble_pos (x : ℚ) (hx : 0 < x) : 0 < roundDouble x := by
  rw [roundDouble_of_pos x hx]
  exact roundPositive_pos x hx

theorem roundDouble_nonneg (x : ℚ) (hx : 0 ≤ x) : 0 ≤ roundDouble x := by
  rcases lt_or_eq_of_le hx with h | h
  · exact (roundDouble_pos x h).le
  · rw [← h, roundDouble_zero]

/-- Rounding keeps the order of non-negative numbers. -/
theorem roundDouble_mono (x y : ℚ) (hx : 0 ≤ x) (hxy : x ≤ y) :
    roundDouble x ≤ roundDouble y := by
  rcases lt_or_eq_of_le hx with h | h
  · rw [roundDouble_of_pos x h, roundDouble_of_pos y (lt_of_lt_of_le h hxy)]
    exact roundPositive_mono x y h hxy
  · rw [← h, roundDouble_zero]
    exact roundDouble_nonneg y (h ▸ hxy)

theorem roundDouble_one : roundDouble 1 = 1 := by with_unfolding_all rfl

theorem roundDouble_two : roundDouble 2 = 2 := by with_unfolding_all rfl

theorem roundDouble_hundred : roundDouble (1 * 100) = 100 := by with_unfolding_all rfl

theorem roundDouble_below_one :
    roundDouble (1 - 1 / 2 ^ 53) = 1 - 1 / 2 ^ 53 := by with_unfolding_all rfl

theorem roundDouble_below_hundred :
    roundDouble ((1 - 1 / 2 ^ 53) * 100) < 100 := by with_unfolding_all decide

theorem doublePercentage_zero (total : Nat) : doublePercentage 0 total = 0 := by
  unfold doublePercentage
  rw [Nat.cast_zero, zero_div, roundDouble_zero, zero_mul, roundDouble_zero]

theorem doublePercentage_self (total : Nat) (ht : 0 < total) :
    doublePercentage total total = 100 := by
  have htq : (total : ℚ) ≠ 0 := by exact_mod_cast ht.ne'
  unfold doublePercentage
  rw [div_self htq, roundDouble_one, roundDouble_hundred]

theorem doublePercentage_mono (c d total : Nat) (h : c ≤ d) :
    doublePercentage c total ≤ doublePercentage d total := by
  have hq : (c : ℚ) ≤ (d : ℚ) := by exact_mod_cast h
  have h0 : (0 : ℚ) ≤ (c : ℚ) / (total : ℚ) := by positivity
  have h1 : (c : ℚ) / (total : ℚ) ≤ (d : ℚ) / (total : ℚ) :=
    div_le_div_of_nonneg_right hq (by positivity)
  have h2 := roundDouble_mono _ _ h0 h1
  have h3 := roundDouble_nonneg _ h0
  unfold doublePercentage
  exact roundDouble_mono _ _ (by positivity) (by linarith)

theorem doublePercentage_pos (c total : Nat) (hc : 0 < c) (ht : 0 < total) :
    0 < doublePercentage c total := by
  have hcq : (0 : ℚ) < (c : ℚ) := by exact_mod_cast hc
  have htq : (0 : ℚ) < (total : ℚ) := by exact_mod_cast ht
  have h1 := roundDouble_pos ((c : ℚ) / (total : ℚ)) (by positivity)
  unfold doublePercentage
  exact roundDouble_pos _ (by positivity)

/-- Below the total the percentage stays below `100`: the quotient is at most
`1 - 2 ^ (-53)`, a double whose product with `100` rounds to less than `100`. -/
theorem doublePercentage_lt (c total : Nat) (hc : c < total) (ht : total ≤ 2 ^ 53) :
    doublePercentage c total < 100 := by
  have htq : (0 : ℚ) < (total : ℚ) := by exact_mod_cast (by omega : 0 < total)
  have h0 : (0 : ℚ) ≤ (c : ℚ) / (total : ℚ) := by positivity
  have hc1 : (c : ℚ) + 1 ≤ (total : ℚ) := by exact_mod_cast hc
  have ht1 : (total : ℚ) ≤ 2 ^ 53 := by exact_mod_cast ht
  have h1 : (c : ℚ) / (total : ℚ) ≤ 1 - 1 / 2 ^ 53 := by
    rw [div_le_iff₀ htq]
    have : (1 : ℚ) / 2 ^ 53 * (total : ℚ) ≤ 1 := by
      rw [div_mul_eq_mul_div, one_mul, div_le_one (by positivity)]
      exact ht1
    linarith
  have h2 := roundDouble_mono _ _ h0 h1
  rw [roundDouble_below_one] at h2
  have h3 := roundDouble_nonneg _ h0
  have h4 : roundDouble ((c : ℚ) / (total : ℚ)) * 100 ≤ (1 - 1 / 2 ^ 53) * 100 := by linarith
  have h5 := roundDouble_mono _ _ (by positivity) h4
  unfold doublePercentage
  exact lt_of_le_of_lt h5 roundDouble_below_hundred

/-- A rounded difference above a double means the difference itself is above it. -/
theorem lt_of_lt_roundDouble (d i : ℚ) (hd : 0 ≤ d) (hi : roundDouble i = i)
    (h : i < roundDouble d) : i < d := by
  by_contra hn
  have hle : d ≤ i := not_lt.mp hn
  have := roundDouble_mono d i hd hle
  rw [hi] at this
  linarith

/-! ## Progress reporting: theorems -/

theorem progress_of_pos (count total : Nat) (interval : Option ℚ) (w : World)
    (ht : 0 < total) :
    progress count total interval w =
      if (doublePercentage count total = 0 ∨ 100 ≤ doublePercentage count total
          ∨ exceeds (JsNum.fin (doublePercentage count total)) w.phasePercentage
              (intervalOrTwo interval) = true)
      then { w with phasePercentage := JsNum.fin (doublePercentage count total),
                    events := w.events ++
                      [Event.progress count total (JsNum.fin (doublePercentage count total))] }
      else w := by
  have hp : percentageOf count total = JsNum.fin (doublePercentage count total) := by
    simp [percentageOf, ht.ne']
  have hi : (match interval with
      | some i => if i = 0 then 2 else i
      | none => (2 : ℚ)) = intervalOrTwo interval := rfl
  simp only [progress, hp, hi, atLeastHundred, Bool.or_eq_true, decide_eq_true_eq,
    JsNum.fin.injEq, ge_iff_le, or_assoc]

/-- Claim C14, counterexample: with the threshold `0`, the count `1` of `100` and
the remembered percentage `0`, the percentage `1` exceeds the remembered one by
more than the threshold, and `progress` emits nothing. -/
theorem progress_zero_threshold_silent :
    sampleWorld.phasePercentage = JsNum.fin 0 ∧ percentageOf 1 100 = JsNum.fin 1 ∧
      roundDouble (1 - 0) > 0 ∧
      (progress 1 100 (some 0) sampleWorld).events = sampleWorld.events ∧
      (progress 1 100 (some 0) sampleWorld).phasePercentage = JsNum.fin 0 := by
  have hp : doublePercentage 1 100 = 1 := by with_unfolding_all rfl
  have hd : roundDouble (1 - 0) = 1 := by with_unfolding_all rfl
  have e : progress 1 100 (some 0) sampleWorld = sampleWorld := by
    rw [progress_of_pos 1 100 (some 0) sampleWorld (by decide)]
    have h : sampleWorld.phasePercentage = JsNum.fin 0 := rfl
    simp only [h, exceeds, intervalOrTwo, hp, hd]
    norm_num
  refine ⟨rfl, ?_, ?_, by rw [e], by rw [e]; rfl⟩
  · simp [percentageOf, hp]
  · rw [hd]; norm_num

/-- Claim C14, amended: for a total above `0` and a remembered percentage `last`,
`progress` emits exactly when the percentage, the double `count / total * 100`,
is `0`, is at least `100`, or its difference from `last`, rounded to a double,
is more than the interval, which is `2` when no interval or the interval `0` is
given. When it emits, the event carries count, total and percentage and the
remembered percentage becomes the new one; otherwise the world is unchanged. -/
theorem progress_emits_iff (count total : Nat) (interval : Option ℚ) (w : World) (last : ℚ)
    (ht : 0 < total) (hl : w.phasePercentage = JsNum.fin last) :
    (((doublePercentage count total = 0 ∨ 100 ≤ doublePercentage count total
          ∨ roundDouble (doublePercentage count total - last) > intervalOrTwo interval)) →
        progress count total interval w
          = { w with phasePercentage := JsNum.fin (doublePercentage count total),
                     events := w.events ++
                       [Event.progress count total
                          (JsNum.fin (doublePercentage count total))] }) ∧
      (¬ ((doublePercentage count total = 0 ∨ 100 ≤ doublePercentage count total
          ∨ roundDouble (doublePercentage count total - last) > intervalOrTwo interval)) →
        progress count total interval w = w) ∧
      (intervalOrTwo none = 2 ∧ intervalOrTwo (some 0) = 2 ∧
        ∀ i : ℚ, i ≠ 0 → intervalOrTwo (some i) = i) ∧
      doublePercentage count total
        = roundDouble (roundDouble ((count : ℚ) / (total : ℚ)) * 100) := by
  have he : exceeds (JsNum.fin (doublePercentage count total)) w.phasePercentage
      (intervalOrTwo interval) = true
      ↔ roundDouble (doublePercentage count total - last) > intervalOrTwo interval := by
    simp [hl, exceeds]
  refine ⟨fun h => ?_, fun h => ?_, ⟨rfl, by simp [intervalOrTwo], fun i hi => by
    simp [intervalOrTwo, hi]⟩, rfl⟩
  · rw [progress_of_pos count total interval w ht, if_pos (h.imp id (Or.imp id he.mpr))]
  · rw [progress_of_pos count total interval w ht,
      if_neg (fun h' => h (h'.imp id (Or.imp id he.mp)))]

theorem progress_emits_iff_witness :
    doublePercentage 14 100 = 14 + 1 / 2 ^ 49 ∧
      (progress 14 100 none { sampleWorld with phasePercentage := JsNum.fin 12 }).events
        = sampleWorld.events ++ [Event.progress 14 100 (JsNum.fin (doublePercentage 14 100))] ∧
      (progress 14 100 none { sampleWorld with phasePercentage := JsNum.fin 12 }).phasePercentage
        = JsNum.fin (doublePercentage 14 100) := by
  have h := (progress_emits_iff 14 100 none
    { sampleWorld with phasePercentage := JsNum.fin 12 } 12 (by decide) rfl).1
    (Or.inr (Or.inr (by with_unfolding_all decide)))
  refine ⟨by with_unfolding_all rfl, ?_, ?_⟩
  · rw [h]
  · rw [h]

theorem getLast?_cons_of_mem {α : Type} (a : α) (l : List α) (x : α)
    (h : x ∈ l.getLast?) : x ∈ (a :: l).getLast? := by
  cases l with
  | nil => simp at h
  | cons b t => rwa [List.getLast?_cons_cons]

theorem intervalOrTwo_ge (interval : Option ℚ) : interval.getD 2 ≤ intervalOrTwo interval := by
  cases interval with
  | none => simp [intervalOrTwo]
  | some i =>
    by_cases h : i = 0
    · simp [intervalOrTwo, h]
    · simp [intervalOrTwo, h]

theorem intervalOrTwo_double (interval : Option ℚ)
    (hi : ∀ i, interval = some i → roundDouble i = i) :
    roundDouble (intervalOrTwo interval) = intervalOrTwo interval := by
  cases interval with
  | none => exact roundDouble_two
  | some i =>
    by_cases h : i = 0
    · simp only [intervalOrTwo, h, if_true]
      exact roundDouble_two
    · simp only [intervalOrTwo, h, if_false]
      exact hi i rfl

theorem progressSweep_prefix (total : Nat) (interval : Option ℚ) (w : World) (n : Nat)
    (hn : 1 ≤ n) (hnt : n ≤ total) (hbig : total ≤ 2 ^ 53)
    (hi : ∀ i, interval = some i → roundDouble i = i) :
    ∃ (middle : List Event) (last : ℚ),
      ((List.range n).foldl (fun w c => progress c total interval w) w).events
          = w.events ++ Event.progress 0 total (JsNum.fin 0) :: middle ∧
        ((List.range n).foldl (fun w c => progress c total interval w) w).phasePercentage
          = JsNum.fin last ∧
        (∀ e ∈ (Event.progress 0 total (JsNum.fin 0) :: middle).getLast?,
          e.percentage = last) ∧
        last ≤ doublePercentage (n - 1) total ∧
        List.Chain' (fun a b => a.percentage ≤ b.percentage)
          (Event.progress 0 total (JsNum.fin 0) :: middle) ∧
        List.Chain' (fun a b => interval.getD 2 ≤ b.percentage - a.percentage ∧
          interval.getD 2 ≤ roundDouble (b.percentage - a.percentage)) middle ∧
        ∀ e ∈ middle, ∃ c : Nat, 0 < c ∧ c < total ∧
          e = Event.progress c total (JsNum.fin (doublePercentage c total)) := by
  have ht : 0 < total := lt_of_lt_of_le hn hnt
  induction n, hn using Nat.le_induction with
  | base =>
    refine ⟨[], 0, ?_, ?_, ?_, ?_, ?_, ?_, ?_⟩
    · simp [List.range_succ, progress_of_pos _ _ _ _ ht, doublePercentage_zero]
    · simp [List.range_succ, progress_of_pos _ _ _ _ ht, doublePercentage_zero]
    · simp [Event.percentage]
    · simp [doublePercentage_zero]
    · simp
    · simp
    · simp
  | succ n hn ih =>
    obtain ⟨middle, last, hev, hpp, hlast, hle, hmono, hgap, hmid⟩ := ih (by omega)
    have hstep : doublePercentage (n - 1) total ≤ doublePercentage n total :=
      doublePercentage_mono _ _ _ (Nat.sub_le n 1)
    have hpos : 0 < doublePercentage n total := doublePercentage_pos n total (by omega) ht
    have hlt : doublePercentage n total < 100 := doublePercentage_lt n total (by omega) hbig
    rw [List.range_succ, List.foldl_append, List.foldl_cons, List.foldl_nil,
      progress_of_pos _ _ _ _ ht]
    split_ifs with hc
    · have hex : roundDouble (doublePercentage n total - last) > intervalOrTwo interval := by
        rcases hc with h | h | h
        · linarith
        · linarith
        · rw [hpp] at h
          simpa [exceeds] using h
      have hex2 : doublePercentage n total - last > intervalOrTwo interval :=
        lt_of_lt_roundDouble _ _ (by linarith) (intervalOrTwo_double interval hi) hex
      refine ⟨middle ++ [Event.progress n total (JsNum.fin (doublePercentage n total))],
        doublePercentage n total, ?_, rfl, ?_, ?_, ?_, ?_, ?_⟩
      · simp [hev]
      · rw [← List.cons_append, List.getLast?_concat]
        intro e he
        simp only [Option.mem_def, Option.some.injEq] at he
        subst he
        rfl
      · simp
      · rw [← List.cons_append]
        refine List.Chain'.append hmono (List.chain'_singleton _) ?_
        intro x hx y hy
        simp only [List.head?_cons, Option.mem_def, Option.some.injEq] at hy
        subst hy
        rw [hlast x hx]
        show last ≤ doublePercentage n total
        linarith
      · refine List.Chain'.append hgap (List.chain'_singleton _) ?_
        intro x hx y hy
        simp only [List.head?_cons, Option.mem_def, Option.some.injEq] at hy
        subst hy
        rw [hlast x (getLast?_cons_of_mem _ _ _ hx)]
        show interval.getD 2 ≤ doublePercentage n total - last ∧
          interval.getD 2 ≤ roundDouble (doublePercentage n total - last)
        have := intervalOrTwo_ge interval
        exact ⟨by linarith, by linarith⟩
      · intro e he
        rcases List.mem_append.mp he with h | h
        · exact hmid e h
        · simp only [List.mem_singleton] at h
          exact ⟨n, by omega, by omega, h⟩
    · refine ⟨middle, last, hev, hpp, hlast, ?_, hmono, hgap, hmid⟩
      simp only [Nat.add_sub_cancel]
      linarith

/-- Claim C13: for a total of at least `1` that a double holds exactly and an
interval that is a double, the calls of `progress` for the counts `0` to
`total` emit the events for `0` and for `total` first and last, with
percentages `0` and `100`; the percentages of the emitted events never
decrease; and two neighbours among the events in between differ by at least
the given interval (`2` when none is given), both exactly and after the
difference is rounded to a double. The percentages are the doubles
`count / total * 100` that the events carry. -/
theorem progressSweep_events (total : Nat) (interval : Option ℚ) (w : World)
    (ht : 1 ≤ total) (hbig : total ≤ 2 ^ 53)
    (hi : ∀ i, interval = some i → roundDouble i = i) :
    ∃ middle : List Event,
      (progressSweep total interval w).events
          = w.events ++ Event.progress 0 total (JsNum.fin 0)
              :: (middle ++ [Event.progress total total (JsNum.fin 100)]) ∧
        List.Chain' (fun a b => a.percentage ≤ b.percentage)
          (Event.progress 0 total (JsNum.fin 0)
              :: (middle ++ [Event.progress total total (JsNum.fin 100)])) ∧
        List.Chain' (fun a b => interval.getD 2 ≤ b.percentage - a.percentage ∧
          interval.getD 2 ≤ roundDouble (b.percentage - a.percentage)) middle ∧
        ∀ e ∈ middle, ∃ c : Nat, 0 < c ∧ c < total ∧
          e = Event.progress c total (JsNum.fin (doublePercentage c total)) := by
  obtain ⟨middle, last, hev, hpp, hlast, hle, hmono, hgap, hmid⟩ :=
    progressSweep_prefix total interval w total ht le_rfl hbig hi
  have hfull : doublePercentage total total = 100 := doublePercentage_self total (by omega)
  have hlast100 : last ≤ 100 := by
    have := doublePercentage_mono (total - 1) total total (Nat.sub_le total 1)
    rw [hfull] at this
    linarith
  refine ⟨middle, ?_, ?_, hgap, hmid⟩
  · unfold progressSweep
    rw [List.range_succ, List.foldl_append, List.foldl_cons, List.foldl_nil,
      progress_of_pos _ _ _ _ (by omega), hfull, if_pos (Or.inr (Or.inl le_rfl))]
    simp [hev]
  · rw [← List.cons_append]
    refine List.Chain'.append hmono (List.chain'_singleton _) ?_
    intro x hx y hy
    simp only [List.head?_cons, Option.mem_def, Option.some.injEq] at hy
    subst hy
    rw [hlast x hx]
    exact hlast100

theorem progressSweep_events_witness :
    ∃ middle : List Event,
      (progressSweep 100 none sampleWorld).events
          = sampleWorld.events ++ Event.progress 0 100 (JsNum.fin 0)
              :: (middle ++ [Event.progress 100 100 (JsNum.fin 100)]) ∧
        List.Chain' (fun a b => a.percentage ≤ b.percentage)
          (Event.progress 0 100 (JsNum.fin 0)
              :: (middle ++ [Event.progress 100 100 (JsNum.fin 100)])) ∧
        List.Chain' (fun a b => (none : Option ℚ).getD 2 ≤ b.percentage - a.percentage ∧
          (none : Option ℚ).getD 2 ≤ roundDouble (b.percentage - a.percentage)) middle ∧
        ∀ e ∈ middle, ∃ c : Nat, 0 < c ∧ c < 100 ∧
          e = Event.progress c 100 (JsNum.fin (doublePercentage c 100)) :=
  progressSweep_events 100 none sampleWorld (by decide) (by norm_num)
    (fun i h => by cases h)

/-- The calls of `progress` for the counts `0` to `17` of `100` with the default
interval emit for the counts `0, 3, 6, 9, 12, 14, 17`: the percentage of `14` is
the double `14 + 2 ^ (-49)`, more than `2` above the `12` remembered. -/
theorem progressSweep_hundred_counts :
    ((List.range 18).foldl (fun w c => progress c 100 none w) sampleWorld).events
      = sampleWorld.events ++ [Event.progress 0 100 (JsNum.fin 0),
          Event.progress 3 100 (JsNum.fin 3), Event.progress 6 100 (JsNum.fin 6),
          Event.progress 9 100 (JsNum.fin 9), Event.progress 12 100 (JsNum.fin 12),
          Event.progress 14 100 (JsNum.fin (14 + 1 / 2 ^ 49)),
          Event.progress 17 100 (JsNum.fin 17)] := by
  simp only [List.range_succ, List.range_zero, List.foldl_append, List.foldl_cons,
    List.foldl_nil, List.nil_append]
  have h0 : doublePercentage 0 100 = 0 := by with_unfolding_all rfl
  have h3 : doublePercentage 3 100 = 3 := by with_unfolding_all rfl
  have h6 : doublePercentage 6 100 = 6 := by with_unfolding_all rfl
  have h9 : doublePercentage 9 100 = 9 := by with_unfolding_all rfl
  have h12 : doublePercentage 12 100 = 12 := by with_unfolding_all rfl
  have h14 : doublePercentage 14 100 = 14 + 1 / 2 ^ 49 := by with_unfolding_all rfl
  have h17 : doublePercentage 17 100 = 17 := by with_unfolding_all rfl
  rw [progress_of_pos 0 100 none _ (by decide), if_pos (by with_unfolding_all decide)]
  rw [progress_of_pos 1 100 none _ (by decide), if_neg (by with_unfolding_all decide)]
  rw [progress_of_pos 2 100 none _ (by decide), if_neg (by with_unfolding_all decide)]
  rw [progress_of_pos 3 100 none _ (by decide), if_pos (by with_unfolding_all decide)]
  rw [progress_of_pos 4 100 none _ (by decide), if_neg (by with_unfolding_all decide)]
  rw [progress_of_pos 5 100 none _ (by decide), if_neg (by with_unfolding_all decide)]
  rw [progress_of_pos 6 100 none _ (by decide), if_pos (by with_unfolding_all decide)]
  rw [progress_of_pos 7 100 none _ (by decide), if_neg (by with_unfolding_all decide)]
  rw [progress_of_pos 8 100 none _ (by decide), if_neg (by with_unfolding_all decide)]
  rw [progress_of_pos 9 100 none _ (by decide), if_pos (by with_unfolding_all decide)]
  rw [progress_of_pos 10 100 none _ (by decide), if_neg (by with_unfolding_all decide)]
  rw [progress_of_pos 11 100 none _ (by decide), if_neg (by with_unfolding_all decide)]
  rw [progress_of_pos 12 100 none _ (by decide), if_pos (by with_unfolding_all decide)]
  rw [progress_of_pos 13 100 none _ (by decide), if_neg (by with_unfolding_all decide)]
  rw [progress_of_pos 14 100 none _ (by decide), if_pos (by with_unfolding_all decide)]
  rw [progress_of_pos 15 100 none _ (by decide), if_neg (by with_unfolding_all decide)]
  rw [progress_of_pos 16 100 none _ (by decide), if_neg (by with_unfolding_all decide)]
  rw [progress_of_pos 17 100 none _ (by decide), if_pos (by with_unfolding_all decide)]
  simp only [h0, h3, h6, h9, h12, h14, h17, List.append_assoc, List.cons_append,
    List.nil_append]

/-! ## Closing phases and purge: theorems -/

/-- Claim C17: in a run where topic `t1` is locked in the source and was never
imported, the re-lock pass issues a write for it, addressed to `topic:undefined`,
besides the write for the imported locked topic `t2`. -/
theorem relock_writes_for_never_imported_topic :
    (sampleWorldLocked.data.topics.get "t1").map (fun t => (t.get "imported", t.get "tid"))
        = some (JsVal.undefined, JsVal.undefined) ∧
      callsSince sampleWorldLocked.calls.length
          (relockUnlockedTopics sampleTarget sampleWorldLocked)
        = [Call.dbSetObjectField "topic:undefined" "locked" (JsVal.str "1"),
           Call.dbSetObjectField "topic:9" "locked" (JsVal.str "1")] := by
  constructor
  · decide
  · with_unfolding_all decide

theorem flushData_failing_reset :
    (flushData failingResetTarget sampleEnv sampleWorld).2 = [some "write failed", none] := by
  with_unfolding_all decide

/-- Claim C18: `flushData` calls its continuation once, without an error, when
no task of the series hands on an error; when a task hands on the error `e` it
calls the continuation with `e` and then once more without an error. -/
theorem flushData_continuation_calls (T : Target) (env : Env) (w : World) :
    (flushData T env w).2 =
      match (flushDataSeries T env w).2 with
      | some e => [some e, none]
      | none => [none] := by
  unfold flushData
  cases h : (flushDataSeries T env w).2 <;> simp [h]

/-- Claim C15: in a run where category `c1` was not imported and category `c2`
was imported as category 7, the moderator `u3` is joined to one group per
listed category, named after the source ids `c1` and `c2`; the grants stand in
the trace before the write of the profile fields. -/
theorem moderator_grants_use_source_ids :
    (sampleWorldModerator.data.categories.get "c1").map (fun c => c.get "imported")
        = some JsVal.undefined ∧
      (sampleWorldModerator.data.categories.get "c2").map (fun c => c.get "cid")
        = some (JsVal.num 7) ∧
      groupJoins (importUsersOnEach sampleTarget sampleEnv "u3" sampleWorldModerator).calls
        = [("group:cid:c1:privileges:mods:members", JsVal.num 2),
           ("group:cid:c2:privileges:mods:members", JsVal.num 2)] ∧
      ((importUsersOnEach sampleTarget sampleEnv "u3" sampleWorldModerator).calls.map
          fun c => (isGroupJoin c, isUserSetUserFields c))
        = [(false, false), (true, false), (true, false), (false, true), (false, false)] := by
  refine ⟨by decide, by decide, ?_, ?_⟩ <;> with_unfolding_all decide

/-! ## Category orderings: lemmas -/

theorem sortedSetReplay_fst (T : Target) (key member : String) (calls : List Call) :
    (sortedSetReplay T key member calls).1 = calls := by
  induction calls using List.reverseRecOn with
  | nil => rfl
  | append_singleton cs c ih =>
    unfold sortedSetReplay at ih ⊢
    rw [List.foldl_append, List.foldl_cons, List.foldl_nil]
    simp only [ih]

theorem sortedSetScore_snoc_add (T : Target) (calls : List Call) (k : String) (s m : JsVal)
    (key : String) (member : JsVal) :
    sortedSetScore T (calls ++ [Call.dbSortedSetAdd k s m]) key member
      = if k = key ∧ m.toStr = member.toStr ∧ T.dbSortedSetAdd calls k s m = none
        then some s else sortedSetScore T calls key member := by
  have h := sortedSetReplay_fst T key member.toStr calls
  unfold sortedSetScore
  unfold sortedSetReplay at h ⊢
  rw [List.foldl_append, List.foldl_cons, List.foldl_nil]
  simp only [h]

theorem sortedSetScore_snoc_range (T : Target) (calls : List Call) (k : String)
    (key : String) (member : JsVal) :
    sortedSetScore T (calls ++ [Call.dbGetSortedSetRevRange k]) key member
      = sortedSetScore T calls key member := by
  unfold sortedSetScore sortedSetReplay
  rw [List.foldl_append, List.foldl_cons, List.foldl_nil]

theorem sortedSetScore_snoc_field (T : Target) (calls : List Call) (k f : String)
    (key : String) (member : JsVal) :
    sortedSetScore T (calls ++ [Call.dbGetObjectField k f]) key member
      = sortedSetScore T calls key member := by
  unfold sortedSetScore sortedSetReplay
  rw [List.foldl_append, List.foldl_cons, List.foldl_nil]

theorem sortedSetScore_congr (T : Target) (calls : List Call) (key : String) (m m' : JsVal)
    (h : m.toStr = m'.toStr) :
    sortedSetScore T calls key m = sortedSetScore T calls key m' := by
  unfold sortedSetScore
  rw [h]

theorem fixTopicTimestampsOnEach_data (T : Target) (len : Nat) (_tid : String) (w : World) :
    (fixTopicTimestampsOnEach T len _tid w).data = w.data := by
  unfold fixTopicTimestampsOnEach
  simp only []
  repeat' split
  all_goals simp [World.halt, World.call]

theorem fixTopicTimestampsOnEach_scores (T : Target)
    (hrange : ∀ h h' k, T.dbGetSortedSetRevRange h k = T.dbGetSortedSetRevRange h' k)
    (hfield : ∀ h h' k f, T.dbGetObjectField h k f = T.dbGetObjectField h' k f)
    (len : Nat) (_tid : String) (w : World) (k : String) (m : JsVal) :
    sortedSetScore T (fixTopicTimestampsOnEach T len _tid w).calls k m
        = sortedSetScore T w.calls k m ∨
      ∃ topic s, w.data.topics.get _tid = some topic ∧
        (topic.get "tid").truthy = true ∧
        fixTopicTimestampsWrite T (topic.get "tid").toStr = some (k, s) ∧
        m.toStr = (topic.get "tid").toStr ∧
        sortedSetScore T (fixTopicTimestampsOnEach T len _tid w).calls k m = some s := by
  unfold fixTopicTimestampsOnEach
  simp only [progress_data, progress_calls]
  split
  · left; simp
  · rename_i topic htopic
    split
    · rename_i htid
      simp only [World.call, World.halt, progress_calls]
      rw [hrange _ []]
      cases hR : T.dbGetSortedSetRevRange [] ("tid:" ++ (topic.get "tid").toStr ++ ":posts") with
      | error e => left; simp only [sortedSetScore_snoc_range]
      | ok r =>
        cases r with
        | none => left; simp only [sortedSetScore_snoc_range]
        | some l =>
          cases l with
          | nil => left; simp only [sortedSetScore_snoc_range]
          | cons pid tl =>
            simp only []
            rw [hfield _ [] _ "cid", hfield _ [] ("post:" ++ pid.toStr) "timestamp"]
            cases hC : T.dbGetObjectField [] ("topic:" ++ (topic.get "tid").toStr) "cid" with
            | error e => left; simp only [sortedSetScore_snoc_range, sortedSetScore_snoc_field]
            | ok cid =>
              cases hL : T.dbGetObjectField [] ("post:" ++ pid.toStr) "timestamp" with
              | error e => left; simp only [sortedSetScore_snoc_range, sortedSetScore_snoc_field]
              | ok ts =>
                simp only []
                have hw : fixTopicTimestampsWrite T (topic.get "tid").toStr
                    = some ("categories:" ++ cid.toStr ++ ":tid", ts) := by
                  simp [fixTopicTimestampsWrite, hR, hC, hL]
                split
                · left
                  rename_i e he
                  simp only [sortedSetScore_snoc_range, sortedSetScore_snoc_field,
                    sortedSetScore_snoc_add, he]
                  simp
                · rename_i he
                  by_cases hk : "categories:" ++ cid.toStr ++ ":tid" = k ∧
                      (topic.get "tid").toStr = m.toStr
                  · right
                    refine ⟨topic, ts, htopic, htid, by rw [hw, hk.1], hk.2.symm, ?_⟩
                    rw [sortedSetScore_snoc_add, if_pos ⟨hk.1, hk.2, he⟩]
                  · left
                    simp only [sortedSetScore_snoc_add, sortedSetScore_snoc_range,
                      sortedSetScore_snoc_field]
                    rw [if_neg]
                    intro h
                    exact hk ⟨h.1, h.2.1⟩
    · left; simp

theorem fixTopicTimestampsOnEach_written (T : Target)
    (hrange : ∀ h h' k, T.dbGetSortedSetRevRange h k = T.dbGetSortedSetRevRange h' k)
    (hfield : ∀ h h' k f, T.dbGetObjectField h k f = T.dbGetObjectField h' k f)
    (len : Nat) (_tid : String) (w : World) (topic : Obj) (key : String) (s : JsVal)
    (hh : (fixTopicTimestampsOnEach T len _tid w).halted = none)
    (htopic : w.data.topics.get _tid = some topic)
    (htid : (topic.get "tid").truthy = true)
    (hw : fixTopicTimestampsWrite T (topic.get "tid").toStr = some (key, s)) :
    sortedSetScore T (fixTopicTimestampsOnEach T len _tid w).calls key (topic.get "tid")
      = some s := by
  unfold fixTopicTimestampsOnEach at hh ⊢
  simp only [progress_data, progress_calls, htopic, htid, ↓reduceIte] at hh ⊢
  simp only [World.call, World.halt, progress_calls] at hh ⊢
  rw [hrange _ []] at hh ⊢
  unfold fixTopicTimestampsWrite at hw
  cases hR : T.dbGetSortedSetRevRange [] ("tid:" ++ (topic.get "tid").toStr ++ ":posts") with
  | error e => simp [hR] at hw
  | ok r =>
    cases r with
    | none => simp [hR] at hw
    | some l =>
      cases l with
      | nil => simp [hR] at hw
      | cons pid tl =>
        simp only [hR] at hh hw ⊢
        rw [hfield _ [] _ "cid", hfield _ [] ("post:" ++ pid.toStr) "timestamp"] at hh ⊢
        cases hC : T.dbGetObjectField [] ("topic:" ++ (topic.get "tid").toStr) "cid" with
        | error e => simp [hC] at hw
        | ok cid =>
          cases hL : T.dbGetObjectField [] ("post:" ++ pid.toStr) "timestamp" with
          | error e => simp [hC, hL] at hw
          | ok ts =>
            simp only [hC, hL, Option.some.injEq, Prod.mk.injEq] at hh hw ⊢
            obtain ⟨hk, hs⟩ := hw
            subst hk hs
            split at hh
            · simp at hh
            · rename_i he
              dsimp only
              rw [sortedSetScore_snoc_add, if_pos ⟨rfl, rfl, he⟩]

theorem eachLimit_of_halted (ids : List String) (onEach : String → World → World) (w : World)
    (h : w.halted.isSome = true) : eachLimit ids onEach w = w := by
  induction ids with
  | nil => rfl
  | cons id ids ih => rw [eachLimit_cons, if_pos h, ih]

theorem eachLimit_halted_none (ids : List String) (onEach : String → World → World) (w : World)
    (h : (eachLimit ids onEach w).halted = none) : w.halted = none := by
  cases hw : w.halted with
  | none => rfl
  | some e =>
    rw [eachLimit_of_halted ids onEach w (by simp [hw]), hw] at h
    exact absurd h (by simp)

theorem eachLimit_establish (P : World → Prop) (Q : String → World → Prop) (ids : List String)
    (onEach : String → World → World)
    (hP : ∀ id ∈ ids, ∀ w, P w → P (onEach id w))
    (hest : ∀ id ∈ ids, ∀ w, P w → (onEach id w).halted = none → Q id (onEach id w))
    (hkeep : ∀ id ∈ ids, ∀ id' ∈ ids, ∀ w, P w → Q id w → Q id (onEach id' w))
    (w : World) (hw : P w) (hend : (eachLimit ids onEach w).halted = none) :
    P (eachLimit ids onEach w) ∧ ∀ id ∈ ids, Q id (eachLimit ids onEach w) := by
  induction ids using List.reverseRecOn with
  | nil => exact ⟨hw, fun id hid => absurd hid (List.not_mem_nil _)⟩
  | append_singleton ids x ih =>
    rw [eachLimit_append, eachLimit_cons, eachLimit_nil] at hend ⊢
    have hmid : (eachLimit ids onEach w).halted = none := by
      cases hm : (eachLimit ids onEach w).halted with
      | none => rfl
      | some e =>
        rw [if_pos (by simp [hm]), hm] at hend
        exact absurd hend (by simp)
    have hno : ¬ (eachLimit ids onEach w).halted.isSome = true := by simp [hmid]
    rw [if_neg hno] at hend ⊢
    obtain ⟨hPm, hQm⟩ := ih
      (fun id hid => hP id (List.mem_append_left _ hid))
      (fun id hid => hest id (List.mem_append_left _ hid))
      (fun id hid id' hid' =>
        hkeep id (List.mem_append_left _ hid) id' (List.mem_append_left _ hid'))
      hmid
    have hx : x ∈ ids ++ [x] := List.mem_append_right _ (List.mem_singleton_self x)
    refine ⟨hP x hx _ hPm, fun id hid => ?_⟩
    rcases List.mem_append.mp hid with h | h
    · exact hkeep id hid x hx _ hPm (hQm id h)
    · rw [List.mem_singleton] at h
      subst h
      exact hest id hx _ hPm hend

theorem eachLimit_fixTopicTimestampsOnEach_data (T : Target) (len : Nat) (ids : List String)
    (w : World) :
    (eachLimit ids (fixTopicTimestampsOnEach T len) w).data = w.data :=
  eachLimit_induct (fun w' => w'.data = w.data) ids _
    (fun id _ w' h _ => (fixTopicTimestampsOnEach_data T len id w').trans h) w rfl

theorem fixTopicTimestamps_data (T : Target) (w : World) :
    (fixTopicTimestamps T w).data = w.data := by
  unfold fixTopicTimestamps
  simp only []
  split
  · rw [eachLimit_fixTopicTimestampsOnEach_data]; simp [World.phase]
  · simp [World.phase, eachLimit_fixTopicTimestampsOnEach_data]

theorem fixTopicTimestamps_shape (T : Target) (w : World) :
    ∃ s : World, s.calls = w.calls ∧ s.data = w.data ∧ s.halted = w.halted ∧
      (fixTopicTimestamps T w).calls
        = (eachLimit w.data.topics.ids
            (fixTopicTimestampsOnEach T w.data.topics.ids.length) s).calls ∧
      (fixTopicTimestamps T w).halted
        = (eachLimit w.data.topics.ids
            (fixTopicTimestampsOnEach T w.data.topics.ids.length) s).halted := by
  refine ⟨progress 0 1 none (World.phase "fixTopicTimestampsStart" { w with count := 0 }),
    by simp [World.phase], by simp [World.phase], by simp [World.phase], ?_, ?_⟩
  · unfold fixTopicTimestamps
    simp only []
    split
    · simp [World.phase]
    · simp [World.phase]
  · unfold fixTopicTimestamps
    simp only []
    split
    · simp [World.phase]
    · simp [World.phase]

/-- Claim C12: when the answers of the reads `db.getSortedSetRevRange` and
`db.getObjectField` do not depend on the trace, a second run of
`fixTopicTimestamps` right after the first leaves every score of every sorted
set as the first run left it. -/
theorem fixTopicTimestamps_idempotent (T : Target) (w : World)
    (hrange : ∀ h h' k, T.dbGetSortedSetRevRange h k = T.dbGetSortedSetRevRange h' k)
    (hfield : ∀ h h' k f, T.dbGetObjectField h k f = T.dbGetObjectField h' k f)
    (key : String) (member : JsVal) :
    sortedSetScore T (fixTopicTimestamps T (fixTopicTimestamps T w)).calls key member
      = sortedSetScore T (fixTopicTimestamps T w).calls key member := by
  have hdata := fixTopicTimestamps_data T w
  obtain ⟨s1, -, hs1d, -, hc1, hh1⟩ := fixTopicTimestamps_shape T w
  obtain ⟨s2, hs2c, hs2d, hs2h, hc2, -⟩ := fixTopicTimestamps_shape T (fixTopicTimestamps T w)
  rw [hdata] at hs2d hc2
  rw [hc2]
  generalize w.data.topics.ids.length = len at hc1 hh1 ⊢
  cases hh : (fixTopicTimestamps T w).halted with
  | some e =>
    rw [eachLimit_of_halted _ _ s2 (by simp [hs2h, hh]), hs2c]
  | none =>
    rw [hh1] at hh
    rw [hc1] at hs2c ⊢
    -- what the first run has written
    have hfirst := eachLimit_establish (fun w' => w'.data = w.data)
      (fun id w' => ∀ topic k s, w.data.topics.get id = some topic →
        (topic.get "tid").truthy = true →
        fixTopicTimestampsWrite T (topic.get "tid").toStr = some (k, s) →
        sortedSetScore T w'.calls k (topic.get "tid") = some s)
      w.data.topics.ids (fixTopicTimestampsOnEach T len)
      (fun id _ w' h => (fixTopicTimestampsOnEach_data T len id w').trans h)
      (fun id _ w' hP hnh topic k s ht htid hw =>
        fixTopicTimestampsOnEach_written T hrange hfield len id w' topic k s hnh
          (by rw [hP]; exact ht) htid hw)
      (fun id _ id' _ w' hP hQ topic k s ht htid hw => by
        rcases fixTopicTimestampsOnEach_scores T hrange hfield len id' w' k (topic.get "tid")
          with h | ⟨topic', s', _, _, hw', hm, hsc⟩
        · rw [h]; exact hQ topic k s ht htid hw
        · rw [hsc]
          rw [hm, hw'] at hw
          simp only [Option.some.injEq, Prod.mk.injEq] at hw
          rw [hw.2])
      s1 hs1d hh
    -- the second run changes no score
    have hsecond := eachLimit_induct
      (fun w' => w'.data = w.data ∧ ∀ k m, sortedSetScore T w'.calls k m
        = sortedSetScore T (eachLimit w.data.topics.ids (fixTopicTimestampsOnEach T len) s1).calls
            k m)
      w.data.topics.ids (fixTopicTimestampsOnEach T len)
      (fun id hid w' hP _ => by
        refine ⟨(fixTopicTimestampsOnEach_data T len id w').trans hP.1, fun k m => ?_⟩
        rcases fixTopicTimestampsOnEach_scores T hrange hfield len id w' k m
          with h | ⟨topic, s, ht, htid, hw, hm, hsc⟩
        · rw [h]; exact hP.2 k m
        · rw [hsc, sortedSetScore_congr T _ k m (topic.get "tid") hm]
          rw [hP.1] at ht
          exact (hfirst.2 id hid topic k s ht htid hw).symm)
      s2 ⟨hs2d, fun k m => by rw [hs2c]⟩
    exact hsecond.2 key member

theorem fixTopicTimestamps_idempotent_witness :
    sortedSetScore sampleTarget
        (fixTopicTimestamps sampleTarget
          (fixTopicTimestamps sampleTarget sampleWorldImported)).calls "categories:7:tid"
        (JsVal.num 9)
      = sortedSetScore sampleTarget
          (fixTopicTimestamps sampleTarget sampleWorldImported).calls "categories:7:tid"
          (JsVal.num 9) :=
  fixTopicTimestamps_idempotent sampleTarget sampleWorldImported (fun _ _ _ => rfl)
    (fun _ _ _ _ => rfl) "categories:7:tid" (JsVal.num 9)

theorem fixTopicTimestampsOnEach_sample_score :
    sortedSetScore sampleTarget
        (fixTopicTimestampsOnEach sampleTarget 3 "t2" sampleWorldImported).calls
        "categories:7:tid" (JsVal.num 9) = some (JsVal.num 5000) := by
  have h : (fixTopicTimestampsOnEach sampleTarget 3 "t2" sampleWorldImported).calls
      = [Call.dbGetSortedSetRevRange "tid:9:posts", Call.dbGetObjectField "topic:9" "cid",
         Call.dbGetObjectField "post:31" "timestamp",
         Call.dbSortedSetAdd "categories:7:tid" (JsVal.num 5000) (JsVal.num 9)] := by
    with_unfolding_all rfl
  rw [h]
  rfl

/-! ## Imported records: lemmas -/

theorem JsVal.or_ne_undefined (a b : JsVal) (hb : b ≠ JsVal.undefined) :
    a.or b ≠ JsVal.undefined := by
  unfold JsVal.or
  split
  · rename_i h
    intro ha
    rw [ha] at h
    exact absurd h (by decide)
  · exact hb

theorem Obj.get_nodeExtend_triple (a b c : Obj) (k : String) :
    Obj.get (Obj.nodeExtend [a, b, c]) k
      = if Obj.get c k = JsVal.undefined then
          (if Obj.get b k = JsVal.undefined then Obj.get a k else Obj.get b k)
        else Obj.get c k := by
  have h : Obj.nodeExtend [a, b, c] = Obj.extend (Obj.nodeExtend [a, b]) c := rfl
  rw [h, Obj.get_extend, Obj.get_nodeExtend_pair]

theorem Merged.refl (idKey : String) (provenance : List String) (t : Table) :
    Merged idKey provenance t t := fun _ _ h => Or.inl h

theorem Merged.step (idKey : String) (provenance : List String) (a b c : Table)
    (hab : Merged idKey provenance a b) (hbc : Merged idKey provenance b c) :
    Merged idKey provenance a c := fun id r h =>
  (hbc id r h).elim (fun h' => hab id r h') Or.inr

theorem Merged.of_get (idKey : String) (provenance : List String) (a b : Table) (id : String)
    (r : Obj) (hr : Carries idKey provenance r)
    (hget : ∀ k, b.get k = if k = id then some r else a.get k) :
    Merged idKey provenance a b := by
  intro k r' h
  rw [hget k] at h
  by_cases hk : k = id
  · rw [if_pos hk] at h
    right
    simp only [Option.some.injEq] at h
    rw [← h]
    exact hr
  · rw [if_neg hk] at h
    exact Or.inl h

theorem Table.get_put (t : Table) (k k' : String) (o : Obj) :
    (t.put k o).get k' = if k' = k then some o else t.get k' := by
  by_cases h : k' = k
  · rw [if_pos h, h, Table.get_put_self]
  · rw [if_neg h, Table.get_put_ne t k k' o h]

theorem eachLimit_merged (sel : World → Table) (idKey : String) (provenance : List String)
    (ids : List String) (onEach : String → World → World)
    (hstep : ∀ id ∈ ids, ∀ w, w.halted = none → (onEach id w).halted = none →
      Merged idKey provenance (sel w) (sel (onEach id w)))
    (w : World) (hend : (eachLimit ids onEach w).halted = none) :
    Merged idKey provenance (sel w) (sel (eachLimit ids onEach w)) :=
  eachLimit_induct (fun w' => w'.halted = none → Merged idKey provenance (sel w) (sel w'))
    ids onEach
    (fun id hid w' hP hw' hh =>
      Merged.step idKey provenance _ _ _ (hP hw') (hstep id hid w' hw' hh))
    w (fun _ => Merged.refl idKey provenance _) hend

/-! ## Imported categories -/

theorem importCategoriesOnEach_merged (T : Target)
    (hcat : ∀ h d r, T.categoriesCreate h d = Except.ok r →
      r.get "cid" ≠ JsVal.undefined ∧ r.get "imported" = JsVal.undefined)
    (_cid : String) (w : World) (hh : (importCategoriesOnEach T _cid w).halted = none) :
    Merged "cid" [] w.data.categories (importCategoriesOnEach T _cid w).data.categories := by
  unfold importCategoriesOnEach at hh ⊢
  simp only [] at hh ⊢
  split at hh
  · simp [World.halt] at hh
  · rename_i category hget
    unfold importCategoriesOnCreate
    cases hans : T.categoriesCreate
        (categoryData T category { w with count := w.count + 1 }).2.calls
        (categoryData T category { w with count := w.count + 1 }).1 with
    | error e =>
      simp only [categoryData_snd, World.warn, World.call]
      exact Merged.refl _ _ _
    | ok ret =>
      obtain ⟨hcid, himp⟩ := hcat _ _ _ hans
      simp only []
      refine Merged.of_get _ _ _ _ _cid
        (Obj.nodeExtend [Obj.set category "imported" (JsVal.bool true), ret]) ?_ ?_
      · refine ⟨?_, ?_, fun k hk => absurd hk (List.not_mem_nil _)⟩
        · rw [Obj.get_nodeExtend_pair, if_pos himp, Obj.get_set_self]
        · rw [Obj.get_nodeExtend_pair, if_neg hcid]
          exact hcid
      · intro k
        rw [(importCategoriesOnFields_frame _ _ _ _ _).2.1, Table.get_put]
        simp only [categoryData_snd, World.call]

theorem importCategories_shape (T : Target) (env : Env) (w : World) :
    ∃ s : World, s.data = w.data ∧
      (importCategories T env w).data
        = (eachLimit w.data.categories.ids (importCategoriesOnEach T) s).data ∧
      (importCategories T env w).halted
        = (eachLimit w.data.categories.ids (importCategoriesOnEach T) s).halted := by
  refine ⟨importCategoriesStart T w, by simp [importCategoriesStart, World.phase, World.success],
    ?_, ?_⟩
  · unfold importCategories
    simp only []
    split
    · simp [importCategoriesStart, World.phase, World.success]
    · simp [importCategoriesStart, World.phase, World.success]
  · unfold importCategories
    simp only []
    split
    · simp [importCategoriesStart, World.phase, World.success]
    · simp [importCategoriesStart, World.phase, World.success]

theorem importCategories_merged (T : Target) (env : Env)
    (hcat : ∀ h d r, T.categoriesCreate h d = Except.ok r →
      r.get "cid" ≠ JsVal.undefined ∧ r.get "imported" = JsVal.undefined)
    (w : World) (hh : (importCategories T env w).halted = none) :
    Merged "cid" [] w.data.categories (importCategories T env w).data.categories := by
  obtain ⟨s, hs, hd, hhal⟩ := importCategories_shape T env w
  rw [hhal] at hh
  rw [hd, ← hs]
  rw [← hs] at hh
  exact eachLimit_merged (fun w => w.data.categories) "cid" [] _ _
    (fun id _ w' _ h => importCategoriesOnEach_merged T hcat id w' h) s hh

/-! ## Imported users -/

theorem userFields_provenance (env : Env) (w : World) (_uid : String) (user : Obj) :
    ∀ k ∈ userProvenance, Obj.get (userFields env w _uid user) k ≠ JsVal.undefined := by
  have h1 : (Obj.get user "_username").or (JsVal.str "") ≠ JsVal.undefined :=
    JsVal.or_ne_undefined _ _ (by decide)
  have h2 : ((Obj.get user "_slug").or (Obj.get user "_userslug")).or (JsVal.str "")
      ≠ JsVal.undefined := JsVal.or_ne_undefined _ _ (by decide)
  intro k hk
  simp only [userProvenance, List.mem_cons, List.mem_singleton, List.not_mem_nil, or_false] at hk
  unfold userFields
  simp only []
  split
  · rcases hk with rfl | rfl | rfl
    · rw [Obj.get_set_ne _ _ _ _ (by decide), Obj.get_set_ne _ _ _ _ (by decide)]
      simp [Obj.get]
    · rw [Obj.get_set_ne _ _ _ _ (by decide), Obj.get_set_ne _ _ _ _ (by decide)]
      simpa [Obj.get] using h1
    · rw [Obj.get_set_ne _ _ _ _ (by decide), Obj.get_set_ne _ _ _ _ (by decide)]
      simpa [Obj.get] using h2
  · rcases hk with rfl | rfl | rfl
    · simp [Obj.get]
    · simpa [Obj.get] using h1
    · simpa [Obj.get] using h2

theorem importUsersOnLevel_get (T : Target) (env : Env) (_uid : String) (u : NbbUsername)
    (uid : JsVal) (user : Obj) (w : World)
    (hh : (importUsersOnLevel T env _uid u uid user w).halted = none)
    (huid : uid ≠ JsVal.undefined) (himp : Obj.get user "imported" = JsVal.bool true) :
    ∃ r, Carries "uid" userProvenance r ∧
      ∀ k, (importUsersOnLevel T env _uid u uid user w).data.users.get k
        = if k = _uid then some r else w.data.users.get k := by
  unfold importUsersOnLevel at hh ⊢
  simp only [] at hh ⊢
  cases herr : T.userSetUserFields w.calls uid (userFields env w _uid user) with
  | some e => simp [herr, World.halt] at hh
  | none =>
    simp only [herr] at hh ⊢
    refine ⟨((Obj.nodeExtend [user, (userFields env w _uid user).set "uid" uid]).set
        "keptPicture" (JsVal.bool (user.get "_picture").truthy)).set "userslug"
        (match u.userslug with
          | some s => JsVal.str s
          | none => JsVal.null), ?_, fun k => ?_⟩
    rotate_left
    · split
      · split
        · simp only [World.halt, World.call, progress_data, World.putUser]
          exact Table.get_put _ _ _ _
        · simp only [World.call, progress_data, World.putUser]
          exact Table.get_put _ _ _ _
      · simp only [World.call, progress_data, World.putUser]
        exact Table.get_put _ _ _ _
    · refine ⟨?_, ?_, fun k hk => ?_⟩
      · rw [Obj.get_set_ne _ _ _ _ (by decide), Obj.get_set_ne _ _ _ _ (by decide),
          Obj.get_nodeExtend_pair, Obj.get_set_ne _ _ _ _ (by decide),
          userFields_get_imported, if_pos rfl, himp]
      · rw [Obj.get_set_ne _ _ _ _ (by decide), Obj.get_set_ne _ _ _ _ (by decide),
          Obj.get_nodeExtend_pair, Obj.get_set_self, if_neg huid]
        exact huid
      · have hne : Obj.get (userFields env w _uid user) k ≠ JsVal.undefined :=
          userFields_provenance env w _uid user k hk
        have hk1 : k ≠ "userslug" := by
          simp only [userProvenance, List.mem_cons, List.mem_singleton, List.not_mem_nil,
            or_false] at hk
          rcases hk with rfl | rfl | rfl <;> decide
        have hk2 : k ≠ "keptPicture" := by
          simp only [userProvenance, List.mem_cons, List.mem_singleton, List.not_mem_nil,
            or_false] at hk
          rcases hk with rfl | rfl | rfl <;> decide
        have hk3 : k ≠ "uid" := by
          simp only [userProvenance, List.mem_cons, List.mem_singleton, List.not_mem_nil,
            or_false] at hk
          rcases hk with rfl | rfl | rfl <;> decide
        rw [Obj.get_set_ne _ _ _ _ hk1, Obj.get_set_ne _ _ _ _ hk2,
          Obj.get_nodeExtend_pair, Obj.get_set_ne _ _ _ _ hk3, if_neg hne]
        exact hne

theorem importUsersOnLevel_get_from (T : Target) (env : Env) (_uid : String) (u : NbbUsername)
    (uid : JsVal) (user : Obj) (w w1 : World)
    (hw1 : ∀ k, k ≠ _uid → w1.data.users.get k = w.data.users.get k)
    (hh : (importUsersOnLevel T env _uid u uid user w1).halted = none)
    (huid : uid ≠ JsVal.undefined) (himp : Obj.get user "imported" = JsVal.bool true) :
    ∃ r, Carries "uid" userProvenance r ∧
      ∀ k, (importUsersOnLevel T env _uid u uid user w1).data.users.get k
        = if k = _uid then some r else w.data.users.get k := by
  obtain ⟨r, hr, hget⟩ := importUsersOnLevel_get T env _uid u uid user w1 hh huid himp
  refine ⟨r, hr, fun k => ?_⟩
  rw [hget k]
  by_cases hk : k = _uid
  · rw [if_pos hk, if_pos hk]
  · rw [if_neg hk, if_neg hk, hw1 k hk]

theorem importUsersOnCreate_get (T : Target) (env : Env) (_uid : String) (u : NbbUsername)
    (username : String) (answer : Except String JsVal) (user : Obj) (w : World)
    (hh : (importUsersOnCreate T env _uid u username answer user w).halted = none)
    (hans : ∀ uid, answer = Except.ok uid → uid ≠ JsVal.undefined) :
    ((∃ e, answer = Except.error e) ∧
        (importUsersOnCreate T env _uid u username answer user w).data = w.data) ∨
      ∃ r, Carries "uid" userProvenance r ∧
        ∀ k, (importUsersOnCreate T env _uid u username answer user w).data.users.get k
          = if k = _uid then some r else w.data.users.get k := by
  cases answer with
  | error e => exact Or.inl ⟨⟨e, rfl⟩, rfl⟩
  | ok uid =>
    right
    have huid := hans uid rfl
    have himp : Obj.get (Obj.set user "imported" (JsVal.bool true)) "imported"
        = JsVal.bool true := Obj.get_set_self _ _ _
    unfold importUsersOnCreate at hh ⊢
    simp only [] at hh ⊢
    split at hh
    · rename_i h1
      rw [if_pos h1]
      split at hh
      · rename_i h2
        rw [if_pos h2]
        refine importUsersOnLevel_get_from T env _uid u uid _ w _ (fun k hk => ?_) hh huid himp
        rw [(makeModeratorOnAllCategories_frame T uid _).1]
        simp only [World.warn, World.putUser]
        exact Table.get_put_ne _ _ _ _ hk
      · simp [World.halt] at hh
    · rename_i h1
      rw [if_neg h1]
      split at hh
      · rename_i h2
        rw [if_pos h2]
        refine importUsersOnLevel_get_from T env _uid u uid _ w _ (fun k hk => ?_) hh huid himp
        simp only [World.warn, World.call, World.putUser]
        exact Table.get_put_ne _ _ _ _ hk
      · rename_i h2
        rw [if_neg h2]
        refine importUsersOnLevel_get_from T env _uid u uid _ w _ (fun k hk => ?_) hh huid himp
        simp only [World.putUser]
        exact Table.get_put_ne _ _ _ _ hk

theorem importUsersWithData_merged (T : Target) (env : Env)
    (huser : ∀ h d uid, T.userCreate h d = Except.ok uid → uid ≠ JsVal.undefined)
    (_uid : String) (user : Obj) (u : NbbUsername) (password : JsVal) (w : World)
    (hh : (importUsersWithData T env _uid user u password w).halted = none) :
    Merged "uid" userProvenance w.data.users
      (importUsersWithData T env _uid user u password w).data.users := by
  unfold importUsersWithData at hh ⊢
  simp only [] at hh ⊢
  split at hh
  · exact Merged.refl _ _ _
  · rename_i username hu
    split at hh
    · rename_i h1
      rw [if_pos h1]
      rcases importUsersOnCreate_get T env _uid u username _ user _ hh
        (fun uid h => huser _ _ uid h) with ⟨-, h⟩ | ⟨r, hr, hget⟩
      · rw [h]; exact Merged.refl _ _ _
      · exact Merged.of_get _ _ _ _ _uid r hr hget
    · rename_i h1
      rw [if_neg h1]
      split at hh
      · split at hh
        · rename_i h2
          rw [if_pos h2]
          rcases importUsersOnCreate_get T env _uid u username _ _ _ hh
            (fun uid h => by
              simp only [Except.ok.injEq] at h
              rw [← h]; decide) with ⟨⟨e, he⟩, -⟩ | ⟨r, hr, hget⟩
          · exact absurd he (by simp)
          · refine Merged.of_get _ _ _ _ _uid r hr (fun k => ?_)
            rw [hget k]
            by_cases hk : k = _uid
            · rw [if_pos hk, if_pos hk]
            · rw [if_neg hk, if_neg hk]
              simp only [revokeOwnership, World.warn, World.putUser]
              exact Table.get_put_ne _ _ _ _ hk
        · rename_i h2
          rw [if_neg h2]
          rcases importUsersOnCreate_get T env _uid u username _ user _ hh
            (fun uid h => huser _ _ uid h) with ⟨-, h⟩ | ⟨r, hr, hget⟩
          · rw [h]; exact Merged.refl _ _ _
          · exact Merged.of_get _ _ _ _ _uid r hr hget
      · simp [World.halt] at hh

theorem importUsersOnEach_merged (T : Target) (env : Env)
    (huser : ∀ h d uid, T.userCreate h d = Except.ok uid → uid ≠ JsVal.undefined)
    (_uid : String) (w : World) (hh : (importUsersOnEach T env _uid w).halted = none) :
    Merged "uid" userProvenance w.data.users (importUsersOnEach T env _uid w).data.users := by
  unfold importUsersOnEach at hh ⊢
  simp only [] at hh ⊢
  split at hh
  · simp [World.halt] at hh
  · rename_i user hget
    obtain ⟨d, hd⟩ := userPassword_snd T user { w with count := w.count + 1 }
    rw [hd] at hh ⊢
    exact importUsersWithData_merged T env huser _uid user _ _ _ hh

theorem importUsers_shape (T : Target) (env : Env) (w : World) :
    ∃ s : World, s.data = w.data ∧
      (importUsers T env w).data
        = (eachLimit w.data.users.ids (importUsersOnEach T env) s).data ∧
      (importUsers T env w).halted
        = (eachLimit w.data.users.ids (importUsersOnEach T env) s).halted := by
  refine ⟨importUsersStart T w, by simp [importUsersStart, World.phase, World.success],
    ?_, ?_⟩
  · unfold importUsers
    simp only []
    split
    · simp [importUsersStart, World.phase, World.success]
    · simp [importUsersStart, World.phase, World.success]
  · unfold importUsers
    simp only []
    split
    · simp [importUsersStart, World.phase, World.success]
    · simp [importUsersStart, World.phase, World.success]

theorem importUsers_merged (T : Target) (env : Env)
    (huser : ∀ h d uid, T.userCreate h d = Except.ok uid → uid ≠ JsVal.undefined)
    (w : World) (hh : (importUsers T env w).halted = none) :
    Merged "uid" userProvenance w.data.users (importUsers T env w).data.users := by
  obtain ⟨s, hs, hd, hhal⟩ := importUsers_shape T env w
  rw [hhal] at hh
  rw [hd, ← hs]
  rw [← hs] at hh
  exact eachLimit_merged (fun w => w.data.users) "uid" userProvenance _ _
    (fun id _ w' _ h => importUsersOnEach_merged T env huser id w' h) s hh

/-! ## Imported topics -/

theorem topicFieldsOf_provenance (_tid : String) (topic : Obj) (timestamp : JsVal)
    (relativeTime : String) :
    (∀ k ∈ topicProvenance,
        Obj.get (topicFieldsOf _tid topic timestamp relativeTime) k ≠ JsVal.undefined) ∧
      Obj.get (topicFieldsOf _tid topic timestamp relativeTime) "imported"
        = JsVal.undefined := by
  have h (a : JsVal) : a.or (JsVal.str "") ≠ JsVal.undefined :=
    JsVal.or_ne_undefined _ _ (by decide)
  constructor
  · intro k hk
    simp only [topicProvenance, List.mem_cons, List.mem_singleton, List.not_mem_nil,
      or_false] at hk
    rcases hk with rfl | rfl | rfl | rfl | rfl
    · simp [topicFieldsOf, Obj.get]
    · simpa [topicFieldsOf, Obj.get] using h _
    · simpa [topicFieldsOf, Obj.get] using h _
    · simpa [topicFieldsOf, Obj.get] using h _
    · simpa [topicFieldsOf, Obj.get] using h _
  · simp [topicFieldsOf, Obj.get]

theorem importTopicsOnPost_get (T : Target) (env : Env) (_tid : String) (topic category : Obj)
    (returnTopic : Obj × Obj) (w : World)
    (hh : (importTopicsOnPost T env _tid topic category returnTopic w).halted = none) :
    ∃ topicFields : Obj, (∀ k ∈ topicProvenance, Obj.get topicFields k ≠ JsVal.undefined) ∧
      Obj.get topicFields "imported" = JsVal.undefined ∧
      ∀ k, (importTopicsOnPost T env _tid topic category returnTopic w).data.topics.get k
        = if k = _tid then
            some (Obj.nodeExtend [Obj.set topic "imported" (JsVal.bool true), topicFields,
              returnTopic.1])
          else w.data.topics.get k := by
  unfold importTopicsOnPost at hh ⊢
  simp only [] at hh ⊢
  split at hh
  · simp [World.halt] at hh
  · rename_i relativeTime hiso
    split at hh
    · simp [World.halt] at hh
    · rename_i herr
      refine ⟨topicFieldsOf _tid (Obj.set topic "imported" (JsVal.bool true))
        ((Obj.get (Obj.set topic "imported" (JsVal.bool true)) "_timestamp").or
          (JsVal.num w.startTime)) relativeTime,
        (topicFieldsOf_provenance _ _ _ _).1, (topicFieldsOf_provenance _ _ _ _).2,
        fun k => ?_⟩
      simp only [World.call, progress_data]
      rw [Table.get_put, Table.get_put]
      by_cases hk : k = _tid
      · rw [if_pos hk, if_pos hk]; rfl
      · rw [if_neg hk, if_neg hk, if_neg hk]

theorem importTopicsOnEach_merged (T : Target) (env : Env)
    (htopic : ∀ h d r, T.topicsPost h d = Except.ok r →
      Obj.get r.1 "tid" ≠ JsVal.undefined ∧ Obj.get r.1 "imported" = JsVal.undefined)
    (_tid : String) (w : World) (hh : (importTopicsOnEach T env _tid w).halted = none) :
    Merged "tid" topicProvenance w.data.topics (importTopicsOnEach T env _tid w).data.topics := by
  unfold importTopicsOnEach at hh ⊢
  simp only [] at hh ⊢
  split at hh
  · simp [World.halt] at hh
  · rename_i topic hget
    split at hh
    · exact Merged.refl _ _ _
    · rename_i category hcat
      split at hh
      · rename_i hg
        rw [if_pos hg]
        exact Merged.refl _ _ _
      · rename_i hg
        rw [if_neg hg]
        split at hh
        · exact Merged.refl _ _ _
        · rename_i returnTopic hans
          obtain ⟨htid, himp⟩ := htopic _ _ _ hans
          obtain ⟨topicFields, hprov, hfimp, hget'⟩ :=
            importTopicsOnPost_get T env _tid topic category returnTopic _ hh
          refine Merged.of_get _ _ _ _ _tid _ ?_ hget'
          refine ⟨?_, ?_, fun k hk => ?_⟩
          · rw [Obj.get_nodeExtend_triple, if_pos himp, if_pos hfimp, Obj.get_set_self]
          · rw [Obj.get_nodeExtend_triple, if_neg htid]
            exact htid
          · rw [Obj.get_nodeExtend_triple]
            split
            · rw [if_neg (hprov k hk)]
              exact hprov k hk
            · assumption

theorem importTopics_shape (T : Target) (env : Env) (w : World) :
    ∃ s : World, s.data = w.data ∧
      (importTopics T env w).data
        = (eachLimit w.data.topics.ids (importTopicsOnEach T env) s).data ∧
      (importTopics T env w).halted
        = (eachLimit w.data.topics.ids (importTopicsOnEach T env) s).halted := by
  refine ⟨importTopicsStart T w, by simp [importTopicsStart, World.phase, World.success],
    ?_, ?_⟩
  · unfold importTopics
    simp only []
    split
    · simp [importTopicsStart, World.phase, World.success]
    · simp [importTopicsStart, World.phase, World.success]
  · unfold importTopics
    simp only []
    split
    · simp [importTopicsStart, World.phase, World.success]
    · simp [importTopicsStart, World.phase, World.success]

theorem importTopics_merged (T : Target) (env : Env)
    (htopic : ∀ h d r, T.topicsPost h d = Except.ok r →
      Obj.get r.1 "tid" ≠ JsVal.undefined ∧ Obj.get r.1 "imported" = JsVal.undefined)
    (w : World) (hh : (importTopics T env w).halted = none) :
    Merged "tid" topicProvenance w.data.topics (importTopics T env w).data.topics := by
  obtain ⟨s, hs, hd, hhal⟩ := importTopics_shape T env w
  rw [hhal] at hh
  rw [hd, ← hs]
  rw [← hs] at hh
  exact eachLimit_merged (fun w => w.data.topics) "tid" topicProvenance _ _
    (fun id _ w' _ h => importTopicsOnEach_merged T env htopic id w' h) s hh

/-! ## Imported posts -/

theorem postFieldsOf_provenance (_pid : String) (post : Obj) (relativeTime : String) :
    ∀ k ∈ postProvenance, Obj.get (postFieldsOf _pid post relativeTime) k ≠ JsVal.undefined := by
  have h (a : JsVal) : a.or (JsVal.str "") ≠ JsVal.undefined :=
    JsVal.or_ne_undefined _ _ (by decide)
  intro k hk
  simp only [postProvenance, List.mem_cons, List.mem_singleton, List.not_mem_nil,
    or_false] at hk
  rcases hk with rfl | rfl | rfl | rfl
  · simp [postFieldsOf, Obj.get]
  · simpa [postFieldsOf, Obj.get] using h _
  · simpa [postFieldsOf, Obj.get] using h _
  · simpa [postFieldsOf, Obj.get] using h _

theorem importPostsOnCreate_get (env : Env) (_pid : String) (post postReturn : Obj) (w : World)
    (hh : (importPostsOnCreate env _pid post postReturn w).halted = none) :
    ∃ fields : Obj, (∀ k ∈ postProvenance, Obj.get fields k ≠ JsVal.undefined) ∧
      ∀ k, (importPostsOnCreate env _pid post postReturn w).data.posts.get k
        = if k = _pid then
            some (Obj.set (Obj.nodeExtend [Obj.set post "imported" (JsVal.bool true), fields,
              postReturn]) "imported" (JsVal.bool true))
          else w.data.posts.get k := by
  unfold importPostsOnCreate at hh ⊢
  simp only [] at hh ⊢
  split at hh
  · simp [World.halt] at hh
  · rename_i relativeTime hiso
    refine ⟨postFieldsOf _pid (Obj.set post "imported" (JsVal.bool true)) relativeTime,
      postFieldsOf_provenance _ _ _, fun k => ?_⟩
    simp only [World.call, progress_data]
    rw [Table.get_put, Table.get_put]
    by_cases hk : k = _pid
    · rw [if_pos hk, if_pos hk]; rfl
    · rw [if_neg hk, if_neg hk, if_neg hk]

theorem importPostsOnEach_merged (T : Target) (env : Env)
    (hpost : ∀ h d r, T.postsCreate h d = Except.ok r → Obj.get r "pid" ≠ JsVal.undefined)
    (_pid : String) (w : World) (hh : (importPostsOnEach T env _pid w).halted = none) :
    Merged "pid" postProvenance w.data.posts (importPostsOnEach T env _pid w).data.posts := by
  unfold importPostsOnEach at hh ⊢
  simp only [] at hh ⊢
  split at hh
  · simp [World.halt] at hh
  · rename_i post hget
    split at hh
    · exact Merged.refl _ _ _
    · rename_i topic htopic
      split at hh
      · rename_i hg
        rw [if_pos hg]
        exact Merged.refl _ _ _
      · rename_i hg
        rw [if_neg hg]
        split at hh
        · exact Merged.refl _ _ _
        · rename_i postReturn hans
          have hpid := hpost _ _ _ hans
          obtain ⟨fields, hprov, hget'⟩ := importPostsOnCreate_get env _pid post postReturn _ hh
          refine Merged.of_get _ _ _ _ _pid _ ?_ hget'
          refine ⟨Obj.get_set_self _ _ _, ?_, fun k hk => ?_⟩
          · rw [Obj.get_set_ne _ _ _ _ (by decide), Obj.get_nodeExtend_triple, if_neg hpid]
            exact hpid
          · have hk1 : k ≠ "imported" := by
              simp only [postProvenance, List.mem_cons, List.mem_singleton, List.not_mem_nil,
                or_false] at hk
              rcases hk with rfl | rfl | rfl | rfl <;> decide
            rw [Obj.get_set_ne _ _ _ _ hk1, Obj.get_nodeExtend_triple]
            split
            · rw [if_neg (hprov k hk)]
              exact hprov k hk
            · assumption

theorem importPosts_shape (T : Target) (env : Env) (w : World) :
    ∃ s : World, s.data = w.data ∧
      (importPosts T env w).data
        = (eachLimit w.data.posts.ids (importPostsOnEach T env) s).data ∧
      (importPosts T env w).halted
        = (eachLimit w.data.posts.ids (importPostsOnEach T env) s).halted := by
  refine ⟨importPostsStart T w, by simp [importPostsStart, World.phase, World.success],
    ?_, ?_⟩
  · unfold importPosts
    simp only []
    split
    · simp [importPostsStart, World.phase, World.success]
    · simp [importPostsStart, World.phase, World.success]
  · unfold importPosts
    simp only []
    split
    · simp [importPostsStart, World.phase, World.success]
    · simp [importPostsStart, World.phase, World.success]

theorem importPosts_merged (T : Target) (env : Env)
    (hpost : ∀ h d r, T.postsCreate h d = Except.ok r → Obj.get r "pid" ≠ JsVal.undefined)
    (w : World) (hh : (importPosts T env w).halted = none) :
    Merged "pid" postProvenance w.data.posts (importPosts T env w).data.posts := by
  obtain ⟨s, hs, hd, hhal⟩ := importPosts_shape T env w
  rw [hhal] at hh
  rw [hd, ← hs]
  rw [← hs] at hh
  exact eachLimit_merged (fun w => w.data.posts) "pid" postProvenance _ _
    (fun id _ w' _ h => importPostsOnEach_merged T env hpost id w' h) s hh

/-- Claim C16, counterexample: after the category pipeline has completed without
an error, the record of category `c2` has `imported` set and carries the id
`cid`, and it carries none of the provenance fields of a category; after the
user pipeline, the record of user `u2` has `imported` set and carries no
`_imported_signature`. -/
theorem imported_record_lacks_provenance :
    (importCategories sampleTarget sampleEnv sampleWorld).halted = none ∧
      ((importCategories sampleTarget sampleEnv sampleWorld).data.categories.get "c2").map
          (fun r => (r.get "imported", r.get "cid", categoryProvenance.map (fun k => r.get k)))
        = some (JsVal.bool true, JsVal.num 2,
            [JsVal.undefined, JsVal.undefined, JsVal.undefined, JsVal.undefined,
             JsVal.undefined]) ∧
      (importUsers sampleTarget sampleEnv sampleWorld).halted = none ∧
      ((importUsers sampleTarget sampleEnv sampleWorld).data.users.get "u2").map
          (fun r => (r.get "imported", r.get "_imported_uid", r.get "_imported_signature"))
        = some (JsVal.bool true, JsVal.str "u2", JsVal.undefined) := by
  refine ⟨?_, ?_, ?_, ?_⟩ <;> with_unfolding_all decide

/-- Claim C16, amended: when the target system answers a creation with an id
and without a field `imported`, then after each of the four pipelines has
completed without an error every record of its table is the record that was
there before the pipeline or carries `imported === true` and the id the target
system assigned (`cid`, `uid`, `tid`, `pid`), and besides, for a user the
provenance fields `_imported_uid`, `_imported_username`, `_imported_slug`, for a
topic `_imported_tid`, `_imported_uid`, `_imported_slug`, `_imported_title`,
`_imported_content`, for a post `_imported_pid`, `_imported_uid`,
`_imported_tid`, `_imported_content`. A category record carries no provenance
field: these are written to the target store only. -/
theorem imported_records_carry_merged_fields (T : Target) (env : Env) (w : World)
    (hcat : ∀ h d r, T.categoriesCreate h d = Except.ok r →
      Obj.get r "cid" ≠ JsVal.undefined ∧ Obj.get r "imported" = JsVal.undefined)
    (huser : ∀ h d uid, T.userCreate h d = Except.ok uid → uid ≠ JsVal.undefined)
    (htopic : ∀ h d r, T.topicsPost h d = Except.ok r →
      Obj.get r.1 "tid" ≠ JsVal.undefined ∧ Obj.get r.1 "imported" = JsVal.undefined)
    (hpost : ∀ h d r, T.postsCreate h d = Except.ok r → Obj.get r "pid" ≠ JsVal.undefined) :
    ((importCategories T env w).halted = none →
        Merged "cid" [] w.data.categories (importCategories T env w).data.categories) ∧
      ((importUsers T env w).halted = none →
        Merged "uid" userProvenance w.data.users (importUsers T env w).data.users) ∧
      ((importTopics T env w).halted = none →
        Merged "tid" topicProvenance w.data.topics (importTopics T env w).data.topics) ∧
      ((importPosts T env w).halted = none →
        Merged "pid" postProvenance w.data.posts (importPosts T env w).data.posts) :=
  ⟨importCategories_merged T env hcat w, importUsers_merged T env huser w,
    importTopics_merged T env htopic w, importPosts_merged T env hpost w⟩

theorem sampleTarget_answers :
    (∀ h d r, sampleTarget.categoriesCreate h d = Except.ok r →
      Obj.get r "cid" ≠ JsVal.undefined ∧ Obj.get r "imported" = JsVal.undefined) ∧
    (∀ h d uid, sampleTarget.userCreate h d = Except.ok uid → uid ≠ JsVal.undefined) ∧
    (∀ h d r, sampleTarget.topicsPost h d = Except.ok r →
      Obj.get r.1 "tid" ≠ JsVal.undefined ∧ Obj.get r.1 "imported" = JsVal.undefined) ∧
    (∀ h d r, sampleTarget.postsCreate h d = Except.ok r →
      Obj.get r "pid" ≠ JsVal.undefined) := by
  refine ⟨fun h d r hr => ?_, fun h d uid hr => ?_, fun h d r hr => ?_, fun h d r hr => ?_⟩
  · simp only [sampleTarget] at hr
    split at hr
    · cases hr
    · cases hr
      simp [Obj.get]
  · simp only [sampleTarget] at hr
    cases hr
    simp
  · simp only [sampleTarget] at hr
    cases hr
    simp [Obj.get]
  · simp only [sampleTarget] at hr
    cases hr
    simp [Obj.get]

theorem imported_records_carry_merged_fields_witness :
    Merged "tid" topicProvenance sampleWorldImported.data.topics
      (importTopics sampleTarget sampleEnv sampleWorldImported).data.topics :=
  (imported_records_carry_merged_fields sampleTarget sampleEnv sampleWorldImported
    sampleTarget_answers.1 sampleTarget_answers.2.1 sampleTarget_answers.2.2.1
    sampleTarget_answers.2.2.2).2.2.1 (by with_unfolding_all decide)

/-! ## Category orderings after the topic phase -/

theorem sortedSetAdds_append (a b : List Call) :
    sortedSetAdds (a ++ b) = sortedSetAdds a ++ sortedSetAdds b := by
  unfold sortedSetAdds
  rw [List.filterMap_append]

theorem callsSince_append (w : World) (calls rest : List Call) (h : w.calls = calls ++ rest) :
    callsSince calls.length w = rest := by
  unfold callsSince
  rw [h, List.drop_left]

theorem JsVal.truthy_flag (c : Bool) :
    (if c = true then JsVal.num 1 else JsVal.num 0).truthy = c := by
  cases c <;> rfl

theorem importTopicsOnPost_adds (T : Target) (env : Env) (_tid : String) (topic category : Obj)
    (returnTopic : Obj × Obj) (w : World)
    (hh : (importTopicsOnPost T env _tid topic category returnTopic w).halted = none) :
    sortedSetAdds (callsSince w.calls.length
        (importTopicsOnPost T env _tid topic category returnTopic w))
      = [("categories:" ++ (Obj.get category "cid").toStr ++ ":tid",
          topicScore w.startTime topic, Obj.get returnTopic.1 "tid")] ∧
      env.toISOString ((Obj.get topic "_timestamp").or (JsVal.num w.startTime)) ≠ none := by
  have hp : Obj.get (Obj.set topic "imported" (JsVal.bool true)) "_pinned"
      = Obj.get topic "_pinned" := Obj.get_set_ne _ _ _ _ (by decide)
  have ht : Obj.get (Obj.set topic "imported" (JsVal.bool true)) "_timestamp"
      = Obj.get topic "_timestamp" := Obj.get_set_ne _ _ _ _ (by decide)
  unfold importTopicsOnPost at hh ⊢
  simp only [] at hh ⊢
  split at hh
  · simp [World.halt] at hh
  · rename_i relativeTime hiso
    split at hh
    · simp [World.halt] at hh
    · rename_i herr
      rw [ht] at hiso
      refine ⟨?_, by rw [hiso]; simp⟩
      rw [callsSince_append _ w.calls
        [Call.dbSortedSetAdd ("categories:" ++ (Obj.get category "cid").toStr ++ ":tid")
            (topicScore w.startTime topic) (Obj.get returnTopic.1 "tid"),
          Call.dbSetObject ("topic:" ++ (Obj.get returnTopic.1 "tid").toStr)
            (topicFieldsOf _tid (Obj.set topic "imported" (JsVal.bool true))
              ((Obj.get topic "_timestamp").or (JsVal.num w.startTime)) relativeTime),
          Call.postsSetPostFields (Obj.get returnTopic.2 "pid")
            [("timestamp", (Obj.get topic "_timestamp").or (JsVal.num w.startTime)),
             ("relativeTime", JsVal.str relativeTime)]]]
      · rfl
      · simp only [World.call, progress_calls, List.append_assoc, List.singleton_append, ht,
          hp, topicScore, topicFieldsOf, Obj.get, JsVal.truthy_flag]
        simp [JsVal.truthy_flag]

theorem importTopicsOnPost_startTime (T : Target) (env : Env) (_tid : String)
    (topic category : Obj) (returnTopic : Obj × Obj) (w : World) :
    (importTopicsOnPost T env _tid topic category returnTopic w).startTime = w.startTime := by
  unfold importTopicsOnPost
  simp only []
  split
  · rfl
  · split
    · rfl
    · simp [World.call]

theorem importTopicsOnEach_startTime (T : Target) (env : Env) (_tid : String) (w : World) :
    (importTopicsOnEach T env _tid w).startTime = w.startTime := by
  unfold importTopicsOnEach
  simp only []
  split
  · rfl
  · split
    · rfl
    · split
      · rfl
      · split
        · rfl
        · rw [importTopicsOnPost_startTime]; rfl

theorem importTopicsOnEach_calls (T : Target) (env : Env) (_tid : String) (w : World) :
    ∃ rest, (importTopicsOnEach T env _tid w).calls = w.calls ++ rest := by
  unfold importTopicsOnEach
  simp only []
  split
  · exact ⟨[], by simp [World.halt]⟩
  · split
    · exact ⟨[], by simp [World.warn]⟩
    · split
      · exact ⟨[], by simp [World.warn]⟩
      · split
        · exact ⟨_, rfl⟩
        · rename_i _ topic _ _ category _ _ _ returnTopic _
          obtain ⟨rest, h⟩ := importTopicsOnPost_calls T env _tid topic category returnTopic
            (World.call (Call.topicsPost (topicsPostData w.config topic category
              ((w.data.users.get (Obj.get topic "_uid").toStr).getD [])))
              { w with count := w.count + 1 })
          refine ⟨Call.topicsPost (topicsPostData w.config topic category
              ((w.data.users.get (Obj.get topic "_uid").toStr).getD [])) :: rest, ?_⟩
          rw [h]
          simp [World.call]

theorem importTopicsOnPost_record (T : Target) (env : Env) (_tid : String)
    (topic category : Obj) (returnTopic : Obj × Obj) (w : World)
    (hh : (importTopicsOnPost T env _tid topic category returnTopic w).halted = none) :
    ∃ (timestamp : JsVal) (relativeTime : String),
      ∀ k, (importTopicsOnPost T env _tid topic category returnTopic w).data.topics.get k
        = if k = _tid then
            some (Obj.nodeExtend [Obj.set topic "imported" (JsVal.bool true),
              topicFieldsOf _tid (Obj.set topic "imported" (JsVal.bool true)) timestamp
                relativeTime,
              returnTopic.1])
          else w.data.topics.get k := by
  unfold importTopicsOnPost at hh ⊢
  simp only [] at hh ⊢
  split at hh
  · simp [World.halt] at hh
  · rename_i relativeTime hiso
    split at hh
    · simp [World.halt] at hh
    · rename_i herr
      refine ⟨(Obj.get (Obj.set topic "imported" (JsVal.bool true)) "_timestamp").or
          (JsVal.num w.startTime), relativeTime, fun k => ?_⟩
      simp only [World.call, progress_data]
      rw [Table.get_put, Table.get_put]
      by_cases hk : k = _tid
      · rw [if_pos hk, if_pos hk]; rfl
      · rw [if_neg hk, if_neg hk, if_neg hk]

theorem topicFieldsOf_raw_keys (_tid : String) (topic : Obj) (timestamp : JsVal)
    (relativeTime : String) :
    Obj.get (topicFieldsOf _tid topic timestamp relativeTime) "_cid" = JsVal.undefined ∧
      Obj.get (topicFieldsOf _tid topic timestamp relativeTime) "_pinned" = JsVal.undefined ∧
      Obj.get (topicFieldsOf _tid topic timestamp relativeTime) "_timestamp"
        = JsVal.undefined := by
  refine ⟨?_, ?_, ?_⟩ <;> simp [topicFieldsOf, Obj.get]

theorem importTopicsOnEach_inserted (T : Target) (env : Env)
    (hkeys : ∀ h d r, T.topicsPost h d = Except.ok r →
      Obj.get r.1 "tid" ≠ JsVal.undefined ∧ Obj.get r.1 "_cid" = JsVal.undefined ∧
        Obj.get r.1 "_pinned" = JsVal.undefined ∧ Obj.get r.1 "_timestamp" = JsVal.undefined)
    (hdate : ∀ n, env.toISOString (JsVal.num n) ≠ none → n < 2 ^ 53)
    (_tid : String) (w : World) (hh : (importTopicsOnEach T env _tid w).halted = none) :
    InsertedAll w.data.topics (importTopicsOnEach T env _tid w).data.topics w.data.categories
      w.startTime (sortedSetAdds (callsSince w.calls.length (importTopicsOnEach T env _tid w))) := by
  unfold importTopicsOnEach at hh ⊢
  simp only [] at hh ⊢
  split at hh
  · simp [World.halt] at hh
  · rename_i topic hget
    split at hh
    · exact fun _ _ h => Or.inl h
    · rename_i category hcat
      split at hh
      · rename_i hg
        rw [if_pos hg]
        exact fun _ _ h => Or.inl h
      · rename_i hg
        rw [if_neg hg]
        split at hh
        · exact fun _ _ h => Or.inl h
        · rename_i returnTopic hans
          obtain ⟨htid, hcid, hpin, hts⟩ := hkeys _ _ _ hans
          obtain ⟨timestamp, relativeTime, hget'⟩ :=
            importTopicsOnPost_record T env _tid topic category returnTopic _ hh
          obtain ⟨hadds, hiso⟩ :=
            importTopicsOnPost_adds T env _tid topic category returnTopic _ hh
          obtain ⟨rest, hrest⟩ := importTopicsOnPost_calls T env _tid topic category returnTopic
            (World.call (Call.topicsPost (topicsPostData w.config topic category
              ((w.data.users.get (Obj.get topic "_uid").toStr).getD [])))
              { w with count := w.count + 1 })
          obtain ⟨f1, f2, f3⟩ := topicFieldsOf_raw_keys _tid
            (Obj.set topic "imported" (JsVal.bool true)) timestamp relativeTime
          have hadds' : sortedSetAdds (callsSince w.calls.length
              (importTopicsOnPost T env _tid topic category returnTopic
                (World.call (Call.topicsPost (topicsPostData w.config topic category
                  ((w.data.users.get (Obj.get topic "_uid").toStr).getD [])))
                  { w with count := w.count + 1 })))
              = [("categories:" ++ (Obj.get category "cid").toStr ++ ":tid",
                  topicScore w.startTime topic, Obj.get returnTopic.1 "tid")] := by
            have h2 : (importTopicsOnPost T env _tid topic category returnTopic
                (World.call (Call.topicsPost (topicsPostData w.config topic category
                  ((w.data.users.get (Obj.get topic "_uid").toStr).getD [])))
                  { w with count := w.count + 1 })).calls
                = w.calls ++ (Call.topicsPost (topicsPostData w.config topic category
                  ((w.data.users.get (Obj.get topic "_uid").toStr).getD [])) :: rest) := by
              rw [hrest]; simp [World.call]
            rw [callsSince_append _ _ rest hrest] at hadds
            rw [callsSince_append _ _ _ h2]
            exact hadds
          intro k r hr
          rw [hget' k] at hr
          by_cases hk : k = _tid
          · right
            rw [if_pos hk] at hr
            simp only [Option.some.injEq] at hr
            have e1 : Obj.get r "_cid" = Obj.get topic "_cid" := by
              rw [← hr, Obj.get_nodeExtend_triple, if_pos hcid, if_pos f1,
                Obj.get_set_ne _ _ _ _ (by decide)]
            have e2 : Obj.get r "_pinned" = Obj.get topic "_pinned" := by
              rw [← hr, Obj.get_nodeExtend_triple, if_pos hpin, if_pos f2,
                Obj.get_set_ne _ _ _ _ (by decide)]
            have e3 : Obj.get r "_timestamp" = Obj.get topic "_timestamp" := by
              rw [← hr, Obj.get_nodeExtend_triple, if_pos hts, if_pos f3,
                Obj.get_set_ne _ _ _ _ (by decide)]
            have e4 : Obj.get r "tid" = Obj.get returnTopic.1 "tid" := by
              rw [← hr, Obj.get_nodeExtend_triple, if_neg htid]
            have e5 : topicScore w.startTime r = topicScore w.startTime topic := by
              unfold topicScore
              rw [e2, e3]
            refine ⟨category, by rw [e1]; exact hcat, ?_, fun hnp n hn => ?_⟩
            · rw [hadds', e5, e4]
              exact List.mem_singleton_self _
            · apply hdate n
              rw [e5] at hn
              unfold topicScore at hn
              rw [e2] at hnp
              rw [hnp] at hn
              simp only [Bool.false_eq_true, ↓reduceIte] at hn
              rw [← hn]
              exact hiso
          · left
            rw [if_neg hk] at hr
            exact hr

theorem Inserted.mono (categories : Table) (startTime : Int)
    (adds adds' : List (String × JsVal × JsVal)) (r : Obj) (hsub : ∀ a ∈ adds, a ∈ adds')
    (h : Inserted categories startTime adds r) : Inserted categories startTime adds' r := by
  obtain ⟨category, h1, h2, h3⟩ := h
  exact ⟨category, h1, hsub _ h2, h3⟩

theorem importTopics_shape_calls (T : Target) (env : Env) (w : World) :
    ∃ s : World, s.data = w.data ∧ s.calls = w.calls ∧ s.startTime = T.now w.calls ∧
      (importTopics T env w).data
        = (eachLimit w.data.topics.ids (importTopicsOnEach T env) s).data ∧
      (importTopics T env w).calls
        = (eachLimit w.data.topics.ids (importTopicsOnEach T env) s).calls ∧
      (importTopics T env w).halted
        = (eachLimit w.data.topics.ids (importTopicsOnEach T env) s).halted := by
  refine ⟨importTopicsStart T w, by simp [importTopicsStart, World.phase, World.success],
    by simp [importTopicsStart, World.phase, World.success],
    by simp [importTopicsStart, World.phase, World.success], ?_, ?_, ?_⟩
  · unfold importTopics
    simp only []
    split
    · simp [importTopicsStart, World.phase, World.success]
    · simp [importTopicsStart, World.phase, World.success]
  · unfold importTopics
    simp only []
    split
    · simp [importTopicsStart, World.phase, World.success]
    · simp [importTopicsStart, World.phase, World.success]
  · unfold importTopics
    simp only []
    split
    · simp [importTopicsStart, World.phase, World.success]
    · simp [importTopicsStart, World.phase, World.success]

theorem eachLimit_importTopicsOnEach_inserted (T : Target) (env : Env)
    (hkeys : ∀ h d r, T.topicsPost h d = Except.ok r →
      Obj.get r.1 "tid" ≠ JsVal.undefined ∧ Obj.get r.1 "_cid" = JsVal.undefined ∧
        Obj.get r.1 "_pinned" = JsVal.undefined ∧ Obj.get r.1 "_timestamp" = JsVal.undefined)
    (hdate : ∀ n, env.toISOString (JsVal.num n) ≠ none → n < 2 ^ 53)
    (ids : List String) (s : World)
    (hh : (eachLimit ids (importTopicsOnEach T env) s).halted = none) :
    InsertedAll s.data.topics (eachLimit ids (importTopicsOnEach T env) s).data.topics
      s.data.categories s.startTime
      (sortedSetAdds (callsSince s.calls.length (eachLimit ids (importTopicsOnEach T env) s))) := by
  have hinv := eachLimit_induct
    (fun w' => w'.startTime = s.startTime ∧ w'.data.categories = s.data.categories ∧
      (∃ rest, w'.calls = s.calls ++ rest) ∧
      (w'.halted = none → InsertedAll s.data.topics w'.data.topics s.data.categories
        s.startTime (sortedSetAdds (callsSince s.calls.length w'))))
    ids (importTopicsOnEach T env)
    (fun id _ w' hP hw' => by
      obtain ⟨h1, h2, ⟨rest, h3⟩, h4⟩ := hP
      obtain ⟨r2, hr2⟩ := importTopicsOnEach_calls T env id w'
      have hc : (importTopicsOnEach T env id w').calls = s.calls ++ (rest ++ r2) := by
        rw [hr2, h3, List.append_assoc]
      refine ⟨(importTopicsOnEach_startTime T env id w').trans h1,
        (importTopicsOnEach_categories T env id w').trans h2, ⟨rest ++ r2, hc⟩, fun hh' => ?_⟩
      have hstep := importTopicsOnEach_inserted T env hkeys hdate id w' hh'
      rw [callsSince_append _ _ _ hr2, h1, h2] at hstep
      rw [callsSince_append _ _ _ hc, sortedSetAdds_append]
      have hold := h4 hw'
      rw [callsSince_append _ _ _ h3] at hold
      intro k r hr
      rcases hstep k r hr with h | h
      · rcases hold k r h with h' | h'
        · exact Or.inl h'
        · exact Or.inr (Inserted.mono _ _ _ _ _
            (fun a ha => List.mem_append_left _ ha) h')
      · exact Or.inr (Inserted.mono _ _ _ _ _ (fun a ha => List.mem_append_right _ ha) h))
    s ⟨rfl, rfl, ⟨[], by simp⟩, fun _ _ _ h => Or.inl h⟩
  exact hinv.2.2.2 hh

/-- Claim C11: when the target system answers `Topics.post` with a topic id and
without the source keys `_cid`, `_pinned`, `_timestamp`, and dates beyond
`2 ^ 53` have no ISO string, then after the topic phase has completed without
an error every topic record is the record from before the phase or has been
inserted by the phase: a `db.sortedSetAdd` on the sorted set of its category's
target id, with its target id as member and the score `2 ^ 53` when it is
pinned, else its timestamp (`_timestamp`, or the start time of the phase), which
lies below `2 ^ 53` when it is a number. -/
theorem topics_inserted_pinned_first (T : Target) (env : Env) (w : World)
    (hkeys : ∀ h d r, T.topicsPost h d = Except.ok r →
      Obj.get r.1 "tid" ≠ JsVal.undefined ∧ Obj.get r.1 "_cid" = JsVal.undefined ∧
        Obj.get r.1 "_pinned" = JsVal.undefined ∧ Obj.get r.1 "_timestamp" = JsVal.undefined)
    (hdate : ∀ n, env.toISOString (JsVal.num n) ≠ none → n < 2 ^ 53)
    (hh : (importTopics T env w).halted = none) :
    InsertedAll w.data.topics (importTopics T env w).data.topics w.data.categories
        (T.now w.calls)
        (sortedSetAdds (callsSince w.calls.length (importTopics T env w))) ∧
      (∀ startTime r, (Obj.get r "_pinned").truthy = true →
        topicScore startTime r = JsVal.num (2 ^ 53)) ∧
      (∀ startTime r, (Obj.get r "_pinned").truthy = false →
        topicScore startTime r = (Obj.get r "_timestamp").or (JsVal.num startTime)) := by
  refine ⟨?_, fun st r h => by simp [topicScore, h], fun st r h => by simp [topicScore, h]⟩
  obtain ⟨s, hd, hc, hst, hfd, hfc, hfh⟩ := importTopics_shape_calls T env w
  rw [hfh, ← hd] at hh
  have h := eachLimit_importTopicsOnEach_inserted T env hkeys hdate s.data.topics.ids s hh
  unfold callsSince at h ⊢
  rw [hst, hc, hd] at h
  rw [hfd, hfc]
  exact h

theorem sampleDateEnv_range (n : Int) (h : sampleDateEnv.toISOString (JsVal.num n) ≠ none) :
    n < 2 ^ 53 := by
  simp only [sampleDateEnv] at h
  split at h
  · omega
  · exact absurd rfl h

theorem topics_inserted_pinned_first_witness :
    InsertedAll sampleWorldImported.data.topics
        (importTopics sampleTarget sampleDateEnv sampleWorldImported).data.topics
        sampleWorldImported.data.categories (sampleTarget.now sampleWorldImported.calls)
        (sortedSetAdds (callsSince sampleWorldImported.calls.length
          (importTopics sampleTarget sampleDateEnv sampleWorldImported))) :=
  (topics_inserted_pinned_first sampleTarget sampleDateEnv sampleWorldImported
    (fun h d r hr => by
      simp only [sampleTarget] at hr
      cases hr
      simp [Obj.get])
    sampleDateEnv_range (by with_unfolding_all decide)).1

/-! ## What the closing passes and the grants do in general -/

/-- The write of one item of the re-lock pass: none for an id without a record
or a record whose `_locked` is falsy, else one write addressed with the value of
the record's `tid`, whether or not the record was imported; the item never
stops the run. -/
theorem relockUnlockedTopicsOnEach_calls (T : Target) (len : Nat) (_tid : String) (w : World) :
    callsSince w.calls.length (relockUnlockedTopicsOnEach T len _tid w)
        = (match w.data.topics.get _tid with
          | some topic =>
            if (Obj.get topic "_locked").truthy then
              [Call.dbSetObjectField ("topic:" ++ (Obj.get topic "tid").toStr) "locked"
                (JsVal.str "1")]
            else []
          | none => []) ∧
      (relockUnlockedTopicsOnEach T len _tid w).halted = w.halted := by
  unfold relockUnlockedTopicsOnEach callsSince
  simp only [progress_data, progress_calls]
  cases hget : w.data.topics.get _tid with
  | none => simp [World.warn]
  | some topic =>
    simp only []
    by_cases hl : (Obj.get topic "_locked").truthy = true
    · simp only [hl, ↓reduceIte]
      split <;> simp [World.warn, World.call]
    · simp [hl]

theorem groupJoins_append (a b : List Call) :
    groupJoins (a ++ b) = groupJoins a ++ groupJoins b := by
  unfold groupJoins
  rw [List.filterMap_append]

/-- The grants of `makeModeratorOnAllCategories`: one `Group.join` for every
listed category id that has a record, imported or not, each on the group named
after the source id. -/
theorem makeModeratorOnAllCategories_joins (T : Target) (uid : JsVal) (w : World) :
    ∃ rest, (makeModeratorOnAllCategories T uid w).1.calls = w.calls ++ rest ∧
      groupJoins rest
        = (w.data.categories.ids.filter
            (fun cid => (w.data.categories.get cid).isSome)).map
            (fun cid => ("group:cid:" ++ cid ++ ":privileges:mods:members", uid)) := by
  unfold makeModeratorOnAllCategories
  generalize w.data.categories.ids = l
  suffices h : ∀ (acc : World × Bool),
      ∃ rest, (l.foldl
        (fun (acc : World × Bool) cid =>
          match acc.1.data.categories.get cid with
          | none => (acc.1, false)
          | some _ =>
            match T.groupJoin acc.1.calls ("group:cid:" ++ cid ++ ":privileges:mods:members")
                uid with
            | some e =>
              ((acc.1.call (Call.groupJoin ("group:cid:" ++ cid ++ ":privileges:mods:members")
                uid)).warn [JsVal.str e], acc.2)
            | none =>
              (acc.1.call (Call.groupJoin ("group:cid:" ++ cid ++ ":privileges:mods:members")
                uid), acc.2))
        acc).1.calls = acc.1.calls ++ rest ∧
      groupJoins rest
        = (l.filter (fun cid => (acc.1.data.categories.get cid).isSome)).map
            (fun cid => ("group:cid:" ++ cid ++ ":privileges:mods:members", uid)) from h (w, true)
  induction l with
  | nil => intro acc; exact ⟨[], by simp, rfl⟩
  | cons cid l ih =>
    intro acc
    rw [List.foldl_cons]
    cases hget : acc.1.data.categories.get cid with
    | none =>
      obtain ⟨rest, h1, h2⟩ := ih (acc.1, false)
      exact ⟨rest, h1, by rw [h2]; simp [hget]⟩
    | some c =>
      simp only []
      cases herr : T.groupJoin acc.1.calls ("group:cid:" ++ cid ++ ":privileges:mods:members")
          uid with
      | none =>
        obtain ⟨rest, h1, h2⟩ := ih (acc.1.call (Call.groupJoin
          ("group:cid:" ++ cid ++ ":privileges:mods:members") uid), acc.2)
        refine ⟨Call.groupJoin ("group:cid:" ++ cid ++ ":privileges:mods:members") uid :: rest,
          ?_, ?_⟩
        · rw [h1]; simp [World.call]
        · have hd : (acc.1.call (Call.groupJoin
              ("group:cid:" ++ cid ++ ":privileges:mods:members") uid)).data = acc.1.data := rfl
          simp only [hd] at h2
          simp [groupJoins, hget] at h2 ⊢
          exact h2
      | some e =>
        obtain ⟨rest, h1, h2⟩ := ih ((acc.1.call (Call.groupJoin
          ("group:cid:" ++ cid ++ ":privileges:mods:members") uid)).warn [JsVal.str e], acc.2)
        refine ⟨Call.groupJoin ("group:cid:" ++ cid ++ ":privileges:mods:members") uid :: rest,
          ?_, ?_⟩
        · rw [h1]; simp [World.call, World.warn]
        · have hd : ((acc.1.call (Call.groupJoin
              ("group:cid:" ++ cid ++ ":privileges:mods:members") uid)).warn
                [JsVal.str e]).data = acc.1.data := rfl
          simp only [hd] at h2
          simp [groupJoins, hget] at h2 ⊢
          exact h2

/-- The position that `genRandPwd` reads lies in the character set whenever the
set is not empty and the draw lies in `[0, 1)`. -/
theorem genRandPwdIndex_valid (chars : String) (r : ℚ) (hc : 0 < chars.length)
    (h0 : 0 ≤ r) (h1 : r < 1) :
    0 ≤ genRandPwdIndex chars r ∧ genRandPwdIndex chars r < chars.length := by
  have hl : (1 : ℚ) ≤ (chars.length : ℚ) := by exact_mod_cast hc
  have hx0 : 0 ≤ r * ((chars.length : ℚ) - 1) := mul_nonneg h0 (by linarith)
  have hx1 : r * ((chars.length : ℚ) - 1) ≤ (chars.length : ℚ) - 1 := by
    have : r * ((chars.length : ℚ) - 1) ≤ 1 * ((chars.length : ℚ) - 1) :=
      mul_le_mul_of_nonneg_right h1.le (by linarith)
    linarith
  unfold genRandPwdIndex toFixed0
  rw [if_neg (by linarith)]
  constructor
  · exact Int.floor_nonneg.mpr (by linarith)
  · rw [Int.floor_lt]
    push_cast
    linarith

/-! ## Pinned topics after the timestamp fix -/

/-- What a completed timestamp fix leaves in the sorted sets when the answers of
its reads do not depend on the trace: every listed topic with a target id and
at least one post has the score that the pass requests for it, the timestamp of
its latest post, whatever score it had before and whether or not it is pinned. -/
theorem fixTopicTimestamps_stores_requested_score (T : Target) (w : World)
    (hrange : ∀ h h' k, T.dbGetSortedSetRevRange h k = T.dbGetSortedSetRevRange h' k)
    (hfield : ∀ h h' k f, T.dbGetObjectField h k f = T.dbGetObjectField h' k f)
    (hh : (fixTopicTimestamps T w).halted = none)
    (_tid : String) (h_tid : _tid ∈ w.data.topics.ids) (topic : Obj)
    (hget : w.data.topics.get _tid = some topic)
    (htid : (Obj.get topic "tid").truthy = true) (key : String) (s : JsVal)
    (hw : fixTopicTimestampsWrite T (Obj.get topic "tid").toStr = some (key, s)) :
    sortedSetScore T (fixTopicTimestamps T w).calls key (Obj.get topic "tid") = some s := by
  obtain ⟨s1, -, hs1d, -, hc1, hh1⟩ := fixTopicTimestamps_shape T w
  rw [hh1] at hh
  rw [hc1]
  generalize w.data.topics.ids.length = len at hc1 hh ⊢
  have hfirst := eachLimit_establish (fun w' => w'.data = w.data)
    (fun id w' => ∀ topic k s, w.data.topics.get id = some topic →
      (Obj.get topic "tid").truthy = true →
      fixTopicTimestampsWrite T (Obj.get topic "tid").toStr = some (k, s) →
      sortedSetScore T w'.calls k (Obj.get topic "tid") = some s)
    w.data.topics.ids (fixTopicTimestampsOnEach T len)
    (fun id _ w' h => (fixTopicTimestampsOnEach_data T len id w').trans h)
    (fun id _ w' hP hnh topic k s ht htid hw =>
      fixTopicTimestampsOnEach_written T hrange hfield len id w' topic k s hnh
        (by rw [hP]; exact ht) htid hw)
    (fun id _ id' _ w' hP hQ topic k s ht htid hw => by
      rcases fixTopicTimestampsOnEach_scores T hrange hfield len id' w' k (Obj.get topic "tid")
        with h | ⟨topic', s', _, _, hw', hm, hsc⟩
      · rw [h]; exact hQ topic k s ht htid hw
      · rw [hsc]
        rw [hm, hw'] at hw
        simp only [Option.some.injEq, Prod.mk.injEq] at hw
        rw [hw.2])
    s1 hs1d hh
  exact hfirst.2 _tid h_tid topic key s hget htid hw

/-- Claim C21: in a run with one pinned topic, dated 2000, and one reply to it,
dated 5000, the topic phase imports the topic as topic 9 and inserts it into the
ordering of its category 7 with the score `2 ^ 53`; after the post phase, the
re-lock pass and the timestamp fix, which all end without an error, the score
of topic 9 in that ordering is 5000, the timestamp of its latest post. -/
theorem pinned_score_overwritten_by_timestamp_fix :
    ((importTopics pinnedTarget sampleEnv sampleWorldPinned).data.topics.get "t2").map
        (fun r => (Obj.get r "imported", Obj.get r "_pinned", Obj.get r "pinned",
          Obj.get r "tid"))
      = some (JsVal.bool true, JsVal.bool true, JsVal.num 1, JsVal.num 9) ∧
    sortedSetScore pinnedTarget (importTopics pinnedTarget sampleEnv sampleWorldPinned).calls
      "categories:7:tid" (JsVal.num 9) = some (JsVal.num (2 ^ 53)) ∧
    (fixTopicTimestamps pinnedTarget (relockUnlockedTopics pinnedTarget
      (importPosts pinnedTarget sampleEnv
        (importTopics pinnedTarget sampleEnv sampleWorldPinned)))).halted = none ∧
    sortedSetAdds (fixTopicTimestamps pinnedTarget (relockUnlockedTopics pinnedTarget
      (importPosts pinnedTarget sampleEnv
        (importTopics pinnedTarget sampleEnv sampleWorldPinned)))).calls
      = [("categories:7:tid", JsVal.num (2 ^ 53), JsVal.num 9),
         ("categories:7:tid", JsVal.num 5000, JsVal.num 9)] ∧
    sortedSetScore pinnedTarget (fixTopicTimestamps pinnedTarget
      (relockUnlockedTopics pinnedTarget (importPosts pinnedTarget sampleEnv
        (importTopics pinnedTarget sampleEnv sampleWorldPinned)))).calls
      "categories:7:tid" (JsVal.num 9) = some (JsVal.num 5000) := by
  refine ⟨?_, ?_, ?_, ?_, ?_⟩ <;> with_unfolding_all rfl

end Importer
